import Mathlib

/-!
# Lightspark: the frame pipeline of `swf.cpp`

A shallow embedding of the frame store (`RootMovieClip`), the coordinator
(`SystemState`), the header decoder (`SWF_HEADER`) and the parser job
(`ParseThread::execute`) of `src/swf.cpp`, with the properties of the
specification stated over it.

Conventions of the embedding:
* pointers to tag objects are the tag values themselves;
* `cur_frame`, a pointer into the `frames` vector, is an index (`none` is `NULL`);
* a counting semaphore is its count; `sem_post` adds one;
* a function that may throw returns a `Res`, which keeps the state reached
  at the `throw`, since the objects outlive the exception.
-/

namespace Lightspark

/-! ## Results of throwing code -/

/-- Outcome of a call: normal return, a `LightsparkException` with its cause
leaving the call (with the state reached at the throw), or a crash
(undefined behaviour such as a null dereference, or an exception that is not
a `LightsparkException`). -/
inductive Res (σ : Type) where
  | ok (s : σ)
  | threw (cause : String) (s : σ)
  | crash
  deriving DecidableEq, Repr

/-- Sequencing within one state type: the continuation runs only after a
normal return. -/
def Res.andThen {σ : Type} (r : Res σ) (k : σ → Res σ) : Res σ :=
  match r with
  | .ok s => k s
  | .threw c s => .threw c s
  | .crash => .crash

/-- Transports the state of an outcome, at a normal return and at a throw. -/
def Res.map {σ τ : Type} (g : σ → τ) : Res σ → Res τ
  | .ok s => .ok (g s)
  | .threw c s => .threw c (g s)
  | .crash => .crash

/-- The state a call leaves behind when the caller goes on (normal return, or
an exception that was caught further up); `none` after a crash. -/
def Res.state? {σ : Type} : Res σ → Option σ
  | .ok s => some s
  | .threw _ s => some s
  | .crash => none

/-! ## Tags and frames -/

/-- The classes `Tag::getType` distinguishes in the switch of `ParseThread::execute`. -/
inductive TagType where
  | END_TAG
  | DICT_TAG
  | DISPLAY_LIST_TAG
  | SHOW_TAG
  | CONTROL_TAG
  | FRAMELABEL_TAG
  | TAG
  deriving DecidableEq, Repr

/-- A decoded tag object: its class, an identity standing for the pointer, and
the `Name` field that a `FrameLabelTag` carries. -/
structure Tag where
  type : TagType
  id : Nat
  Name : String
  deriving DecidableEq, Repr

/-- Modelled from the spec: the declaration of `Frame` is not part of the source
file. "Frame: ordered sequence of display/control operations plus an optional
label string"; the source uses the members `Label` and `controls`, and
`blueprint` receives the display list tags. -/
structure Frame where
  Label : String
  blueprint : List Tag
  controls : List Tag
  deriving DecidableEq, Repr

/-- The default constructed frame, `Frame()`. -/
def Frame.new : Frame := { Label := "", blueprint := [], controls := [] }

/-- A `std::vector<Frame>`: its elements and the allocated slots beyond them,
so that `capacity() = size() + spare` and `size() <= capacity()` by construction. -/
structure FrameVector where
  data : List Frame
  spare : Nat
  deriving DecidableEq, Repr

/-- The call `frames.size()`. -/
def FrameVector.size (v : FrameVector) : Nat := v.data.length

/-- The call `frames.capacity()`. -/
def FrameVector.capacity (v : FrameVector) : Nat := v.data.length + v.spare

/-- The call `frames.push_back(f)`: uses a spare slot when there is one, and
otherwise reallocates to twice the size (at least one slot), the growth of
libstdc++. -/
def FrameVector.push_back (v : FrameVector) (f : Frame) : FrameVector :=
  match v.spare with
  | 0 => { data := v.data ++ [f], spare := max v.data.length 1 - 1 }
  | n + 1 => { data := v.data ++ [f], spare := n }

/-- The call `frames.pop_back()` on a non-empty vector: the capacity is kept. -/
def FrameVector.pop_back (v : FrameVector) : FrameVector :=
  { data := v.data.dropLast, spare := v.spare + 1 }

/-- The call `frames.reserve(n)` for `n` within `max_size()`: the capacity
becomes `n` when it was smaller. -/
def FrameVector.reserve (v : FrameVector) (n : Nat) : FrameVector :=
  { data := v.data, spare := max v.spare (n - v.data.length) }

/-- Applies `g` to the last element, as an assignment through `frames.back()` does. -/
def modifyLast (g : Frame → Frame) : List Frame → List Frame
  | [] => []
  | [f] => [g f]
  | f :: f2 :: fs => f :: modifyLast g (f2 :: fs)

/-- Applies `g` to the element at index `i`, as a write through a pointer to that element does. -/
def modifyAt (g : Frame → Frame) : Nat → List Frame → List Frame
  | _, [] => []
  | 0, f :: fs => g f :: fs
  | i + 1, f :: fs => f :: modifyAt g i fs

/-- The rectangle type `RECT` of the header. -/
structure RECT where
  Xmin : Int
  Xmax : Int
  Ymin : Int
  Ymax : Int
  deriving DecidableEq, Repr

/-! ## Single precision arithmetic

`float` is the IEEE 754 binary32 format and every operation is rounded to the
nearest value, ties to even, with no excess precision (what SSE arithmetic
gives). The modelled code only meets finite floats that are not negative;
such a float is a multiple of `2^-149` and is held as its number of units.
Overflow to infinity is not modelled: the values met stay far below it. -/

/-- The quotient `n / d` rounded to the nearest integer, ties to even. -/
def roundNearestEven (n d : Nat) : Nat :=
  let q := n / d
  let r := n % d
  if 2 * r < d then q
  else if d < 2 * r then q + 1
  else if q % 2 = 0 then q
  else q + 1

/-- Binary search for the position of the leading bit: `acc` is a position
known to be set or below, and the steps `2^k` still to try are those below
`2^k`. -/
def leadingBitFrom : Nat → Nat → Nat → Nat
  | 0, _, acc => acc
  | k + 1, x, acc =>
    if 2 ^ (acc + 2 ^ k) ≤ x then leadingBitFrom k x (acc + 2 ^ k) else leadingBitFrom k x acc

/-- The largest `a` with `2^a ≤ x`, for `1 ≤ x < 2^1024`; `0` for `x = 0`. -/
def leadingBit (x : Nat) : Nat := leadingBitFrom 10 x 0

/-- The quotient `n / d`, counted in units of `2^-149`, rounded to a float:
24 significant bits are kept, and below `2^24` units (the subnormal range and
the first binade) the spacing is one unit. -/
def roundUnits (n d : Nat) : Nat :=
  let s := leadingBit (n / d) + 1 - 24
  roundNearestEven n (d * 2 ^ s) * 2 ^ s

/-- A finite `float` that is not negative, as its number of units of `2^-149`. -/
structure Binary32 where
  units : Nat
  deriving DecidableEq, Repr

/-- The value of a float. -/
def Binary32.toRat (x : Binary32) : ℚ := (x.units : ℚ) / 2 ^ 149

/-- The conversion of an unsigned integer to `float`. -/
def Binary32.ofNat (n : Nat) : Binary32 := { units := roundUnits (n * 2 ^ 149) 1 }

/-- Float division. -/
def Binary32.div (a b : Binary32) : Binary32 := { units := roundUnits (a.units * 2 ^ 149) b.units }

/-- Float addition. -/
def Binary32.add (a b : Binary32) : Binary32 := { units := roundUnits (a.units + b.units) 1 }

/-- Float multiplication. -/
def Binary32.mul (a b : Binary32) : Binary32 := { units := roundUnits (a.units * b.units) (2 ^ 149) }

/-- The call `lrint` in the default rounding mode: to the nearest integer, ties
to even. -/
def lrint (x : Binary32) : Int := (roundNearestEven x.units (2 ^ 149) : Nat)

/-- The lines `float frameRate=FrameRate; frameRate/=256;` of the header
constructor, in float arithmetic. -/
def headerFrameRate (FrameRate : Nat) : Binary32 := (Binary32.ofNat FrameRate).div (Binary32.ofNat 256)

/-! ## The coordinator: `SystemState` -/

/-- The events the modelled code posts to the virtual machine. A `MouseEvent`
is posted to a target object, named by its address. -/
inductive VmEvent where
  | ShutdownEvent
  | BindClassEvent (bindName : String)
  | init
  | SynchronizationEvent
  | MouseEvent (target : Nat) (type : String)
  deriving DecidableEq, Repr

/-- The virtual machine as the source sees it: `addEvent` is external, its
boolean result (which `RootMovieClip::initialize` tests) is the field
`accepting`, and accepted events are queued in order. -/
structure ABCVm where
  events : List VmEvent
  accepting : Bool
  deriving DecidableEq, Repr

/-- The call `currentVm->addEvent(obj, ev)`; the second component is its result. -/
def ABCVm.addEvent (vm : ABCVm) (ev : VmEvent) : ABCVm × Bool :=
  if vm.accepting then ({ vm with events := vm.events ++ [ev] }, true) else (vm, false)

/-- The tick jobs the modelled code registers with the timer. -/
inductive ITickJob where
  | root
  | renderThread
  deriving DecidableEq, Repr

/-- The calls made to the external `TimerThread`, in order. The tick time of
`addTick` is `none` when the conversion of the float quotient to `uint32_t`
is out of range. -/
inductive TimerCall where
  | addTick (tickTime : Option Nat) (job : ITickJob)
  | removeJob (job : ITickJob)
  | stop
  deriving DecidableEq, Repr

/-- The render thread as far as `RenderThread::draw` goes: the count of the
`render` semaphore (the frames-per-second bookkeeping reads the wall clock
and is left out). -/
structure RenderThread where
  render : Nat
  deriving DecidableEq, Repr

/-- The call `RenderThread::draw`: `sem_post(&render)`. -/
def RenderThread.draw (rt : RenderThread) : RenderThread := { rt with render := rt.render + 1 }

/-- The members of `SystemState` the modelled functions read or write. Rates
are `float` in the source and rationals here. -/
structure SystemState where
  renderRate : ℚ
  error : Bool
  errorCause : String
  shutdown : Bool
  renderThread : Option RenderThread
  currentVm : Option ABCVm
  timerThread : List TimerCall
  terminated : Nat
  tagsStorage : List Tag
  deriving DecidableEq, Repr

/-- The conversion of the float quotient `1000/rate` to the `uint32_t` tick
time: the quotient is rounded to a float, the rate being one, and the
conversion drops its fraction. The result is `none` when the conversion is out
of range (a rate that is not positive, or a quotient of `2^32` or more). -/
def tickTime (rate : ℚ) : Option Nat :=
  if 0 < rate then
    let quotient := roundUnits (1000 * rate.den * 2 ^ 149) rate.num.toNat
    if quotient / 2 ^ 149 < 4294967296 then some (quotient / 2 ^ 149) else none
  else none

/-- The call `SystemState::isOnError`. -/
def SystemState.isOnError (s : SystemState) : Bool := s.error

/-- The call `SystemState::isShuttingDown`. -/
def SystemState.isShuttingDown (s : SystemState) : Bool := s.shutdown

/-- The call `SystemState::shouldTerminate`. -/
def SystemState.shouldTerminate (s : SystemState) : Bool := s.shutdown || s.error

/-- The call `SystemState::addTick`: forwarded to the timer. -/
def SystemState.addTick (tickTime : Option Nat) (job : ITickJob) (s : SystemState) : SystemState :=
  { s with timerThread := s.timerThread ++ [TimerCall.addTick tickTime job] }

/-- The call `SystemState::removeJob`: forwarded to the timer. -/
def SystemState.removeJob (job : ITickJob) (s : SystemState) : SystemState :=
  { s with timerThread := s.timerThread ++ [TimerCall.removeJob job] }

/-- The call `SystemState::setError`: only the first error is recorded; it stops
the timer and, when there is a render thread, removes its job and asks for
one draw. -/
def SystemState.setError (c : String) (s : SystemState) : SystemState :=
  if !s.error then
    let s1 := { s with error := true, errorCause := c, timerThread := s.timerThread ++ [TimerCall.stop] }
    match s1.renderThread with
    | some rt => { s1.removeJob ITickJob.renderThread with renderThread := some rt.draw }
    | none => s1
  else s

/-- The call `SystemState::setShutdownFlag`. -/
def SystemState.setShutdownFlag (s : SystemState) : SystemState :=
  let s1 := { s with shutdown := true }
  let s2 := match s1.currentVm with
    | some vm => { s1 with currentVm := some (vm.addEvent VmEvent.ShutdownEvent).1 }
    | none => s1
  { s2 with terminated := s2.terminated + 1 }

/-- The call `SystemState::startRenderTicks`; a failing `assert` aborts the process. -/
def SystemState.startRenderTicks (s : SystemState) : Res SystemState :=
  match s.renderThread with
  | none => Res.crash
  | some _ =>
    if s.renderRate = 0 then Res.crash
    else Res.ok ((s.removeJob ITickJob.renderThread).addTick (tickTime s.renderRate) ITickJob.renderThread)

/-- The call `SystemState::setRenderRate`. -/
def SystemState.setRenderRate (rate : ℚ) (s : SystemState) : Res SystemState :=
  if s.renderRate ≥ rate then Res.ok s
  else
    let s1 := { s with renderRate := rate }
    match s1.renderThread with
    | some _ => s1.startRenderTicks
    | none => Res.ok s1

/-! ## The frame store: `RootMovieClip` -/

/-- The members of `RootMovieClip` (and of its base `MovieClip`) the modelled
functions read or write. `next_FP` and `max_FP` are the members of `state`;
`bootstraps` counts the calls made to the external `MovieClip::bootstrap`. -/
structure RootMovieClip where
  frames : FrameVector
  cur_frame : Option Nat
  framesLoaded : Nat
  totalFrames : Int
  max_FP : Int
  next_FP : Nat
  initialized : Bool
  parsingIsFailed : Bool
  frameRate : ℚ
  frameSize : RECT
  new_frame : Nat
  sem_valid_size : Nat
  sem_valid_rate : Nat
  bindName : String
  dictionary : List Tag
  version : Nat
  fileLenght : Nat
  bootstraps : Nat
  deriving DecidableEq, Repr

/-- The parser job: the members of `ParseThread` and of its base `IThreadJob`
that `execute` reads or writes. -/
structure ParseThread where
  version : Nat
  aborting : Bool
  ended : Nat
  deriving DecidableEq, Repr

/-- The objects the parser job works on: `pt->root`, `sys` and `pt` itself. -/
structure World where
  root : RootMovieClip
  sys : SystemState
  pt : ParseThread
  deriving DecidableEq, Repr

/-- Modelled from the spec: the constructor of the base class `MovieClip` is not
part of the source file. A fresh store has "framesLoaded = 0, one in-progress
frame", which is also what `setFrameCount` asserts of it
(`cur_frame==&frames.back()`); the other members are as
`RootMovieClip::RootMovieClip` initialises them. -/
def RootMovieClip.fresh : RootMovieClip :=
  { frames := { data := [Frame.new], spare := 0 }
    cur_frame := some 0
    framesLoaded := 0
    totalFrames := 1
    max_FP := 0
    next_FP := 0
    initialized := false
    parsingIsFailed := false
    frameRate := 0
    frameSize := { Xmin := 0, Xmax := 0, Ymin := 0, Ymax := 0 }
    new_frame := 0
    sem_valid_size := 0
    sem_valid_rate := 0
    bindName := ""
    dictionary := []
    version := 0
    fileLenght := 0
    bootstraps := 0 }

/-- The call `RootMovieClip::parsingFailed`. -/
def RootMovieClip.parsingFailed (r : RootMovieClip) : RootMovieClip :=
  { r with
    parsingIsFailed := true
    new_frame := r.new_frame + 1
    sem_valid_size := r.sem_valid_size + 1
    sem_valid_rate := r.sem_valid_rate + 1 }

/-- The call `RootMovieClip::setFrameCount`. `frames.back()` of an empty vector
is undefined, and `reserve` of a negative `int` throws `std::length_error`. -/
def RootMovieClip.setFrameCount (f : Int) (r : RootMovieClip) : Res RootMovieClip :=
  let r1 := { r with totalFrames := f, max_FP := f }
  if r1.frames.size = 0 then Res.crash
  else if r1.cur_frame ≠ some (r1.frames.size - 1) then Res.threw "cur_frame==&frames.back()" r1
  else if f < 0 then Res.crash
  else Res.ok { r1 with frames := r1.frames.reserve f.toNat, cur_frame := some (r1.frames.size - 1) }

/-- The call `RootMovieClip::setFrameSize`: the size is stored before the
assertion on its origin is tested. -/
def RootMovieClip.setFrameSize (f : RECT) (r : RootMovieClip) : Res RootMovieClip :=
  let r1 := { r with frameSize := f }
  if f.Xmin = 0 ∧ f.Ymin = 0 then Res.ok { r1 with sem_valid_size := r1.sem_valid_size + 1 }
  else Res.threw "f.Xmin==0 && f.Ymin==0" r1

/-- The call `RootMovieClip::setFrameRate`. -/
def RootMovieClip.setFrameRate (f : ℚ) (r : RootMovieClip) : RootMovieClip :=
  { r with frameRate := f, sem_valid_rate := r.sem_valid_rate + 1 }

/-- The call `RootMovieClip::addToDictionary`. -/
def RootMovieClip.addToDictionary (d : Tag) (r : RootMovieClip) : RootMovieClip :=
  { r with dictionary := r.dictionary ++ [d] }

/-- Writes through the pointer `cur_frame`: undefined when it is `NULL` or
does not point at an element. -/
def RootMovieClip.throughCurFrame (g : Frame → Frame) (r : RootMovieClip) : Res RootMovieClip :=
  match r.cur_frame with
  | none => Res.crash
  | some i =>
    if i < r.frames.size then Res.ok { r with frames := { r.frames with data := modifyAt g i r.frames.data } }
    else Res.crash

/-- Modelled from the spec: `MovieClip::addToFrame`, which
`RootMovieClip::addToFrame(DisplayListTag*)` calls under its mutex, is not part
of the source file; a "display-list-mutation" is "append to current frame". -/
def RootMovieClip.addToFrameDisplayList (t : Tag) (r : RootMovieClip) : Res RootMovieClip :=
  r.throughCurFrame fun fr => { fr with blueprint := fr.blueprint ++ [t] }

/-- The call `RootMovieClip::addToFrame(ControlTag*)`:
`cur_frame->controls.push_back(t)`. -/
def RootMovieClip.addToFrameControl (t : Tag) (r : RootMovieClip) : Res RootMovieClip :=
  r.throughCurFrame fun fr => { fr with controls := fr.controls ++ [t] }

/-- The call `RootMovieClip::labelCurrentFrame`: `frames.back().Label=name`. -/
def RootMovieClip.labelCurrentFrame (name : String) (r : RootMovieClip) : Res RootMovieClip :=
  if r.frames.size = 0 then Res.crash
  else Res.ok { r with frames := { r.frames with data := modifyLast (fun fr => { fr with Label := name }) r.frames.data } }

/-- The call `RootMovieClip::revertFrame`. -/
def RootMovieClip.revertFrame (r : RootMovieClip) : Res RootMovieClip :=
  if r.frames.size ≠ 0 ∧ r.framesLoaded = r.frames.size - 1 then
    Res.ok { r with frames := r.frames.pop_back, cur_frame := none }
  else Res.threw "frames.size() && framesLoaded==(frames.size()-1)" r

/-- The events `RootMovieClip::initialize` posts: the class binding when a
name was bound, the `init` event, and a synchronisation event, whose
`addEvent` result is the second component. -/
def initEvents (bindName : String) (vm : ABCVm) : ABCVm × Bool :=
  let vm1 := if bindName.length ≠ 0 then (vm.addEvent (VmEvent.BindClassEvent bindName)).1 else vm
  let vm2 := (vm1.addEvent VmEvent.init).1
  vm2.addEvent VmEvent.SynchronizationEvent

/-- The call `RootMovieClip::initialize`: when the root is not yet initialised
and there is a virtual machine, posts its events and throws when the
synchronisation event is refused (the wait for its handling is taken to
return). -/
def initializeRoot (w : World) : Res World :=
  match w.sys.currentVm with
  | none => Res.ok w
  | some vm =>
    if w.root.initialized then Res.ok w
    else
      let added := initEvents w.root.bindName vm
      let w1 := { w with root := { w.root with initialized := true },
                         sys := { w.sys with currentVm := some added.1 } }
      if added.2 then Res.ok w1 else Res.threw "Could not add event" w1

/-- The first statements of `RootMovieClip::commitFrame`: `framesLoaded` takes
the size of the vector, then a new frame is pushed and becomes the frame in
progress, or `cur_frame` becomes `NULL`. -/
def RootMovieClip.publishFrame (another : Bool) (r : RootMovieClip) : RootMovieClip :=
  let r1 := { r with framesLoaded := r.frames.size }
  if another then
    { r1 with frames := r1.frames.push_back Frame.new, cur_frame := some r1.frames.size }
  else { r1 with cur_frame := none }

/-- The body of `if(framesLoaded==1)` in `RootMovieClip::commitFrame`: the
external `bootstrap` (counted, taken to return), `initialize`, and the
registration of the frame tick. -/
def firstFrameReady (w : World) : Res World :=
  (initializeRoot { w with root := { w.root with bootstraps := w.root.bootstraps + 1 } }).andThen fun w1 =>
    Res.ok { w1 with sys := w1.sys.addTick (tickTime w1.root.frameRate) ITickJob.root }

/-- The last statement of `RootMovieClip::commitFrame`: `sem_post(&new_frame)`. -/
def postNewFrame (w : World) : World :=
  { w with root := { w.root with new_frame := w.root.new_frame + 1 } }

/-- The call `RootMovieClip::commitFrame`. -/
def commitFrame (another : Bool) (w : World) : Res World :=
  let w1 := { w with root := w.root.publishFrame another }
  if ¬ (w1.root.frames.size ≤ w1.root.frames.capacity) then
    Res.threw "frames.size()<=frames.capacity()" w1
  else
    (if w1.root.framesLoaded = 1 then firstFrameReady w1 else Res.ok w1).andThen fun w2 =>
      Res.ok (postNewFrame w2)

/-- What a call of `RootMovieClip::Render` comes to when no other thread runs
meanwhile: it goes on to `MovieClip::Render()`, it returns without drawing, or
it stays blocked in `sem_wait(&new_frame)`. -/
inductive RenderOutcome where
  | draws
  | returnsWithoutDrawing
  | waits
  deriving DecidableEq, Repr

/-- The loop of `RootMovieClip::Render`, with `n` the count of `new_frame`:
each turn tests `state.next_FP<frames.size()`, then takes one signal and tests
`parsingIsFailed`. -/
def RenderLoop (r : RootMovieClip) : Nat → RenderOutcome × Nat
  | 0 => if r.next_FP < r.frames.size then (RenderOutcome.draws, 0) else (RenderOutcome.waits, 0)
  | n + 1 =>
    if r.next_FP < r.frames.size then (RenderOutcome.draws, n + 1)
    else if r.parsingIsFailed then (RenderOutcome.returnsWithoutDrawing, n)
    else RenderLoop r n

/-- The call `RootMovieClip::Render`: its outcome and the store it leaves. -/
def RootMovieClip.Render (r : RootMovieClip) : RenderOutcome × RootMovieClip :=
  ((RenderLoop r r.new_frame).1, { r with new_frame := (RenderLoop r r.new_frame).2 })

/-! ## Sequences of frame store calls -/

/-- Lifts a call on the store to the objects of the parser job. -/
def World.onRoot (g : RootMovieClip → Res RootMovieClip) (w : World) : Res World :=
  (g w.root).map fun r => { w with root := r }

/-- The calls that mutate the frame store. -/
inductive StoreOp where
  | commitFrame (another : Bool)
  | revertFrame
  | labelCurrentFrame (name : String)
  | addToFrameDisplayList (t : Tag)
  | addToFrameControl (t : Tag)
  | setFrameCount (f : Int)
  | parsingFailed
  | setFrameSize (f : RECT)
  | setFrameRate (f : ℚ)
  | addToDictionary (d : Tag)
  deriving DecidableEq, Repr

/-- Runs one call. -/
def StoreOp.apply : StoreOp → World → Res World
  | .commitFrame another, w => Lightspark.commitFrame another w
  | .revertFrame, w => w.onRoot RootMovieClip.revertFrame
  | .labelCurrentFrame name, w => w.onRoot (RootMovieClip.labelCurrentFrame name)
  | .addToFrameDisplayList t, w => w.onRoot (RootMovieClip.addToFrameDisplayList t)
  | .addToFrameControl t, w => w.onRoot (RootMovieClip.addToFrameControl t)
  | .setFrameCount f, w => w.onRoot (RootMovieClip.setFrameCount f)
  | .parsingFailed, w => Res.ok { w with root := w.root.parsingFailed }
  | .setFrameSize f, w => w.onRoot (RootMovieClip.setFrameSize f)
  | .setFrameRate f, w => Res.ok { w with root := w.root.setFrameRate f }
  | .addToDictionary d, w => Res.ok { w with root := w.root.addToDictionary d }

/-- Runs a sequence of calls, each on the state the previous one left (also
when that one threw and the caller caught the exception); `none` when a call
crashes. -/
def runOps : List StoreOp → World → Option World
  | [], w => some w
  | op :: ops, w =>
    match (op.apply w).state? with
    | some w1 => runOps ops w1
    | none => none

/-- Runs a sequence of calls in which no exception is caught: the first call
that throws ends the sequence with its exception. -/
def runCalls : List StoreOp → World → Res World
  | [], w => Res.ok w
  | op :: ops, w => (op.apply w).andThen (runCalls ops)

/-- The call is an append of a tag to the frame in progress. -/
def StoreOp.isAppend : StoreOp → Bool
  | .addToFrameDisplayList _ => true
  | .addToFrameControl _ => true
  | _ => false

/-- The call is a commit. -/
def StoreOp.isCommit : StoreOp → Bool
  | .commitFrame _ => true
  | _ => false

/-- The number of calls `commitFrame(true)` in a sequence. -/
def continuations (ops : List StoreOp) : Nat := ops.count (StoreOp.commitFrame true)

/-- The coordinator as `SystemState::SystemState` leaves it: no rate, no error,
no shutdown, no engines, no virtual machine, an idle timer. -/
def SystemState.new : SystemState :=
  { renderRate := 0
    error := false
    errorCause := ""
    shutdown := false
    renderThread := none
    currentVm := none
    timerThread := []
    terminated := 0
    tagsStorage := [] }

/-- The parser job as `ParseThread::ParseThread` leaves it. -/
def ParseThread.new : ParseThread := { version := 0, aborting := false, ended := 0 }

/-- A fresh store next to any coordinator and parser state. -/
def World.fresh (sys : SystemState) (pt : ParseThread) : World :=
  { root := RootMovieClip.fresh, sys := sys, pt := pt }

/-- The states of the store that calls can lead to from a fresh one. Between
calls other threads may change the coordinator and the parser job, and the
playback position `next_FP`. -/
inductive Reachable : World → Prop where
  | fresh (sys : SystemState) (pt : ParseThread) : Reachable (World.fresh sys pt)
  | call (op : StoreOp) (w w1 : World) :
      Reachable w → (op.apply w).state? = some w1 → Reachable w1
  | others (w : World) (sys : SystemState) (pt : ParseThread) (next_FP : Nat) :
      Reachable w → Reachable { root := { w.root with next_FP := next_FP }, sys := sys, pt := pt }

/-! ## The header: `SWF_HEADER` -/

/-- The fields that `operator>>` decodes from the head of the stream. -/
structure HeaderFields where
  Signature0 : Char
  Signature1 : Char
  Signature2 : Char
  Version : Nat
  FileLength : Nat
  FrameSize : RECT
  FrameRate : Nat
  FrameCount : Nat
  deriving DecidableEq, Repr

/-- The three signature bytes. -/
def HeaderFields.Signature (i : HeaderFields) : List Char := [i.Signature0, i.Signature1, i.Signature2]

/-- The header object: the decoded fields and the member `valid`. -/
structure SWF_HEADER where
  fields : HeaderFields
  valid : Bool
  deriving DecidableEq, Repr

/-- The constructor `SWF_HEADER::SWF_HEADER`; `none` when an `assert` under
`setRenderRate` aborts the process. -/
def SWF_HEADER.ctor (i : HeaderFields) (w : World) : Option (SWF_HEADER × World) :=
  if (i.Signature0 = 'F' ∧ i.Signature1 = 'W' ∧ i.Signature2 = 'S')
      ∨ (i.Signature0 = 'C' ∧ i.Signature1 = 'W' ∧ i.Signature2 = 'S') then
    let w1 := { w with pt := { w.pt with version := i.Version } }
    let frameRate : ℚ := (i.FrameRate : ℚ) / 256
    let w2 := { w1 with root := w1.root.setFrameRate frameRate }
    match w2.sys.setRenderRate frameRate with
    | Res.ok sys =>
      some ({ fields := i, valid := true },
        { w2 with sys := sys, root := { w2.root with version := i.Version, fileLenght := i.FileLength } })
    | _ => none
  else some ({ fields := i, valid := false }, w)

/-! ## The parser job: `ParseThread::execute` -/

/-- What `factory.readTag()` comes to: a tag object, or a decode exception. -/
inductive ReadResult where
  | tag (t : Tag)
  | throws (cause : String)
  deriving DecidableEq, Repr

/-- What another thread does while the parser reads a unit. Modelled from the
spec: `IThreadJob::stop` is not part of the source file; the "cooperative abort
request" sets `aborting` and calls `threadAbort`. -/
inductive EnvAction where
  | setShutdownFlag
  | setError (c : String)
  | stop
  deriving DecidableEq, Repr

/-- The call `ParseThread::threadAbort`. -/
def threadAbort (w : World) : World := { w with root := w.root.parsingFailed }

/-- Runs the action of another thread. -/
def EnvAction.apply : EnvAction → World → World
  | .setShutdownFlag, w => { w with sys := w.sys.setShutdownFlag }
  | .setError c, w => { w with sys := w.sys.setError c }
  | .stop, w => threadAbort { w with pt := { w.pt with aborting := true } }

/-- One turn of the loop as the stream and the other threads present it: what
the other threads do while the unit is read, and what the read comes to. -/
structure StreamUnit where
  env : List EnvAction
  read : ReadResult
  deriving DecidableEq, Repr

/-- The locals of `ParseThread::execute` next to the objects it works on. -/
structure ParseLocals where
  w : World
  done : Bool
  empty : Bool
  deriving DecidableEq, Repr

/-- The `switch(tag->getType())` of the loop (the external `root->check()` and
`setLoadedFrom` are taken to return). -/
def switchOnTag (t : Tag) (l : ParseLocals) : Res ParseLocals :=
  match t.type with
  | .END_TAG =>
    ((if !l.empty then commitFrame false l.w else l.w.onRoot RootMovieClip.revertFrame).map
      fun w1 => { l with w := w1 }).andThen fun l1 => Res.ok { l1 with done := true }
  | .DICT_TAG => Res.ok { l with w := { l.w with root := l.w.root.addToDictionary t } }
  | .DISPLAY_LIST_TAG =>
    ((l.w.onRoot (RootMovieClip.addToFrameDisplayList t)).map
      fun w1 => { l with w := w1 }).andThen fun l1 => Res.ok { l1 with empty := false }
  | .SHOW_TAG =>
    ((commitFrame true l.w).map
      fun w1 => { l with w := w1 }).andThen fun l1 => Res.ok { l1 with empty := true }
  | .CONTROL_TAG =>
    ((l.w.onRoot (RootMovieClip.addToFrameControl t)).map
      fun w1 => { l with w := w1 }).andThen fun l1 => Res.ok { l1 with empty := false }
  | .FRAMELABEL_TAG =>
    ((l.w.onRoot (RootMovieClip.labelCurrentFrame t.Name)).map
      fun w1 => { l with w := w1 }).andThen fun l1 => Res.ok { l1 with empty := false }
  | .TAG => Res.ok l

/-- How the body of the `try` block ends: the loop is left, an exception
reaches the `catch`, the process crashes, or the stream has no further unit
yet and `readTag` blocks. -/
inductive LoopOutcome where
  | left (w : World)
  | threw (cause : String) (w : World)
  | crashed
  | awaitingInput (w : World)
  deriving DecidableEq, Repr

/-- The `while(!done)` loop of `ParseThread::execute` over the units the stream
presents, from the value of `empty`. -/
def tagLoop : List StreamUnit → Bool → World → LoopOutcome
  | [], _, w => LoopOutcome.awaitingInput w
  | u :: us, empty, w =>
    let w0 := u.env.foldl (fun x a => a.apply x) w
    match u.read with
    | .throws c => LoopOutcome.threw c w0
    | .tag t =>
      let w1 := { w0 with sys := { w0.sys with tagsStorage := w0.sys.tagsStorage ++ [t] } }
      match switchOnTag t { w := w1, done := false, empty := empty } with
      | .crash => LoopOutcome.crashed
      | .threw c l => LoopOutcome.threw c l.w
      | .ok l =>
        if l.w.sys.shouldTerminate || l.w.pt.aborting then LoopOutcome.left l.w
        else if l.done then LoopOutcome.left l.w
        else tagLoop us l.empty l.w

/-- The statements of the `try` block before the loop: the header is
constructed and tested, then `setFrameSize` and `setFrameCount` are called. -/
def headerPhase (i : HeaderFields) (w : World) : Res World :=
  match SWF_HEADER.ctor i w with
  | none => Res.crash
  | some (h, w1) =>
    if !h.valid then Res.threw "Not an SWF file" w1
    else
      (w1.onRoot (RootMovieClip.setFrameSize h.fields.FrameSize)).andThen fun w2 =>
        w2.onRoot (RootMovieClip.setFrameCount h.fields.FrameCount)

/-- The body of the `try` block of `ParseThread::execute`. -/
def tryBlock (i : HeaderFields) (units : List StreamUnit) (w : World) : LoopOutcome :=
  match headerPhase i w with
  | .crash => LoopOutcome.crashed
  | .threw c w1 => LoopOutcome.threw c w1
  | .ok w1 => tagLoop units true w1

/-- How a call of `ParseThread::execute` ends. -/
inductive ExecOutcome where
  | returned (w : World)
  | crashed
  | awaitingInput (w : World)
  deriving DecidableEq, Repr

/-- The end of `execute`: `sem_post(&ended)`. -/
def signalEnded (w : World) : World := { w with pt := { w.pt with ended := w.pt.ended + 1 } }

/-- The `catch(LightsparkException& e)` block of `ParseThread::execute`. -/
def catchBlock (cause : String) (w : World) : World :=
  { w with root := w.root.parsingFailed, sys := w.sys.setError cause }

/-- The call `ParseThread::execute` on a stream that starts with the header
fields `i` and goes on with `units`. -/
def execute (i : HeaderFields) (units : List StreamUnit) (w : World) : ExecOutcome :=
  match tryBlock i units w with
  | .left w1 => ExecOutcome.returned (signalEnded w1)
  | .threw c w1 => ExecOutcome.returned (signalEnded (catchBlock c w1))
  | .crashed => ExecOutcome.crashed
  | .awaitingInput w1 => ExecOutcome.awaitingInput w1

/-- The state in which the loop waits for a further unit, when it does. -/
def LoopOutcome.awaiting? : LoopOutcome → Option World
  | .awaitingInput w => some w
  | _ => none

/-- The state in which `execute` returned, when it did. -/
def ExecOutcome.returned? : ExecOutcome → Option World
  | .returned w => some w
  | _ => none

/-- A unit of an undisturbed stream: the read gives the tag and no other thread acts. -/
def StreamUnit.ofTag (t : Tag) : StreamUnit := { env := [], read := ReadResult.tag t }

/-- The header of an uncompressed version 6 file with a 100 by 100 canvas, 24
frames per second (6144/256) and two frames. -/
def HeaderFields.sample : HeaderFields :=
  { Signature0 := 'F'
    Signature1 := 'W'
    Signature2 := 'S'
    Version := 6
    FileLength := 100
    FrameSize := { Xmin := 0, Xmax := 100, Ymin := 0, Ymax := 100 }
    FrameRate := 6144
    FrameCount := 2 }

/-- The virtual machine, when there is one, accepts events. -/
def SystemState.vmAccepts (s : SystemState) : Bool :=
  match s.currentVm with
  | none => true
  | some vm => vm.accepting

/-- The state of the loop between two units of an undisturbed run: the frames
`done` are committed, `cur` is the frame in progress, nothing failed and no
termination was asked for. -/
def LoopInv (done : List Frame) (cur : Frame) (w : World) : Prop :=
  w.root.frames.data = done ++ [cur]
  ∧ w.root.cur_frame = some done.length
  ∧ w.root.framesLoaded = done.length
  ∧ w.root.parsingIsFailed = false
  ∧ w.sys.vmAccepts = true
  ∧ w.sys.shouldTerminate = false
  ∧ w.pt.aborting = false

/-- The frames the loop of `execute` adds to the committed ones, tag by tag,
from the frame in progress `cur` and the flag `empty`, on tags without END. -/
def loopFrames (cur : Frame) (empty : Bool) : List Tag → List Frame
  | [] => if empty then [] else [cur]
  | t :: ts =>
    match t.type with
    | .SHOW_TAG => cur :: loopFrames Frame.new true ts
    | .DISPLAY_LIST_TAG => loopFrames { cur with blueprint := cur.blueprint ++ [t] } false ts
    | .CONTROL_TAG => loopFrames { cur with controls := cur.controls ++ [t] } false ts
    | .FRAMELABEL_TAG => loopFrames { cur with Label := t.Name } false ts
    | _ => loopFrames cur empty ts

/-! ## The frames a tag stream describes, in the words of the specification -/

/-- The tags of a stream before its first END tag. -/
def beforeEnd (tags : List Tag) : List Tag := tags.takeWhile fun t => t.type ≠ TagType.END_TAG

/-- The groups of tags that the SHOW tags (frame boundaries) separate, in
stream order; the last group is the one after the last SHOW tag. -/
def splitAtShow : List Tag → List (List Tag)
  | [] => [[]]
  | t :: ts =>
    if t.type = TagType.SHOW_TAG then [] :: splitAtShow ts
    else
      match splitAtShow ts with
      | g :: gs => (t :: g) :: gs
      | [] => [[t]]

/-- The name of the last label tag among `g`, or `dflt` when there is none. -/
def lastLabel (dflt : String) (g : List Tag) : String :=
  match (g.filter fun t => t.type = TagType.FRAMELABEL_TAG).getLast? with
  | some t => t.Name
  | none => dflt

/-- The frame a group of tags adds up to: its display list tags and its control
tags, each in stream order, and the last label of the group. -/
def frameOfGroup (g : List Tag) : Frame :=
  { Label := lastLabel "" g
    blueprint := g.filter fun t => t.type = TagType.DISPLAY_LIST_TAG
    controls := g.filter fun t => t.type = TagType.CONTROL_TAG }

/-- The group gave the frame in progress some content: a display list tag, a
control tag or a label. -/
def receivedContent (g : List Tag) : Bool :=
  g.any fun t => t.type = TagType.DISPLAY_LIST_TAG ∨ t.type = TagType.CONTROL_TAG
    ∨ t.type = TagType.FRAMELABEL_TAG

/-- The frames the groups describe: one per group before a SHOW tag, and one
for the trailing group when it received content. -/
def framesOfGroups (gs : List (List Tag)) : List Frame :=
  gs.dropLast.map frameOfGroup ++
    match gs.getLast? with
    | some g => if receivedContent g then [frameOfGroup g] else []
    | none => []

/-- The frames a stream describes: those of the groups that the SHOW tags
separate among the tags before the first END tag. -/
def framesOfStream (tags : List Tag) : List Frame :=
  framesOfGroups (splitAtShow (beforeEnd tags))

/-- The frame `cur` after the tags of the group `g` were added to it. -/
def Frame.addGroup (cur : Frame) (g : List Tag) : Frame :=
  { Label := lastLabel cur.Label g
    blueprint := cur.blueprint ++ g.filter fun t => t.type = TagType.DISPLAY_LIST_TAG
    controls := cur.controls ++ g.filter fun t => t.type = TagType.CONTROL_TAG }

/-- The frames the groups describe when the first group goes on a frame in
progress `cur`, which counts as empty or not by the flag `empty`. -/
def framesFrom (cur : Frame) (empty : Bool) : List (List Tag) → List Frame
  | [] => []
  | [g] => if empty && !receivedContent g then [] else [cur.addGroup g]
  | g :: g2 :: gs => cur.addGroup g :: framesOfGroups (g2 :: gs)

/-! ## Sequences of coordinator calls -/

/-- Runs `setError` with each cause in turn. -/
def setErrors : List String → SystemState → SystemState
  | [], s => s
  | c :: cs, s => setErrors cs (s.setError c)

/-- Runs `setRenderRate` with each rate in turn. -/
def setRenderRates : List ℚ → SystemState → Res SystemState
  | [], s => Res.ok s
  | r :: rs, s => (s.setRenderRate r).andThen (setRenderRates rs)

/-! ## The input dispatcher: `InputThread`

Objects are named by their addresses, which are numbers; a pointer that may be
`NULL` is an `Option`. -/

/-- A call the dispatcher makes on the reference count of an object. -/
inductive RefCall where
  | incRef (ob : Nat)
  | decRef (ob : Nat)
  deriving DecidableEq, Repr

/-- The members of `InputThread` the modelled functions read or write. -/
structure InputThread where
  listeners : List Nat
  lastMouseDownTarget : Option Nat
  curDragged : Option Nat
  dragLimit : RECT
  deriving DecidableEq, Repr

/-- The dispatcher and what it works on: the member `id` of every object (set
by `setId`), the reference count calls it made so far, the virtual machine of
its coordinator, and the members `showDebug` of the coordinator and
`selectedDebug` of the render thread. -/
structure InputWorld where
  th : InputThread
  id : Nat → Binary32
  refCalls : List RefCall
  currentVm : Option ABCVm
  showDebug : Bool
  selectedDebug : Option Nat

/-- The dispatcher as `InputThread::InputThread` leaves it, next to a virtual
machine. The constructor leaves `dragLimit` unset; it is written before it is
read. -/
def InputWorld.new (vm : Option ABCVm) : InputWorld :=
  { th := { listeners := [], lastMouseDownTarget := none, curDragged := none,
            dragLimit := { Xmin := 0, Xmax := 0, Ymin := 0, Ymax := 0 } }
    id := fun _ => { units := 0 }
    refCalls := []
    currentVm := vm
    showDebug := false
    selectedDebug := none }

/-- The references the dispatcher holds on an object: its `incRef` calls less
its `decRef` calls. -/
def InputWorld.held (w : InputWorld) (ob : Nat) : Int :=
  (w.refCalls.count (RefCall.incRef ob) : Int) - (w.refCalls.count (RefCall.decRef ob) : Int)

/-- The loop `for(i=0;i<count;i++){ listeners[i]->setId(cur); cur+=increment; }`
over the listeners still to visit. -/
def setIds (increment : Binary32) : List Nat → Binary32 → (Nat → Binary32) → (Nat → Binary32)
  | [], _, id => id
  | ob :: obs, cur, id =>
    setIds increment obs (cur.add increment) (fun x => if x = ob then cur else id x)

/-- The id assignment that ends `addListener` and `removeListener`. `count` is
an `unsigned int`; when it is 0 the loop does not run and the quotient is not
used. -/
def assignIds (listeners : List Nat) (id : Nat → Binary32) : Nat → Binary32 :=
  let count := listeners.length % 2 ^ 32
  if count = 0 then id
  else
    let increment := (Binary32.ofNat 1).div (Binary32.ofNat count)
    setIds increment (listeners.take count) increment id

/-- The call `InputThread::addListener` with an object that is not `NULL`.
`NDEBUG` tells whether the build leaves the registration check out; the check
throws when the object is already in the table. -/
def addListener (NDEBUG : Bool) (ob : Nat) (w : InputWorld) : Res InputWorld :=
  if !NDEBUG && decide (ob ∈ w.th.listeners) then Res.threw "it==listeners.end()" w
  else
    let listeners := w.th.listeners ++ [ob]
    Res.ok { w with th := { w.th with listeners := listeners }, id := assignIds listeners w.id }

/-- The call `InputThread::removeListener`. -/
def removeListener (ob : Nat) (w : InputWorld) : InputWorld :=
  if ob ∈ w.th.listeners then
    let listeners := w.th.listeners.erase ob
    { w with th := { w.th with listeners := listeners }, id := assignIds listeners w.id }
  else w

/-- Registers the objects in turn. -/
def addListeners (NDEBUG : Bool) : List Nat → InputWorld → Res InputWorld
  | [], w => Res.ok w
  | ob :: obs, w => (addListener NDEBUG ob w).andThen (addListeners NDEBUG obs)

/-- The value of `cur` after the given number of rounds of the id loop. -/
def curAfter (increment : Binary32) : Nat → Binary32 → Binary32
  | 0, cur => cur
  | k + 1, cur => curAfter increment k (cur.add increment)

/-- The lines `int index=lrint(th->listeners.size()*selected); index--;` of the
pointer handlers, for a table of fewer than `2^31` listeners. -/
def hitIndex (size : Nat) (selected : Binary32) : Int :=
  lrint ((Binary32.ofNat size).mul selected) - 1

/-- The element `listeners[index]`; outside the table the access is undefined. -/
def listenerAt (listeners : List Nat) (index : Int) : Option Nat :=
  if 0 ≤ index then listeners[index.toNat]? else none

/-- The raw pointer events: `press` is `SDL_MOUSEBUTTONDOWN` and
`GDK_BUTTON_PRESS`, `release` is `SDL_MOUSEBUTTONUP` and `GDK_BUTTON_RELEASE`. -/
inductive PointerEvent where
  | press
  | release
  deriving DecidableEq, Repr

/-- The pointer cases of `InputThread::sdl_worker`, one event at a time;
`selected` is what `getIdAt` returns at the pointer position. The result is
`none` when the handler reads outside the table or through a `NULL` virtual
machine. -/
def sdl_worker (event : PointerEvent) (selected : Binary32) (w : InputWorld) : Option InputWorld :=
  match event with
  | PointerEvent.press =>
    if selected.units = 0 then some { w with selectedDebug := none }
    else
      match listenerAt w.th.listeners (hitIndex w.th.listeners.length selected) with
      | none => none
      | some ob =>
        let w1 := { w with th := { w.th with lastMouseDownTarget := some ob } }
        match w1.currentVm with
        | none => none
        | some vm =>
          let w2 := { w1 with currentVm := some (vm.addEvent (VmEvent.MouseEvent ob "mouseDown")).1 }
          some (if w2.showDebug then { w2 with selectedDebug := some ob } else w2)
  | PointerEvent.release =>
    if selected.units = 0 then some w
    else
      match listenerAt w.th.listeners (hitIndex w.th.listeners.length selected) with
      | none => none
      | some ob =>
        match w.currentVm with
        | none => none
        | some vm =>
          let vm1 := (vm.addEvent (VmEvent.MouseEvent ob "mouseUp")).1
          if w.th.lastMouseDownTarget = some ob then
            some { w with currentVm := some (vm1.addEvent (VmEvent.MouseEvent ob "click")).1
                          th := { w.th with lastMouseDownTarget := none } }
          else some { w with currentVm := some vm1 }

/-- The pointer cases of `InputThread::gtkplug_worker`. -/
def gtkplug_worker (event : PointerEvent) (selected : Binary32) (w : InputWorld) : Option InputWorld :=
  match event with
  | PointerEvent.press =>
    if selected.units ≠ 0 then
      match listenerAt w.th.listeners (hitIndex w.th.listeners.length selected) with
      | none => none
      | some ob =>
        let w1 := { w with th := { w.th with lastMouseDownTarget := some ob } }
        match w1.currentVm with
        | none => none
        | some vm =>
          let w2 := { w1 with currentVm := some (vm.addEvent (VmEvent.MouseEvent ob "mouseDown")).1 }
          some (if w2.showDebug then { w2 with selectedDebug := some ob } else w2)
    else some w
  | PointerEvent.release =>
    if selected.units ≠ 0 then
      match listenerAt w.th.listeners (hitIndex w.th.listeners.length selected) with
      | none => none
      | some ob =>
        match w.currentVm with
        | none => none
        | some vm =>
          let vm1 := (vm.addEvent (VmEvent.MouseEvent ob "mouseUp")).1
          if w.th.lastMouseDownTarget = some ob then
            some { w with currentVm := some (vm1.addEvent (VmEvent.MouseEvent ob "click")).1
                          th := { w.th with lastMouseDownTarget := none } }
          else some { w with currentVm := some vm1 }
    else some w

/-- The call `InputThread::enableDrag`; `none` when `assert(s)` aborts the
process. -/
def enableDrag (s : Option Nat) (limit : RECT) (w : InputWorld) : Option InputWorld :=
  if s = w.th.curDragged then some w
  else
    let w1 := match w.th.curDragged with
      | some old => { w with refCalls := w.refCalls ++ [RefCall.decRef old] }
      | none => w
    match s with
    | none => none
    | some ob =>
      some { w1 with refCalls := w1.refCalls ++ [RefCall.incRef ob]
                     th := { w1.th with curDragged := some ob, dragLimit := limit } }

/-- The call `InputThread::disableDrag`. -/
def disableDrag (w : InputWorld) : InputWorld :=
  match w.th.curDragged with
  | some old =>
    { w with refCalls := w.refCalls ++ [RefCall.decRef old], th := { w.th with curDragged := none } }
  | none => w

/-- A drag call with a target that is not `NULL`. -/
inductive DragOp where
  | enableDrag (s : Nat) (limit : RECT)
  | disableDrag
  deriving DecidableEq, Repr

/-- Runs the drag calls in turn. -/
def runDrag : List DragOp → InputWorld → Option InputWorld
  | [], w => some w
  | DragOp.enableDrag s limit :: ops, w => (enableDrag (some s) limit w).bind (runDrag ops)
  | DragOp.disableDrag :: ops, w => runDrag ops (disableDrag w)

/-- The dispatcher holds one reference on the dragged object and none on any
other. -/
def DragInv (w : InputWorld) : Prop :=
  ∀ ob, w.held ob = if w.th.curDragged = some ob then 1 else 0

/-- A dispatcher with the two listeners 5 and 8 in its table, next to a
virtual machine that accepts events. -/
def InputWorld.sample : InputWorld :=
  { InputWorld.new (some { events := [], accepting := true }) with
    th := { (InputWorld.new none).th with listeners := [5, 8] } }

/-! ## The hit-test readback and the render loop -/

/-- The call `RenderThread::getIdAt` on the pixel of the input buffer under the
pointer: `(pixel&0xff)/255.0f`. -/
def getIdAt (pixel : Nat) : Binary32 := (Binary32.ofNat (pixel &&& 0xff)).div (Binary32.ofNat 255)

/-- How one turn of the `while(1)` loop of a render worker goes, when no other
thread runs meanwhile. The render thread is given as the turn leaves it, next
to the local `fakeRenderCount`; on the branch that calls `sys->Render()` the
outcome of that call and the frame store it leaves are given too. -/
inductive TurnOutcome where
  | waits
  | leaves (rt : RenderThread) (fakeRenderCount : Nat)
  | errorScreen (rt : RenderThread) (fakeRenderCount : Nat)
  | scene (outcome : RenderOutcome) (rt : RenderThread) (fakeRenderCount : Nat) (root : RootMovieClip)
  deriving DecidableEq, Repr

/-- The number of draws a turn makes: the error screen is one, and the scene is
one when `sys->Render()` goes on to `MovieClip::Render()`. A turn that stays
in `sys->Render()`, waiting for a frame, or whose `sys->Render()` returns
without drawing, draws no scene. -/
def TurnOutcome.draws : TurnOutcome → Nat
  | .errorScreen _ _ => 1
  | .scene RenderOutcome.draws _ _ _ => 1
  | _ => 0

/-- The requests left pending on the render semaphore by a turn that took one. -/
def TurnOutcome.pending : TurnOutcome → Option Nat
  | .waits => none
  | .leaves rt _ => some rt.render
  | .errorScreen rt _ => some rt.render
  | .scene _ rt _ _ => some rt.render

/-- The loop `while(sem_trywait(&th->render)==0)` of the render workers, from
the count of the semaphore and the value of `fakeRenderCount`: each request
taken is counted unless the system is shutting down, which ends the loop. The
result is the count left and `fakeRenderCount`. -/
def drainRender (isShuttingDown : Bool) : Nat → Nat → Nat × Nat
  | 0, fakeRenderCount => (0, fakeRenderCount)
  | n + 1, fakeRenderCount =>
    if isShuttingDown then (n, fakeRenderCount)
    else drainRender isShuttingDown n (fakeRenderCount + 1)

/-- One turn of the loop of `RenderThread::sdl_worker`: `sem_wait` blocks when
no request is pending; otherwise the other pending requests are taken, the
loop is left on shutdown, the error screen is drawn when the system is on
error, and else `sys->Render()` is called on the frame store `root` of the
system. The service of a pending hit-test request, which leaves the render
semaphore alone, and the drawing calls themselves are left out. -/
def RenderThread.sdl_worker (s : SystemState) (root : RootMovieClip) (rt : RenderThread) :
    TurnOutcome :=
  match rt.render with
  | 0 => TurnOutcome.waits
  | n + 1 =>
    let drained := drainRender s.isShuttingDown n 0
    let rt1 := { rt with render := drained.1 }
    if s.isShuttingDown then TurnOutcome.leaves rt1 drained.2
    else if s.isOnError then TurnOutcome.errorScreen rt1 drained.2
    else TurnOutcome.scene root.Render.1 rt1 drained.2 root.Render.2

/-- One turn of the loop of `RenderThread::gtkplug_worker`. -/
def RenderThread.gtkplug_worker (s : SystemState) (root : RootMovieClip) (rt : RenderThread) :
    TurnOutcome :=
  match rt.render with
  | 0 => TurnOutcome.waits
  | n + 1 =>
    let drained := drainRender s.isShuttingDown n 0
    let rt1 := { rt with render := drained.1 }
    if s.isShuttingDown then TurnOutcome.leaves rt1 drained.2
    else if s.isOnError then TurnOutcome.errorScreen rt1 drained.2
    else TurnOutcome.scene root.Render.1 rt1 drained.2 root.Render.2

/-! ## Profiling samples: `ThreadProfile`

The declarations of `ThreadProfile` and `ProfilingData` are in a header that
is not part of the source file. The members are those the functions use; the
counters are taken to be `uint32_t`, the type `tick` converts `len` to and
`accountTime` receives. -/

/-- A sample: the tick it belongs to, the time accounted to it, and its tag,
empty when it has none. -/
structure ProfilingData where
  index : Nat
  timing : Nat
  tag : String
  deriving DecidableEq, Repr

/-- The members of `ThreadProfile` that `setTag`, `accountTime` and `tick` use;
`data` is a double-ended queue. -/
structure ThreadProfile where
  data : List ProfilingData
  tickCount : Nat
  len : Int
  deriving DecidableEq, Repr

/-- The constructor `ProfilingData(index, timing)`: no tag. -/
def ProfilingData.new (index timing : Nat) : ProfilingData := { index := index, timing := timing, tag := "" }

/-- Writes through `data.back()`. -/
def modifyBack (g : ProfilingData → ProfilingData) : List ProfilingData → List ProfilingData
  | [] => []
  | [d] => [g d]
  | d :: ds => d :: modifyBack g ds

/-- The call `ThreadProfile::setTag`. -/
def ThreadProfile.setTag (t : String) (p : ThreadProfile) : ThreadProfile :=
  let data := if p.data.isEmpty then p.data ++ [ProfilingData.new p.tickCount 0] else p.data
  { p with data := modifyBack (fun d => { d with tag := t }) data }

/-- The call `ThreadProfile::accountTime`. -/
def ThreadProfile.accountTime (time : Nat) (p : ThreadProfile) : ThreadProfile :=
  match p.data.getLast? with
  | none => { p with data := p.data ++ [ProfilingData.new p.tickCount time] }
  | some back =>
    if back.index ≠ p.tickCount then { p with data := p.data ++ [ProfilingData.new p.tickCount time] }
    else { p with data := modifyBack (fun d => { d with timing := (d.timing + time) % 4294967296 }) p.data }

/-- Three samples of the ticks 0, 50 and 150, the first tagged, at tick 200 with
a window of 100 ticks. -/
def ThreadProfile.sample : ThreadProfile :=
  { data := [{ index := 0, timing := 5, tag := "Render" }, { index := 50, timing := 7, tag := "" },
             { index := 150, timing := 9, tag := "" }]
    tickCount := 200
    len := 100 }

/-! ## Parameters from flashvars

A `char` is modelled by its code, a natural number below 256, and a string by
the list of its codes; literals are written through the characters. Strings
are shorter than `2^31`, so that the conversions between `int`, `uint32_t` and
`size_t` keep the values. -/

/-- The call `SystemState::hexToInt`. -/
def hexToInt (c : Nat) : Int :=
  if '0'.toNat ≤ c ∧ c ≤ '9'.toNat then (c : Int) - ('0'.toNat : Int)
  else if 'a'.toNat ≤ c ∧ c ≤ 'f'.toNat then (c : Int) - ('a'.toNat : Int) + 10
  else if 'A'.toNat ≤ c ∧ c ≤ 'F'.toNat then (c : Int) - ('A'.toNat : Int) + 10
  else -1

/-- The search of `string::find` through the characters left, the first of
which has index `i`. -/
def findFrom (c : Nat) : List Nat → Nat → Option Nat
  | [], _ => none
  | x :: xs, i => if x = c then some i else findFrom c xs (i + 1)

/-- The call `vars.find(c, pos)`; `none` is the result `npos`, which the source
reads as `-1`. -/
def find (vars : List Nat) (c : Nat) (pos : Nat) : Option Nat := findFrom c (vars.drop pos) pos

/-- The loop `for(int j=n1+1;j<n2;j++)` of `parseParametersFromFlashvars`, from
the values of `j` and `varValue`: the result is `ok` and `varValue`. The first
argument bounds the number of turns; with `n2 - j` or more the loop is never
cut short, as `j` grows at each turn. -/
def decodeLoop (vars : List Nat) (n2 : Nat) : Nat → Nat → List Nat → Bool × List Nat
  | 0, _, varValue => (true, varValue)
  | fuel + 1, j, varValue =>
    if j < n2 then
      if vars.getD j 0 ≠ '%'.toNat then
        decodeLoop vars n2 fuel (j + 1) (varValue ++ [vars.getD j 0])
      else if n2 - j < 3 then (false, varValue)
      else
        let t1 := hexToInt (vars.getD (j + 1) 0)
        let t2 := hexToInt (vars.getD (j + 2) 0)
        if t1 = -1 ∨ t2 = -1 then (false, varValue)
        else decodeLoop vars n2 fuel (j + 2 + 1) (varValue ++ [(t1 * 16 + t2).toNat])
    else (true, varValue)

/-- The loop `while(cur<vars.size())` of `parseParametersFromFlashvars`, from
the value of `cur` and the calls `setVariableByQName(varName, "", varValue)`
made so far. The first argument bounds the number of turns; `cur` grows by two
or more at each turn. -/
def parseLoop (vars : List Nat) :
    Nat → Nat → List (List Nat × List Nat) → List (List Nat × List Nat)
  | 0, _, params => params
  | fuel + 1, cur, params =>
    if cur < vars.length then
      match find vars '='.toNat cur with
      | none => params
      | some n1 =>
        let n2 := (find vars '&'.toNat (n1 + 1)).getD vars.length
        let varName := (vars.drop cur).take (n1 - cur)
        let decoded := decodeLoop vars n2 (n2 - n1) (n1 + 1) []
        let params1 := if decoded.1 then params ++ [(varName, decoded.2)] else params
        parseLoop vars fuel (n2 + 1) params1
    else params

/-- The invariant of `std::vector`: the check of `commitFrame` on it always passes. -/
theorem FrameVector.size_le_capacity (v : FrameVector) : v.size ≤ v.capacity := by
  simp [FrameVector.size, FrameVector.capacity]

theorem FrameVector.size_push_back (v : FrameVector) (f : Frame) :
    (v.push_back f).size = v.size + 1 := by
  unfold FrameVector.push_back FrameVector.size
  cases v.spare <;> simp

theorem FrameVector.data_push_back (v : FrameVector) (f : Frame) :
    (v.push_back f).data = v.data ++ [f] := by
  unfold FrameVector.push_back
  cases v.spare <;> simp

/-- What `initialize` leaves: only `initialized` and the event queue may differ. -/
theorem initializeRoot_state (w w1 : World) (h : (initializeRoot w).state? = some w1) :
    w1.root = { w.root with initialized := w1.root.initialized }
      ∧ w1.pt = w.pt
      ∧ w1.sys = { w.sys with currentVm := w1.sys.currentVm } := by
  unfold initializeRoot at h
  split at h
  · simp only [Res.state?, Option.some.injEq] at h
    subst h
    exact ⟨rfl, rfl, rfl⟩
  · split at h
    · simp only [Res.state?, Option.some.injEq] at h
      subst h
      exact ⟨rfl, rfl, rfl⟩
    · dsimp only at h
      split at h <;>
      · simp only [Res.state?, Option.some.injEq] at h
        subst h
        exact ⟨rfl, rfl, rfl⟩

theorem initializeRoot_ne_crash (w : World) : ∃ w1, (initializeRoot w).state? = some w1 := by
  unfold initializeRoot
  split
  · exact ⟨_, rfl⟩
  · split
    · exact ⟨_, rfl⟩
    · dsimp only
      split <;> exact ⟨_, rfl⟩

theorem andThen_state {σ : Type} (r : Res σ) (k : σ → σ) (s : σ) :
    (r.andThen fun x => Res.ok (k x)).state? = some s →
      ∃ s0, r.state? = some s0 ∧ (s = k s0 ∨ s = s0) := by
  cases r with
  | ok s0 => intro h; exact ⟨s0, rfl, Or.inl (by simpa [Res.andThen, Res.state?] using h.symm)⟩
  | threw c s0 => intro h; exact ⟨s0, rfl, Or.inr (by simpa [Res.andThen, Res.state?] using h.symm)⟩
  | crash => intro h; simp [Res.andThen, Res.state?] at h

theorem andThen_state_ne_none {σ : Type} (r : Res σ) (k : σ → σ) (s0 : σ) (h : r.state? = some s0) :
    ∃ s, (r.andThen fun x => Res.ok (k x)).state? = some s := by
  cases r with
  | ok s0 => exact ⟨_, rfl⟩
  | threw c s0 => exact ⟨_, rfl⟩
  | crash => simp [Res.state?] at h

/-- What the first-frame hooks leave of the store. -/
theorem firstFrameReady_state (w w1 : World) (h : (firstFrameReady w).state? = some w1) :
    w1.root = { w.root with initialized := w1.root.initialized, bootstraps := w.root.bootstraps + 1 }
      ∧ w1.pt = w.pt := by
  unfold firstFrameReady at h
  obtain ⟨w0, h0, h1⟩ := andThen_state _ _ _ h
  obtain ⟨hr, hp, -⟩ := initializeRoot_state _ _ h0
  rcases h1 with h1 | h1 <;> subst h1
  · refine ⟨?_, hp⟩
    dsimp only
    rw [hr]
  · refine ⟨?_, hp⟩
    rw [hr]

theorem firstFrameReady_ne_crash (w : World) : ∃ w1, (firstFrameReady w).state? = some w1 := by
  unfold firstFrameReady
  obtain ⟨w0, h0⟩ := initializeRoot_ne_crash { w with root := { w.root with bootstraps := w.root.bootstraps + 1 } }
  exact andThen_state_ne_none _ _ _ h0

/-- The frame part of what `commitFrame` leaves, whether it returns or throws. -/
theorem commitFrame_state (another : Bool) (w w1 : World) (h : (commitFrame another w).state? = some w1) :
     w1.root.framesLoaded = w.root.frames.size
      ∧ w1.root.frames = (if another then w.root.frames.push_back Frame.new else w.root.frames)
      ∧ w1.root.cur_frame = (if another then some w.root.frames.size else none)
      ∧ w1.root.parsingIsFailed = w.root.parsingIsFailed
      ∧ w1.root.next_FP = w.root.next_FP
      ∧ w1.root.totalFrames = w.root.totalFrames
      ∧ w1.pt = w.pt := by
  unfold commitFrame at h
  dsimp only at h
  rw [if_neg (by simp [FrameVector.size_le_capacity])] at h
  obtain ⟨w0, h0, h1⟩ := andThen_state _ _ _ h
  have key : w0.root = { w.root.publishFrame another with initialized := w0.root.initialized, bootstraps := w0.root.bootstraps } ∧ w0.pt = w.pt := by
    split at h0
    · obtain ⟨hr, hp⟩ := firstFrameReady_state _ _ h0
      refine ⟨?_, hp⟩
      rw [hr]
    · simp only [Res.state?, Option.some.injEq] at h0
      subst h0
      exact ⟨rfl, rfl⟩
  obtain ⟨kr, kp⟩ := key
  rcases h1 with h1 | h1 <;> subst h1 <;> (try simp only [postNewFrame]) <;> rw [kr] <;>
    cases another <;> simp [RootMovieClip.publishFrame, kp]

theorem commitFrame_ne_crash (another : Bool) (w : World) : ∃ w1, (commitFrame another w).state? = some w1 := by
  unfold commitFrame
  dsimp only
  rw [if_neg (by simp [FrameVector.size_le_capacity])]
  split
  · obtain ⟨w0, h0⟩ := firstFrameReady_ne_crash { w with root := w.root.publishFrame another }
    exact andThen_state_ne_none _ _ _ h0
  · exact ⟨_, rfl⟩

/-! ## Properties of the frame store calls -/

theorem length_modifyLast (g : Frame → Frame) (l : List Frame) : (modifyLast g l).length = l.length := by
  induction l with
  | nil => rfl
  | cons f fs ih =>
    cases fs with
    | nil => rfl
    | cons f2 fs => simp only [modifyLast, List.length_cons] at ih ⊢; omega

theorem length_modifyAt (g : Frame → Frame) (i : Nat) (l : List Frame) : (modifyAt g i l).length = l.length := by
  induction l generalizing i with
  | nil => cases i <;> rfl
  | cons f fs ih =>
    cases i with
    | zero => rfl
    | succ i => simp only [modifyAt, List.length_cons, ih]

theorem onRoot_state (g : RootMovieClip → Res RootMovieClip) (w w1 : World)
    (h : (w.onRoot g).state? = some w1) :
    ∃ r, (g w.root).state? = some r ∧ w1 = { w with root := r } := by
  unfold World.onRoot at h
  cases hg : g w.root with
  | ok r => rw [hg] at h; exact ⟨r, rfl, by simpa [Res.map, Res.state?] using h.symm⟩
  | threw c r => rw [hg] at h; exact ⟨r, rfl, by simpa [Res.map, Res.state?] using h.symm⟩
  | crash => rw [hg] at h; simp [Res.map, Res.state?] at h

/-- What `throughCurFrame` leaves: the same store with frames of the same number. -/
theorem throughCurFrame_state (g : Frame → Frame) (r r1 : RootMovieClip)
    (h : (r.throughCurFrame g).state? = some r1) :
    ∃ d, d.length = r.frames.data.length ∧ r1 = { r with frames := { r.frames with data := d } } := by
  unfold RootMovieClip.throughCurFrame at h
  split at h
  · simp [Res.state?] at h
  · split at h
    · simp only [Res.state?, Option.some.injEq] at h
      exact ⟨_, length_modifyAt _ _ _, h.symm⟩
    · simp [Res.state?] at h

/-- Every call keeps `framesLoaded` from decreasing and below the number of
frames, provided it was below it before. -/
theorem apply_framesLoaded (op : StoreOp) (w w1 : World)
    (h : (op.apply w).state? = some w1) (hinv : w.root.framesLoaded ≤ w.root.frames.size) :
    w.root.framesLoaded ≤ w1.root.framesLoaded ∧ w1.root.framesLoaded ≤ w1.root.frames.size := by
  cases op with
  | commitFrame another =>
    obtain ⟨h1, h2, -⟩ := commitFrame_state another w w1 h
    rw [h1, h2]
    refine ⟨hinv, ?_⟩
    cases another
    · simp
    · simp [FrameVector.size_push_back]
  | revertFrame =>
    obtain ⟨r, hr, rfl⟩ := onRoot_state _ _ _ h
    unfold RootMovieClip.revertFrame at hr
    split at hr
    · simp only [Res.state?, Option.some.injEq] at hr
      subst hr
      rename_i hc
      simp only [FrameVector.pop_back, FrameVector.size, List.length_dropLast, le_refl, true_and]
      simp only [FrameVector.size] at hc
      omega
    · simp only [Res.state?, Option.some.injEq] at hr
      subst hr
      exact ⟨le_refl _, hinv⟩
  | labelCurrentFrame name =>
    obtain ⟨r, hr, rfl⟩ := onRoot_state _ _ _ h
    unfold RootMovieClip.labelCurrentFrame at hr
    split at hr
    · simp [Res.state?] at hr
    · simp only [Res.state?, Option.some.injEq] at hr
      subst hr
      simpa [FrameVector.size, length_modifyLast] using hinv
  | addToFrameDisplayList t =>
    obtain ⟨r, hr, rfl⟩ := onRoot_state _ _ _ h
    obtain ⟨d, hd, rfl⟩ := throughCurFrame_state _ _ _ hr
    simpa [FrameVector.size, hd] using hinv
  | addToFrameControl t =>
    obtain ⟨r, hr, rfl⟩ := onRoot_state _ _ _ h
    obtain ⟨d, hd, rfl⟩ := throughCurFrame_state _ _ _ hr
    simpa [FrameVector.size, hd] using hinv
  | setFrameCount f =>
    obtain ⟨r, hr, rfl⟩ := onRoot_state _ _ _ h
    unfold RootMovieClip.setFrameCount at hr
    dsimp only at hr
    split at hr
    · simp [Res.state?] at hr
    · split at hr
      · simp only [Res.state?, Option.some.injEq] at hr
        subst hr
        exact ⟨le_refl _, hinv⟩
      · split at hr
        · simp [Res.state?] at hr
        · simp only [Res.state?, Option.some.injEq] at hr
          subst hr
          simpa [FrameVector.size, FrameVector.reserve] using hinv
  | parsingFailed =>
    simp only [StoreOp.apply, Res.state?, Option.some.injEq] at h
    subst h
    exact ⟨le_refl _, hinv⟩
  | setFrameSize f =>
    obtain ⟨r, hr, rfl⟩ := onRoot_state _ _ _ h
    unfold RootMovieClip.setFrameSize at hr
    dsimp only at hr
    split at hr <;>
    · simp only [Res.state?, Option.some.injEq] at hr
      subst hr
      exact ⟨le_refl _, hinv⟩
  | setFrameRate f =>
    simp only [StoreOp.apply, Res.state?, Option.some.injEq] at h
    subst h
    exact ⟨le_refl _, hinv⟩
  | addToDictionary d =>
    simp only [StoreOp.apply, Res.state?, Option.some.injEq] at h
    subst h
    exact ⟨le_refl _, hinv⟩

/-- In every reachable state `framesLoaded` is at most the number of frames. -/
theorem Reachable.framesLoaded_le {w : World} (h : Reachable w) :
    w.root.framesLoaded ≤ w.root.frames.size := by
  induction h with
  | fresh sys pt => simp [World.fresh, RootMovieClip.fresh, FrameVector.size]
  | call op w w1 _ hstep ih => exact (apply_framesLoaded op w w1 hstep ih).2
  | others w sys pt n _ ih => exact ih

theorem runOps_append (ops1 ops2 : List StoreOp) (w : World) :
    runOps (ops1 ++ ops2) w = (runOps ops1 w).bind (runOps ops2) := by
  induction ops1 generalizing w with
  | nil => rfl
  | cons op ops ih =>
    simp only [List.cons_append, runOps]
    cases (op.apply w).state? with
    | none => rfl
    | some w1 => exact ih w1

theorem runOps_reachable (ops : List StoreOp) (w w1 : World) (hw : Reachable w)
    (h : runOps ops w = some w1) : Reachable w1 := by
  induction ops generalizing w with
  | nil => simp only [runOps, Option.some.injEq] at h; exact h ▸ hw
  | cons op ops ih =>
    simp only [runOps] at h
    cases hs : (op.apply w).state? with
    | none => rw [hs] at h; simp at h
    | some w2 => rw [hs] at h; exact ih w2 (Reachable.call op w w2 hw hs) h

theorem continuations_cons (op : StoreOp) (ops : List StoreOp) :
    continuations (op :: ops) = continuations ops + (if op = StoreOp.commitFrame true then 1 else 0) := by
  unfold continuations
  rw [List.count_cons]
  by_cases h : op = StoreOp.commitFrame true
  · simp [h]
  · have : ¬ (StoreOp.commitFrame true = op) := fun e => h e.symm
    simp [h, this]

/-- An append or a commit changes the number of frames by one exactly when it
is a commit that goes on to another frame. -/
theorem apply_size (op : StoreOp) (w w1 : World) (hop : op.isAppend = true ∨ op.isCommit = true)
    (h : (op.apply w).state? = some w1) :
    w1.root.frames.size = w.root.frames.size + (if op = StoreOp.commitFrame true then 1 else 0) := by
  cases op with
  | commitFrame another =>
    obtain ⟨-, h2, -⟩ := commitFrame_state another w w1 h
    rw [h2]
    cases another <;> simp [FrameVector.size_push_back]
  | addToFrameDisplayList t =>
    obtain ⟨r, hr, rfl⟩ := onRoot_state _ _ _ h
    obtain ⟨d, hd, rfl⟩ := throughCurFrame_state _ _ _ hr
    simp [FrameVector.size, hd]
  | addToFrameControl t =>
    obtain ⟨r, hr, rfl⟩ := onRoot_state _ _ _ h
    obtain ⟨d, hd, rfl⟩ := throughCurFrame_state _ _ _ hr
    simp [FrameVector.size, hd]
  | _ => simp [StoreOp.isAppend, StoreOp.isCommit] at hop

theorem runOps_size (ops : List StoreOp) (w w1 : World)
    (hops : ∀ op ∈ ops, op.isAppend = true ∨ op.isCommit = true) (h : runOps ops w = some w1) :
    w1.root.frames.size = w.root.frames.size + continuations ops := by
  induction ops generalizing w with
  | nil => simp only [runOps, Option.some.injEq] at h; subst h; simp [continuations]
  | cons op ops ih =>
    simp only [runOps] at h
    cases hs : (op.apply w).state? with
    | none => rw [hs] at h; simp at h
    | some w2 =>
      rw [hs] at h
      have h1 := ih w2 (fun o ho => hops o (List.mem_cons_of_mem _ ho)) h
      have h2 := apply_size op w w2 (hops op (List.mem_cons_self _ _)) hs
      rw [h1, h2, continuations_cons]
      omega

theorem throughCurFrame_ok (g : Frame → Frame) (r : RootMovieClip) (i : Nat)
    (hcur : r.cur_frame = some i) (hi : i < r.frames.size) :
    r.throughCurFrame g
      = Res.ok { r with frames := { r.frames with data := modifyAt g i r.frames.data } } := by
  unfold RootMovieClip.throughCurFrame
  split
  · rename_i hn
    rw [hn] at hcur
    cases hcur
  · rename_i j hj
    rw [hj] at hcur
    cases hcur
    rw [if_pos hi]

/-- While a frame is in progress, an append or a commit that goes on to another
frame does not crash, and a frame is in progress afterwards. -/
theorem apply_open (op : StoreOp) (w : World)
    (hop : op.isAppend = true ∨ op = StoreOp.commitFrame true)
    (hcur : w.root.cur_frame = some (w.root.frames.size - 1)) (hsz : 1 ≤ w.root.frames.size)
    (hfl : w.root.framesLoaded + 1 = w.root.frames.size) :
    ∃ w1, (op.apply w).state? = some w1
      ∧ w1.root.cur_frame = some (w1.root.frames.size - 1)
      ∧ w1.root.framesLoaded + 1 = w1.root.frames.size
      ∧ w1.root.framesLoaded = w.root.framesLoaded + (if op = StoreOp.commitFrame true then 1 else 0) := by
  have through : ∀ g, ∃ r1, (w.root.throughCurFrame g).state? = some r1
      ∧ r1.cur_frame = some (r1.frames.size - 1) ∧ r1.framesLoaded + 1 = r1.frames.size
      ∧ r1.framesLoaded = w.root.framesLoaded := by
    intro g
    have hlt : w.root.frames.size - 1 < w.root.frames.size := by omega
    refine ⟨{ w.root with frames := { w.root.frames with
      data := modifyAt g (w.root.frames.size - 1) w.root.frames.data } }, ?_, ?_⟩
    · rw [throughCurFrame_ok g w.root _ hcur hlt]
      rfl
    · simp only [FrameVector.size, length_modifyAt]
      exact ⟨hcur, hfl, trivial⟩
  cases op with
  | commitFrame another =>
    have ha : another = true := by simpa [StoreOp.isAppend] using hop
    subst ha
    obtain ⟨w1, h1⟩ := commitFrame_ne_crash true w
    obtain ⟨e1, e2, e3, -⟩ := commitFrame_state true w w1 h1
    refine ⟨w1, h1, ?_⟩
    rw [e1, e2, e3]
    simp only [if_true, FrameVector.size_push_back, Nat.add_sub_cancel, true_and]
    omega
  | addToFrameDisplayList t =>
    obtain ⟨r1, hr, h1, h2, h3⟩ := through fun fr => { fr with blueprint := fr.blueprint ++ [t] }
    refine ⟨{ w with root := r1 }, ?_, h1, h2, by simpa using h3⟩
    simp only [StoreOp.apply, World.onRoot, RootMovieClip.addToFrameDisplayList]
    revert hr
    cases w.root.throughCurFrame _ <;> simp [Res.state?, Res.map]
  | addToFrameControl t =>
    obtain ⟨r1, hr, h1, h2, h3⟩ := through fun fr => { fr with controls := fr.controls ++ [t] }
    refine ⟨{ w with root := r1 }, ?_, h1, h2, by simpa using h3⟩
    simp only [StoreOp.apply, World.onRoot, RootMovieClip.addToFrameControl]
    revert hr
    cases w.root.throughCurFrame _ <;> simp [Res.state?, Res.map]
  | _ => simp [StoreOp.isAppend] at hop

theorem runOps_open (ops : List StoreOp) (w : World)
    (hops : ∀ op ∈ ops, op.isAppend = true ∨ op = StoreOp.commitFrame true)
    (hcur : w.root.cur_frame = some (w.root.frames.size - 1)) (hsz : 1 ≤ w.root.frames.size)
    (hfl : w.root.framesLoaded + 1 = w.root.frames.size) :
    ∃ w1, runOps ops w = some w1 ∧ w1.root.framesLoaded = w.root.framesLoaded + continuations ops := by
  induction ops generalizing w with
  | nil => exact ⟨w, rfl, by simp [continuations]⟩
  | cons op ops ih =>
    obtain ⟨w2, h2, c2, f2, n2⟩ := apply_open op w (hops op (List.mem_cons_self _ _)) hcur hsz hfl
    obtain ⟨w1, h1, n1⟩ := ih w2 (fun o ho => hops o (List.mem_cons_of_mem _ ho)) c2 (by omega) f2
    refine ⟨w1, by simp only [runOps, h2, h1], ?_⟩
    rw [n1, n2, continuations_cons]
    omega

/-! ## The claims on the frame store -/

/-- C2, counterexample: on a fresh store the single call `commitFrame(false)`
leaves `framesLoaded = 1` with no `commitFrame(true)` made; and an append, a
`commitFrame(true)` and a `commitFrame(false)` leave `framesLoaded = 2` after
one `commitFrame(true)`. -/
theorem commitFrame_false_counts_too :
    (runOps [StoreOp.commitFrame false] (World.fresh SystemState.new ParseThread.new)).map
        (fun w => (w.root.framesLoaded, continuations [StoreOp.commitFrame false])) = some (1, 0)
    ∧ (runOps [StoreOp.addToFrameControl ⟨TagType.CONTROL_TAG, 1, ""⟩, StoreOp.commitFrame true,
          StoreOp.commitFrame false] (World.fresh SystemState.new ParseThread.new)).map
        (fun w => (w.root.framesLoaded,
          continuations [StoreOp.addToFrameControl ⟨TagType.CONTROL_TAG, 1, ""⟩, StoreOp.commitFrame true,
            StoreOp.commitFrame false])) = some (2, 1) := by
  decide!

/-- C2 as amended: starting from a fresh store, for every sequence of
`addToFrame` and `commitFrame` calls, with `N` the number of
`commitFrame(true)` calls made so far: the number of frames is at least
`framesLoaded` after the sequence (hence after every call of it, a prefix
being a sequence) and is `N + 1`; right after a call of `commitFrame(true)`
the value of `framesLoaded` is `N`; right after a call of `commitFrame(false)`
it is `N + 1`, the frame in progress being published too; and a sequence of
appends and commits with continuation only always runs through and ends with
`framesLoaded = N`. -/
theorem commits_count_framesLoaded (sys : SystemState) (pt : ParseThread) (ops : List StoreOp)
    (hops : ∀ op ∈ ops, op.isAppend = true ∨ op.isCommit = true) :
    (∀ w1, runOps ops (World.fresh sys pt) = some w1 →
        w1.root.frames.size ≥ w1.root.framesLoaded
          ∧ w1.root.frames.size = continuations ops + 1)
    ∧ (∀ w1, runOps (ops ++ [StoreOp.commitFrame true]) (World.fresh sys pt) = some w1 →
        w1.root.framesLoaded = continuations (ops ++ [StoreOp.commitFrame true]))
    ∧ (∀ w1, runOps (ops ++ [StoreOp.commitFrame false]) (World.fresh sys pt) = some w1 →
        w1.root.framesLoaded = continuations (ops ++ [StoreOp.commitFrame false]) + 1)
    ∧ (StoreOp.commitFrame false ∉ ops →
        ∃ w1, runOps ops (World.fresh sys pt) = some w1
          ∧ w1.root.framesLoaded = continuations ops) := by
  have last : ∀ (another : Bool) w1,
      runOps (ops ++ [StoreOp.commitFrame another]) (World.fresh sys pt) = some w1 →
      w1.root.framesLoaded = continuations ops + 1 := by
    intro another w1 h
    rw [runOps_append] at h
    cases h0 : runOps ops (World.fresh sys pt) with
    | none => rw [h0] at h; simp at h
    | some w0 =>
      rw [h0] at h
      simp only [Option.some_bind, runOps] at h
      have hsz := runOps_size ops _ w0 hops h0
      cases hs : (StoreOp.apply (StoreOp.commitFrame another) w0).state? with
      | none => rw [hs] at h; simp at h
      | some w2 =>
        rw [hs] at h
        simp only [Option.some.injEq] at h
        subst h
        obtain ⟨e1, -⟩ := commitFrame_state another w0 w2 hs
        rw [e1, hsz]
        simp [World.fresh, RootMovieClip.fresh, FrameVector.size, Nat.add_comm]
  refine ⟨fun w1 h => ⟨(runOps_reachable ops _ w1 (Reachable.fresh sys pt) h).framesLoaded_le, ?_⟩,
    ?_, ?_, ?_⟩
  · rw [runOps_size ops _ w1 hops h]
    simp [World.fresh, RootMovieClip.fresh, FrameVector.size, Nat.add_comm]
  · intro w1 h
    rw [last true w1 h]
    simp [continuations]
  · intro w1 h
    rw [last false w1 h]
    simp [continuations]
  · intro hno
    have hops2 : ∀ op ∈ ops, op.isAppend = true ∨ op = StoreOp.commitFrame true := by
      intro op hop
      rcases hops op hop with h | h
      · exact Or.inl h
      · cases op with
        | commitFrame another =>
          cases another
          · exact absurd hop hno
          · exact Or.inr rfl
        | _ => simp [StoreOp.isCommit] at h
    obtain ⟨w1, h1, n1⟩ := runOps_open ops (World.fresh sys pt) hops2 rfl (Nat.le_refl 1) rfl
    exact ⟨w1, h1, by simpa [World.fresh, RootMovieClip.fresh] using n1⟩

/-- Witness of C2 as amended: a control tag is appended, then the frame is
committed with continuation. -/
theorem commits_count_framesLoaded_witness :
    ∃ w1, runOps [StoreOp.addToFrameControl ⟨TagType.CONTROL_TAG, 1, ""⟩, StoreOp.commitFrame true]
        (World.fresh SystemState.new ParseThread.new) = some w1
      ∧ w1.root.framesLoaded = continuations
          [StoreOp.addToFrameControl ⟨TagType.CONTROL_TAG, 1, ""⟩, StoreOp.commitFrame true] :=
  (commits_count_framesLoaded SystemState.new ParseThread.new
    [StoreOp.addToFrameControl ⟨TagType.CONTROL_TAG, 1, ""⟩, StoreOp.commitFrame true]
    (by simp [StoreOp.isAppend, StoreOp.isCommit])).2.2.2 (by decide)

/-- C3: `framesLoaded` never decreases: in every reachable state, every frame
store call that does not crash (it returns, or it throws and leaves the state
reached at the throw) leaves `framesLoaded` at least as large as before. -/
theorem framesLoaded_monotone (w w1 : World) (op : StoreOp) (hw : Reachable w)
    (h : (op.apply w).state? = some w1) :
    w.root.framesLoaded ≤ w1.root.framesLoaded :=
  (apply_framesLoaded op w w1 h hw.framesLoaded_le).1

/-- Witness of C3: the first commit on a fresh store. -/
theorem framesLoaded_monotone_witness :
    (World.fresh SystemState.new ParseThread.new).root.framesLoaded
      ≤ (World.mk
          { RootMovieClip.fresh with
            frames := { data := [Frame.new, Frame.new], spare := 0 }
            cur_frame := some 1
            framesLoaded := 1
            bootstraps := 1
            new_frame := 1 }
          { SystemState.new with timerThread := [TimerCall.addTick none ITickJob.root] }
          ParseThread.new).root.framesLoaded :=
  framesLoaded_monotone _ _ (StoreOp.commitFrame true) (Reachable.fresh _ _) (by decide)

/-- C5: on a store whose last frame is uncommitted (the vector is not empty and
`framesLoaded` is its size minus one), `revertFrame` returns; it removes
exactly the last frame (the frames before it are the same, in order), keeps
`framesLoaded` and every other member, and leaves no frame in progress:
`cur_frame` is `NULL` and every frame left is a committed one. -/
theorem revertFrame_removes_last (r : RootMovieClip) (hne : r.frames.size ≠ 0)
    (hfl : r.framesLoaded = r.frames.size - 1) :
    ∃ r1 last, r.revertFrame = Res.ok r1
      ∧ r.frames.data = r1.frames.data ++ [last]
      ∧ r1.framesLoaded = r.framesLoaded
      ∧ r1.cur_frame = none
      ∧ r1.framesLoaded = r1.frames.size
      ∧ r1 = { r with frames := r1.frames, cur_frame := none } := by
  have hd : r.frames.data ≠ [] := by
    intro h
    exact hne (by simp [FrameVector.size, h])
  refine ⟨{ r with frames := r.frames.pop_back, cur_frame := none }, r.frames.data.getLast hd, ?_, ?_,
    rfl, rfl, ?_, rfl⟩
  · unfold RootMovieClip.revertFrame
    rw [if_pos ⟨hne, hfl⟩]
  · exact (List.dropLast_append_getLast hd).symm
  · simp only [FrameVector.pop_back, FrameVector.size, List.length_dropLast]
    exact hfl

/-- Witness of C5: the in-progress frame of a fresh store is reverted. -/
theorem revertFrame_removes_last_witness :
    ∃ r1 last, RootMovieClip.fresh.revertFrame = Res.ok r1
      ∧ RootMovieClip.fresh.frames.data = r1.frames.data ++ [last]
      ∧ r1.framesLoaded = RootMovieClip.fresh.framesLoaded
      ∧ r1.cur_frame = none
      ∧ r1.framesLoaded = r1.frames.size
      ∧ r1 = { RootMovieClip.fresh with frames := r1.frames, cur_frame := none } :=
  revertFrame_removes_last RootMovieClip.fresh (by decide) (by decide)

/-! ## The claims on `RootMovieClip::Render` -/

theorem RenderLoop_present (r : RootMovieClip) (n : Nat) (h : r.next_FP < r.frames.size) :
    RenderLoop r n = (RenderOutcome.draws, n) := by
  cases n <;> simp [RenderLoop, h]

theorem RenderLoop_absent (r : RootMovieClip) (n : Nat) (h : ¬ r.next_FP < r.frames.size) :
    RenderLoop r n =
      if n = 0 then (RenderOutcome.waits, 0)
      else if r.parsingIsFailed then (RenderOutcome.returnsWithoutDrawing, n - 1)
      else (RenderOutcome.waits, 0) := by
  induction n with
  | zero => simp [RenderLoop, h]
  | succ n ih =>
    simp only [RenderLoop, h, if_false, ih]
    by_cases hf : r.parsingIsFailed = true
    · simp [hf]
    · simp only [hf, if_false]
      by_cases hn : n = 0 <;> simp [hn]

/-- The gate of `Render` is the size of the vector: it draws exactly when
`state.next_FP<frames.size()`. -/
theorem Render_draws_iff (r : RootMovieClip) :
    r.Render.1 = RenderOutcome.draws ↔ r.next_FP < r.frames.size := by
  unfold RootMovieClip.Render
  by_cases h : r.next_FP < r.frames.size
  · simp [RenderLoop_present r _ h, h]
  · simp only [RenderLoop_absent r _ h, h, iff_false]
    split
    · simp
    · split <;> simp

/-- C4, the code at the failing input: on a fresh store nothing is committed
(`framesLoaded` is 0) and `next_FP` is 0, which is not below `framesLoaded`;
yet `Render` does not wait for the new-frame signal: it goes on to draw the
frame in progress, and leaves the store as it was. -/
theorem Render_draws_uncommitted_frame :
    RootMovieClip.fresh.framesLoaded = 0
    ∧ RootMovieClip.fresh.next_FP = 0
    ∧ RootMovieClip.fresh.Render = (RenderOutcome.draws, RootMovieClip.fresh) := by
  decide

/-- Every call keeps a failed store failed. -/
theorem apply_parsingIsFailed (op : StoreOp) (w w1 : World)
    (h : (op.apply w).state? = some w1) (hf : w.root.parsingIsFailed = true) :
    w1.root.parsingIsFailed = true := by
  cases op with
  | commitFrame another =>
    obtain ⟨-, -, -, h4, -⟩ := commitFrame_state another w w1 h
    rw [h4, hf]
  | revertFrame =>
    obtain ⟨r, hr, rfl⟩ := onRoot_state _ _ _ h
    unfold RootMovieClip.revertFrame at hr
    split at hr <;>
    · simp only [Res.state?, Option.some.injEq] at hr
      subst hr
      exact hf
  | labelCurrentFrame name =>
    obtain ⟨r, hr, rfl⟩ := onRoot_state _ _ _ h
    unfold RootMovieClip.labelCurrentFrame at hr
    split at hr
    · simp [Res.state?] at hr
    · simp only [Res.state?, Option.some.injEq] at hr
      subst hr
      exact hf
  | addToFrameDisplayList t =>
    obtain ⟨r, hr, rfl⟩ := onRoot_state _ _ _ h
    obtain ⟨d, -, rfl⟩ := throughCurFrame_state _ _ _ hr
    exact hf
  | addToFrameControl t =>
    obtain ⟨r, hr, rfl⟩ := onRoot_state _ _ _ h
    obtain ⟨d, -, rfl⟩ := throughCurFrame_state _ _ _ hr
    exact hf
  | setFrameCount f =>
    obtain ⟨r, hr, rfl⟩ := onRoot_state _ _ _ h
    unfold RootMovieClip.setFrameCount at hr
    dsimp only at hr
    split at hr
    · simp [Res.state?] at hr
    · split at hr
      · simp only [Res.state?, Option.some.injEq] at hr
        subst hr
        exact hf
      · split at hr
        · simp [Res.state?] at hr
        · simp only [Res.state?, Option.some.injEq] at hr
          subst hr
          exact hf
  | parsingFailed =>
    simp only [StoreOp.apply, Res.state?, Option.some.injEq] at h
    subst h
    rfl
  | setFrameSize f =>
    obtain ⟨r, hr, rfl⟩ := onRoot_state _ _ _ h
    unfold RootMovieClip.setFrameSize at hr
    dsimp only at hr
    split at hr <;>
    · simp only [Res.state?, Option.some.injEq] at hr
      subst hr
      exact hf
  | setFrameRate f =>
    simp only [StoreOp.apply, Res.state?, Option.some.injEq] at h
    subst h
    exact hf
  | addToDictionary d =>
    simp only [StoreOp.apply, Res.state?, Option.some.injEq] at h
    subst h
    exact hf

theorem runOps_parsingIsFailed (ops : List StoreOp) (w w1 : World)
    (h : runOps ops w = some w1) (hf : w.root.parsingIsFailed = true) :
    w1.root.parsingIsFailed = true := by
  induction ops generalizing w with
  | nil => simp only [runOps, Option.some.injEq] at h; exact h ▸ hf
  | cons op ops ih =>
    simp only [runOps] at h
    cases hs : (op.apply w).state? with
    | none => rw [hs] at h; simp at h
    | some w2 => rw [hs] at h; exact ih w2 h (apply_parsingIsFailed op w w2 hs hf)

/-- C7, counterexample: a control tag is appended to a fresh store, the frame is
committed without continuation and `parsingFailed` is called; the store is
failed, its one frame is committed, and `Render` with `next_FP = 0` still goes
on to draw it. -/
theorem Render_draws_after_parsingFailed :
    ∃ w, runOps [StoreOp.addToFrameControl ⟨TagType.CONTROL_TAG, 1, ""⟩, StoreOp.commitFrame false,
          StoreOp.parsingFailed] (World.fresh SystemState.new ParseThread.new) = some w
      ∧ w.root.parsingIsFailed = true
      ∧ w.root.framesLoaded = 1
      ∧ w.root.next_FP = 0
      ∧ w.root.Render.1 = RenderOutcome.draws :=
  ⟨_, rfl, by decide, by decide, by decide, by decide⟩

/-- C7 as amended: after `parsingFailed` the store stays failed under every
later sequence of frame store calls, and in the state `w1` so reached a
`Render` call whose frame at `next_FP` is not in the vector never draws: it
returns without drawing when a new-frame signal is pending, as one is right
after `parsingFailed`, and waits otherwise; a committed frame
(`next_FP < framesLoaded`) is still drawn. -/
theorem parsingFailed_terminal (w w1 : World) (ops : List StoreOp) (hw : Reachable w)
    (h : runOps (StoreOp.parsingFailed :: ops) w = some w1) :
    w1.root.parsingIsFailed = true
    ∧ (w1.root.frames.size ≤ w1.root.next_FP →
        w1.root.Render.1 =
          if w1.root.new_frame = 0 then RenderOutcome.waits else RenderOutcome.returnsWithoutDrawing)
    ∧ (w.root.frames.size ≤ w.root.next_FP →
        w.root.parsingFailed.Render.1 = RenderOutcome.returnsWithoutDrawing)
    ∧ (w1.root.next_FP < w1.root.framesLoaded → w1.root.Render.1 = RenderOutcome.draws) := by
  have hf : w1.root.parsingIsFailed = true := by
    simp only [runOps, StoreOp.apply, Res.state?] at h
    exact runOps_parsingIsFailed ops _ w1 h rfl
  have hr : Reachable w1 := runOps_reachable _ w w1 hw h
  refine ⟨hf, ?_, ?_, ?_⟩
  · intro hge
    have hn : ¬ w1.root.next_FP < w1.root.frames.size := by omega
    simp only [RootMovieClip.Render, RenderLoop_absent _ _ hn, hf, if_true]
    split <;> rfl
  · intro hge
    have hn : ¬ w.root.parsingFailed.next_FP < w.root.parsingFailed.frames.size := by
      simp only [RootMovieClip.parsingFailed]
      omega
    have hp : w.root.parsingFailed.parsingIsFailed = true := rfl
    have hs : w.root.parsingFailed.new_frame = w.root.new_frame + 1 := rfl
    simp only [RootMovieClip.Render, RenderLoop_absent _ _ hn, hp, hs, if_true]
    simp
  · intro hlt
    exact (Render_draws_iff _).2 (lt_of_lt_of_le hlt hr.framesLoaded_le)

/-- Witness of C7 as amended: `parsingFailed` on a fresh store whose playback position is past its frames. -/
theorem parsingFailed_terminal_witness :
    (World.mk { RootMovieClip.fresh.parsingFailed with next_FP := 1 } SystemState.new ParseThread.new).root.parsingIsFailed = true
    ∧ ((World.mk { RootMovieClip.fresh.parsingFailed with next_FP := 1 } SystemState.new ParseThread.new).root.frames.size
          ≤ (World.mk { RootMovieClip.fresh.parsingFailed with next_FP := 1 } SystemState.new ParseThread.new).root.next_FP →
        (World.mk { RootMovieClip.fresh.parsingFailed with next_FP := 1 } SystemState.new ParseThread.new).root.Render.1 =
          if (World.mk { RootMovieClip.fresh.parsingFailed with next_FP := 1 } SystemState.new ParseThread.new).root.new_frame = 0
          then RenderOutcome.waits else RenderOutcome.returnsWithoutDrawing)
    ∧ ((World.mk { RootMovieClip.fresh with next_FP := 1 } SystemState.new ParseThread.new).root.frames.size
          ≤ (World.mk { RootMovieClip.fresh with next_FP := 1 } SystemState.new ParseThread.new).root.next_FP →
        (World.mk { RootMovieClip.fresh with next_FP := 1 } SystemState.new ParseThread.new).root.parsingFailed.Render.1
          = RenderOutcome.returnsWithoutDrawing)
    ∧ ((World.mk { RootMovieClip.fresh.parsingFailed with next_FP := 1 } SystemState.new ParseThread.new).root.next_FP
          < (World.mk { RootMovieClip.fresh.parsingFailed with next_FP := 1 } SystemState.new ParseThread.new).root.framesLoaded →
        (World.mk { RootMovieClip.fresh.parsingFailed with next_FP := 1 } SystemState.new ParseThread.new).root.Render.1
          = RenderOutcome.draws) :=
  parsingFailed_terminal (World.mk { RootMovieClip.fresh with next_FP := 1 } SystemState.new ParseThread.new) _ []
    (Reachable.others _ SystemState.new ParseThread.new 1 (Reachable.fresh SystemState.new ParseThread.new))
    (by decide)

/-! ## The claims on closing the store and on the frame count -/

/-- A call other than `commitFrame(true)` leaves `cur_frame` at `NULL` when it was. -/
theorem apply_closed (op : StoreOp) (w w1 : World) (hop : op ≠ StoreOp.commitFrame true)
    (h : (op.apply w).state? = some w1) (hc : w.root.cur_frame = none) :
    w1.root.cur_frame = none := by
  cases op with
  | commitFrame another =>
    obtain ⟨-, -, h3, -⟩ := commitFrame_state another w w1 h
    cases another
    · simpa using h3
    · exact absurd rfl hop
  | revertFrame =>
    obtain ⟨r, hr, rfl⟩ := onRoot_state _ _ _ h
    unfold RootMovieClip.revertFrame at hr
    split at hr <;>
    · simp only [Res.state?, Option.some.injEq] at hr
      subst hr
      first | rfl | exact hc
  | labelCurrentFrame name =>
    obtain ⟨r, hr, rfl⟩ := onRoot_state _ _ _ h
    unfold RootMovieClip.labelCurrentFrame at hr
    split at hr
    · simp [Res.state?] at hr
    · simp only [Res.state?, Option.some.injEq] at hr
      subst hr
      exact hc
  | addToFrameDisplayList t =>
    obtain ⟨r, hr, rfl⟩ := onRoot_state _ _ _ h
    obtain ⟨d, -, rfl⟩ := throughCurFrame_state _ _ _ hr
    exact hc
  | addToFrameControl t =>
    obtain ⟨r, hr, rfl⟩ := onRoot_state _ _ _ h
    obtain ⟨d, -, rfl⟩ := throughCurFrame_state _ _ _ hr
    exact hc
  | setFrameCount f =>
    obtain ⟨r, hr, rfl⟩ := onRoot_state _ _ _ h
    unfold RootMovieClip.setFrameCount at hr
    dsimp only at hr
    split at hr
    · simp [Res.state?] at hr
    · split at hr
      · simp only [Res.state?, Option.some.injEq] at hr
        subst hr
        exact hc
      · rename_i hne
        simp only [ne_eq, not_not] at hne
        rw [hc] at hne
        cases hne
  | parsingFailed =>
    simp only [StoreOp.apply, Res.state?, Option.some.injEq] at h
    subst h
    exact hc
  | setFrameSize f =>
    obtain ⟨r, hr, rfl⟩ := onRoot_state _ _ _ h
    unfold RootMovieClip.setFrameSize at hr
    dsimp only at hr
    split at hr <;>
    · simp only [Res.state?, Option.some.injEq] at hr
      subst hr
      exact hc
  | setFrameRate f =>
    simp only [StoreOp.apply, Res.state?, Option.some.injEq] at h
    subst h
    exact hc
  | addToDictionary d =>
    simp only [StoreOp.apply, Res.state?, Option.some.injEq] at h
    subst h
    exact hc

theorem runOps_closed (ops : List StoreOp) (w w1 : World) (hops : StoreOp.commitFrame true ∉ ops)
    (h : runOps ops w = some w1) (hc : w.root.cur_frame = none) : w1.root.cur_frame = none := by
  induction ops generalizing w with
  | nil => simp only [runOps, Option.some.injEq] at h; exact h ▸ hc
  | cons op ops ih =>
    simp only [runOps] at h
    cases hs : (op.apply w).state? with
    | none => rw [hs] at h; simp at h
    | some w2 =>
      rw [hs] at h
      have hop : op ≠ StoreOp.commitFrame true := fun e => hops (e ▸ List.mem_cons_self _ _)
      exact ih w2 (fun hm => hops (List.mem_cons_of_mem _ hm)) h (apply_closed op w w2 hop hs hc)

/-- C6, counterexample: on a fresh store a control tag is appended and the frame
is committed without continuation; a later `commitFrame(true)` opens a new
frame in progress, and the append of a second control tag then succeeds. -/
theorem append_succeeds_after_reopening :
    (runCalls [StoreOp.addToFrameControl ⟨TagType.CONTROL_TAG, 1, ""⟩, StoreOp.commitFrame false,
        StoreOp.commitFrame true, StoreOp.addToFrameControl ⟨TagType.CONTROL_TAG, 2, ""⟩]
        (World.fresh SystemState.new ParseThread.new)).map (fun w => w.root.frames.data)
      = Res.ok [{ Label := "", blueprint := [], controls := [⟨TagType.CONTROL_TAG, 1, ""⟩] },
                { Label := "", blueprint := [], controls := [⟨TagType.CONTROL_TAG, 2, ""⟩] }] := by
  decide

/-- C6 as amended: `commitFrame(false)` leaves a state `w1` with `cur_frame` at
`NULL`; after every later sequence of frame store calls without a
`commitFrame(true)`, it is still `NULL` and the append of a control tag fails
(a null dereference), leaving no modified store behind. After a
`commitFrame(true)`, on any state, the append of a control tag returns. -/
theorem closed_after_final_commit (w : World) (ops : List StoreOp) (t : Tag)
    (hops : StoreOp.commitFrame true ∉ ops) :
    (∃ w1, (commitFrame false w).state? = some w1
      ∧ w1.root.cur_frame = none
      ∧ ∀ w2, runOps ops w1 = some w2 →
          w2.root.cur_frame = none ∧ (StoreOp.addToFrameControl t).apply w2 = Res.crash)
    ∧ (∀ w2 w3, (commitFrame true w2).state? = some w3 →
        ∃ w4, (StoreOp.addToFrameControl t).apply w3 = Res.ok w4) := by
  constructor
  · obtain ⟨w1, h1⟩ := commitFrame_ne_crash false w
    obtain ⟨-, -, h3, -⟩ := commitFrame_state false w w1 h1
    have hc : w1.root.cur_frame = none := by simpa using h3
    refine ⟨w1, h1, hc, fun w2 h2 => ?_⟩
    have hc2 := runOps_closed ops w1 w2 hops h2 hc
    refine ⟨hc2, ?_⟩
    simp only [StoreOp.apply, World.onRoot, RootMovieClip.addToFrameControl,
      RootMovieClip.throughCurFrame, hc2, Res.map]
  · intro w2 w3 h
    obtain ⟨-, e2, e3, -⟩ := commitFrame_state true w2 w3 h
    simp only [if_true] at e2 e3
    have hlt : w2.root.frames.size < w3.root.frames.size := by
      rw [e2, FrameVector.size_push_back]
      exact Nat.lt_succ_self _
    refine ⟨{ w3 with root := { w3.root with frames := { w3.root.frames with
      data := modifyAt (fun fr => { fr with controls := fr.controls ++ [t] })
        w2.root.frames.size w3.root.frames.data } } }, ?_⟩
    simp only [StoreOp.apply, World.onRoot, RootMovieClip.addToFrameControl,
      throughCurFrame_ok _ w3.root _ e3 hlt, Res.map]

/-- Witness of C6 as amended: after the commit without continuation, a label and `parsingFailed`. -/
theorem closed_after_final_commit_witness :
    ∃ w1, (commitFrame false (World.fresh SystemState.new ParseThread.new)).state? = some w1
      ∧ w1.root.cur_frame = none
      ∧ ∀ w2, runOps [StoreOp.labelCurrentFrame "a", StoreOp.parsingFailed] w1 = some w2 →
          w2.root.cur_frame = none
            ∧ (StoreOp.addToFrameControl ⟨TagType.CONTROL_TAG, 2, ""⟩).apply w2 = Res.crash :=
  (closed_after_final_commit (World.fresh SystemState.new ParseThread.new)
    [StoreOp.labelCurrentFrame "a", StoreOp.parsingFailed] ⟨TagType.CONTROL_TAG, 2, ""⟩ (by decide)).1

theorem FrameVector.capacity_push_back (v : FrameVector) (f : Frame) :
    v.capacity ≤ (v.push_back f).capacity := by
  unfold FrameVector.push_back FrameVector.capacity
  cases hs : v.spare with
  | zero => simp only [List.length_append, List.length_singleton]; omega
  | succ n => simp only [List.length_append, List.length_singleton]; omega

/-- Every call keeps the capacity of the vector from shrinking, and every call
but `setFrameCount` keeps `totalFrames`. -/
theorem apply_capacity (op : StoreOp) (w w1 : World) (h : (op.apply w).state? = some w1) :
    w.root.frames.capacity ≤ w1.root.frames.capacity
      ∧ ((∀ g, op ≠ StoreOp.setFrameCount g) → w1.root.totalFrames = w.root.totalFrames) := by
  cases op with
  | commitFrame another =>
    obtain ⟨-, h2, -, -, -, h6, -⟩ := commitFrame_state another w w1 h
    rw [h2, h6]
    refine ⟨?_, fun _ => rfl⟩
    cases another
    · simp
    · simpa using FrameVector.capacity_push_back _ _
  | revertFrame =>
    obtain ⟨r, hr, rfl⟩ := onRoot_state _ _ _ h
    unfold RootMovieClip.revertFrame at hr
    split at hr
    · simp only [Res.state?, Option.some.injEq] at hr
      subst hr
      rename_i hc
      refine ⟨?_, fun _ => rfl⟩
      simp only [FrameVector.pop_back, FrameVector.capacity, List.length_dropLast]
      simp only [FrameVector.size] at hc
      omega
    · simp only [Res.state?, Option.some.injEq] at hr
      subst hr
      exact ⟨le_refl _, fun _ => rfl⟩
  | labelCurrentFrame name =>
    obtain ⟨r, hr, rfl⟩ := onRoot_state _ _ _ h
    unfold RootMovieClip.labelCurrentFrame at hr
    split at hr
    · simp [Res.state?] at hr
    · simp only [Res.state?, Option.some.injEq] at hr
      subst hr
      exact ⟨by simp [FrameVector.capacity, length_modifyLast], fun _ => rfl⟩
  | addToFrameDisplayList t =>
    obtain ⟨r, hr, rfl⟩ := onRoot_state _ _ _ h
    obtain ⟨d, hd, rfl⟩ := throughCurFrame_state _ _ _ hr
    exact ⟨by simp [FrameVector.capacity, hd], fun _ => rfl⟩
  | addToFrameControl t =>
    obtain ⟨r, hr, rfl⟩ := onRoot_state _ _ _ h
    obtain ⟨d, hd, rfl⟩ := throughCurFrame_state _ _ _ hr
    exact ⟨by simp [FrameVector.capacity, hd], fun _ => rfl⟩
  | setFrameCount f =>
    obtain ⟨r, hr, rfl⟩ := onRoot_state _ _ _ h
    refine ⟨?_, fun hne => absurd rfl (hne f)⟩
    unfold RootMovieClip.setFrameCount at hr
    dsimp only at hr
    split at hr
    · simp [Res.state?] at hr
    · split at hr
      · simp only [Res.state?, Option.some.injEq] at hr
        subst hr
        exact le_refl _
      · split at hr
        · simp [Res.state?] at hr
        · simp only [Res.state?, Option.some.injEq] at hr
          subst hr
          simp only [FrameVector.reserve, FrameVector.capacity]
          omega
  | parsingFailed =>
    simp only [StoreOp.apply, Res.state?, Option.some.injEq] at h
    subst h
    exact ⟨le_refl _, fun _ => rfl⟩
  | setFrameSize f =>
    obtain ⟨r, hr, rfl⟩ := onRoot_state _ _ _ h
    unfold RootMovieClip.setFrameSize at hr
    dsimp only at hr
    split at hr <;>
    · simp only [Res.state?, Option.some.injEq] at hr
      subst hr
      exact ⟨le_refl _, fun _ => rfl⟩
  | setFrameRate f =>
    simp only [StoreOp.apply, Res.state?, Option.some.injEq] at h
    subst h
    exact ⟨le_refl _, fun _ => rfl⟩
  | addToDictionary d =>
    simp only [StoreOp.apply, Res.state?, Option.some.injEq] at h
    subst h
    exact ⟨le_refl _, fun _ => rfl⟩

theorem runOps_capacity (ops : List StoreOp) (w w1 : World)
    (hops : ∀ op ∈ ops, ∀ g, op ≠ StoreOp.setFrameCount g) (h : runOps ops w = some w1) :
    w.root.frames.capacity ≤ w1.root.frames.capacity ∧ w1.root.totalFrames = w.root.totalFrames := by
  induction ops generalizing w with
  | nil => simp only [runOps, Option.some.injEq] at h; subst h; exact ⟨le_refl _, rfl⟩
  | cons op ops ih =>
    simp only [runOps] at h
    cases hs : (op.apply w).state? with
    | none => rw [hs] at h; simp at h
    | some w2 =>
      rw [hs] at h
      obtain ⟨c1, t1⟩ := apply_capacity op w w2 hs
      obtain ⟨c2, t2⟩ := ih w2 (fun o ho => hops o (List.mem_cons_of_mem _ ho)) h
      exact ⟨le_trans c1 c2, by rw [t2, t1 (hops op (List.mem_cons_self _ _))]⟩

/-- C8, counterexample: the calls of a one-frame stream up to its SHOW tag.
After `setFrameCount(1)`, a display list tag is appended and the frame is
committed with continuation; the commit returns normally and the store holds
two frames, more than `totalFrames = 1`. -/
theorem commit_grows_past_frame_count :
    (runCalls [StoreOp.setFrameCount 1, StoreOp.addToFrameDisplayList ⟨TagType.DISPLAY_LIST_TAG, 1, ""⟩,
        StoreOp.commitFrame true] (World.fresh SystemState.new ParseThread.new)).map
        (fun w => (w.root.frames.size, w.root.totalFrames))
      = Res.ok (2, 1) := by
  decide

/-- C8 as amended: on a store with a frame in progress `setFrameCount(f)`
returns and leaves `totalFrames = f`, the frames as they were and room for at
least `f` of them; after every later sequence of calls other than
`setFrameCount`, `totalFrames` is still `f`, the capacity is still at least
`f`, the size is at most the capacity, and when the calls are appends and
commits the size is the one before plus the number of `commitFrame(true)`
calls. -/
theorem frame_count_reserved (w : World) (f : Nat) (ops : List StoreOp)
    (hcur : w.root.cur_frame = some (w.root.frames.size - 1)) (hsz : w.root.frames.size ≠ 0)
    (hops : ∀ op ∈ ops, ∀ g, op ≠ StoreOp.setFrameCount g) :
    ∃ w0, (StoreOp.setFrameCount f).apply w = Res.ok w0
      ∧ w0.root.totalFrames = f
      ∧ f ≤ w0.root.frames.capacity
      ∧ w0.root.frames.data = w.root.frames.data
      ∧ ∀ w1, runOps ops w0 = some w1 →
          w1.root.totalFrames = f
          ∧ f ≤ w1.root.frames.capacity
          ∧ w1.root.frames.size ≤ w1.root.frames.capacity
          ∧ ((∀ op ∈ ops, op.isAppend = true ∨ op.isCommit = true) →
              w1.root.frames.size = w.root.frames.size + continuations ops) := by
  have hap : (StoreOp.setFrameCount f).apply w
      = Res.ok { w with root := { w.root with
          totalFrames := f, max_FP := f, frames := w.root.frames.reserve (f : Int).toNat,
          cur_frame := some (w.root.frames.size - 1) } } := by
    simp only [StoreOp.apply, World.onRoot, RootMovieClip.setFrameCount, hsz, hcur, if_false,
      ne_eq, not_true_eq_false, Res.map]
    rw [if_neg (by omega)]
  have hcap : f ≤ (w.root.frames.reserve (f : Int).toNat).capacity := by
    simp only [FrameVector.reserve, FrameVector.capacity, Int.toNat_ofNat]
    omega
  refine ⟨_, hap, rfl, hcap, rfl, fun w1 h1 => ?_⟩
  obtain ⟨c1, t1⟩ := runOps_capacity ops _ w1 hops h1
  refine ⟨t1, le_trans hcap c1, FrameVector.size_le_capacity _, fun hac => ?_⟩
  have hs := runOps_size ops _ w1 hac h1
  simpa [FrameVector.size, FrameVector.reserve] using hs

/-- Witness of C8 as amended: a fresh store, two frames declared, one frame committed. -/
theorem frame_count_reserved_witness :
    ∃ w0, (StoreOp.setFrameCount (2 : Nat)).apply (World.fresh SystemState.new ParseThread.new) = Res.ok w0
      ∧ w0.root.totalFrames = (2 : Nat)
      ∧ 2 ≤ w0.root.frames.capacity
      ∧ w0.root.frames.data = (World.fresh SystemState.new ParseThread.new).root.frames.data
      ∧ ∀ w1, runOps [StoreOp.commitFrame true] w0 = some w1 →
          w1.root.totalFrames = (2 : Nat)
          ∧ 2 ≤ w1.root.frames.capacity
          ∧ w1.root.frames.size ≤ w1.root.frames.capacity
          ∧ ((∀ op ∈ [StoreOp.commitFrame true], op.isAppend = true ∨ op.isCommit = true) →
              w1.root.frames.size = (World.fresh SystemState.new ParseThread.new).root.frames.size
                + continuations [StoreOp.commitFrame true]) :=
  frame_count_reserved (World.fresh SystemState.new ParseThread.new) 2 [StoreOp.commitFrame true]
    (by decide) (by decide) (by simp)

/-! ## The claims on the header and on the failure path of the parser job -/

/-- The signature is one of the two the constructor recognises. -/
theorem recognised_iff (i : HeaderFields) :
    ((i.Signature0 = 'F' ∧ i.Signature1 = 'W' ∧ i.Signature2 = 'S')
      ∨ (i.Signature0 = 'C' ∧ i.Signature1 = 'W' ∧ i.Signature2 = 'S'))
    ↔ (i.Signature = ['F', 'W', 'S'] ∨ i.Signature = ['C', 'W', 'S']) := by
  simp [HeaderFields.Signature]

/-- On a coordinator without a render thread, or with a render rate that is not
negative, `setRenderRate` returns, and leaves
the error and shutdown flags, the virtual machine and the tag storage alone. -/
theorem setRenderRate_ok (rate : ℚ) (s : SystemState)
    (hr : s.renderThread = none ∨ 0 ≤ s.renderRate) :
    ∃ s1, s.setRenderRate rate = Res.ok s1 ∧ s1.error = s.error ∧ s1.shutdown = s.shutdown
      ∧ s1.currentVm = s.currentVm ∧ s1.tagsStorage = s.tagsStorage := by
  unfold SystemState.setRenderRate
  split
  · exact ⟨s, rfl, rfl, rfl, rfl, rfl⟩
  · rename_i hlt
    dsimp only
    cases hrt : s.renderThread with
    | none => exact ⟨_, rfl, rfl, rfl, rfl, rfl⟩
    | some rt =>
      have h0 : 0 ≤ s.renderRate := by
        rcases hr with h | h
        · rw [hrt] at h; cases h
        · exact h
      have hne : ¬ rate = 0 := by
        intro h
        apply hlt
        rw [h]
        exact h0
      simp only [SystemState.startRenderTicks, hrt, hne, if_false]
      exact ⟨_, rfl, rfl, rfl, rfl, rfl⟩

/-- With a recognised signature the constructor returns a valid header, on a
coordinator without a render thread or with a render rate that is not negative. -/
theorem ctor_recognised (i : HeaderFields) (w : World)
    (hs : i.Signature = ['F', 'W', 'S'] ∨ i.Signature = ['C', 'W', 'S'])
    (hr : w.sys.renderThread = none ∨ 0 ≤ w.sys.renderRate) :
    ∃ s1, SWF_HEADER.ctor i w = some ({ fields := i, valid := true },
        { root := { w.root.setFrameRate ((i.FrameRate : ℚ) / 256) with
                      version := i.Version, fileLenght := i.FileLength }
          sys := s1
          pt := { w.pt with version := i.Version } })
      ∧ s1.error = w.sys.error ∧ s1.shutdown = w.sys.shutdown
      ∧ s1.currentVm = w.sys.currentVm ∧ s1.tagsStorage = w.sys.tagsStorage := by
  rw [← recognised_iff] at hs
  obtain ⟨s1, h1, e1, e2, e3, e4⟩ := setRenderRate_ok ((i.FrameRate : ℚ) / 256) w.sys hr
  refine ⟨s1, ?_, e1, e2, e3, e4⟩
  unfold SWF_HEADER.ctor
  rw [if_pos hs]
  dsimp only
  rw [h1]

/-- C10: the header that `SWF_HEADER::SWF_HEADER` constructs is valid iff the
signature is "FWS" or "CWS". For every other signature the constructor
returns an invalid header and changes nothing (no version, frame rate or
render rate is published); the `try` block of `ParseThread::execute` throws
"Not an SWF file" from that unchanged state whatever units follow, so the
frame size and the frame count are not set and no tag is read; and `execute`
returns through its `catch` block. With a recognised signature the
constructor does return a valid header, on a coordinator without a render
thread or with a render rate that is not negative. -/
theorem unrecognised_signature_fails_fast (i : HeaderFields) (units : List StreamUnit) (w : World) :
    (∀ h w1, SWF_HEADER.ctor i w = some (h, w1) →
        (h.valid = true ↔ (i.Signature = ['F', 'W', 'S'] ∨ i.Signature = ['C', 'W', 'S'])))
    ∧ (¬ (i.Signature = ['F', 'W', 'S'] ∨ i.Signature = ['C', 'W', 'S']) →
        SWF_HEADER.ctor i w = some ({ fields := i, valid := false }, w)
        ∧ tryBlock i units w = LoopOutcome.threw "Not an SWF file" w
        ∧ execute i units w = ExecOutcome.returned (signalEnded (catchBlock "Not an SWF file" w))
        ∧ (catchBlock "Not an SWF file" w).root.frameSize = w.root.frameSize
        ∧ (catchBlock "Not an SWF file" w).root.totalFrames = w.root.totalFrames
        ∧ (catchBlock "Not an SWF file" w).root.frameRate = w.root.frameRate
        ∧ (catchBlock "Not an SWF file" w).sys.renderRate = w.sys.renderRate
        ∧ (catchBlock "Not an SWF file" w).sys.tagsStorage = w.sys.tagsStorage
        ∧ (catchBlock "Not an SWF file" w).sys.error = true)
    ∧ ((i.Signature = ['F', 'W', 'S'] ∨ i.Signature = ['C', 'W', 'S']) →
        (w.sys.renderThread = none ∨ 0 ≤ w.sys.renderRate) →
        ∃ w1, SWF_HEADER.ctor i w = some ({ fields := i, valid := true }, w1)) := by
  refine ⟨?_, ?_, fun hs hr => ?_⟩
  rotate_left 2
  · obtain ⟨s1, h1, -⟩ := ctor_recognised i w hs hr
    exact ⟨_, h1⟩
  · intro h w1 hc
    rw [← recognised_iff]
    unfold SWF_HEADER.ctor at hc
    split at hc
    · rename_i hs
      dsimp only at hc
      split at hc
      · simp only [Option.some.injEq, Prod.mk.injEq] at hc
        rw [← hc.1]
        simp [hs]
      · simp at hc
    · rename_i hs
      simp only [Option.some.injEq, Prod.mk.injEq] at hc
      rw [← hc.1]
      simp [hs]
  · intro hs
    rw [← recognised_iff] at hs
    have hc : SWF_HEADER.ctor i w = some ({ fields := i, valid := false }, w) := by
      unfold SWF_HEADER.ctor
      rw [if_neg hs]
    have ht : tryBlock i units w = LoopOutcome.threw "Not an SWF file" w := by
      unfold tryBlock headerPhase
      rw [hc]
      rfl
    refine ⟨hc, ht, ?_, rfl, rfl, rfl, ?_, ?_, ?_⟩
    · unfold execute
      rw [ht]
    · unfold catchBlock SystemState.setError
      dsimp only
      split
      · split <;> rfl
      · rfl
    · unfold catchBlock SystemState.setError
      dsimp only
      split
      · split <;> rfl
      · rfl
    · unfold catchBlock SystemState.setError
      dsimp only
      split
      · split <;> rfl
      · rename_i he
        simpa using he

/-! ## The loop of the parser job -/

/-- Once the loop ended otherwise than by running out of units, the units
that follow are not looked at. -/
theorem tagLoop_append (us rest : List StreamUnit) (empty : Bool) (w : World)
    (h : ∀ w4, tagLoop us empty w ≠ LoopOutcome.awaitingInput w4) :
    tagLoop (us ++ rest) empty w = tagLoop us empty w := by
  induction us generalizing empty w with
  | nil => exact absurd rfl (h w)
  | cons u us ih =>
    simp only [List.cons_append, tagLoop] at h ⊢
    cases hr : u.read with
    | throws c => rfl
    | tag t =>
      simp only [hr] at h ⊢
      cases hsw : switchOnTag t
          { w := { (u.env.foldl (fun x a => a.apply x) w) with
                    sys := { (u.env.foldl (fun x a => a.apply x) w).sys with
                      tagsStorage := (u.env.foldl (fun x a => a.apply x) w).sys.tagsStorage ++ [t] } },
            done := false, empty := empty } with
      | crash => rfl
      | threw c l => rfl
      | ok l =>
        simp only [hsw] at h ⊢
        split
        · rfl
        · split
          · rfl
          · rename_i h1 h2
            simp only [h1, h2, if_false] at h
            exact ih l.empty l.w h

/-- When the units ran out with the loop still going, the loop goes on with
the units that follow from the state reached. -/
theorem tagLoop_resume (pre : List StreamUnit) (empty : Bool) (w w4 : World)
    (h : tagLoop pre empty w = LoopOutcome.awaitingInput w4) :
    ∃ e4, ∀ rest, tagLoop (pre ++ rest) empty w = tagLoop rest e4 w4 := by
  induction pre generalizing empty w with
  | nil =>
    simp only [tagLoop, LoopOutcome.awaitingInput.injEq] at h
    subst h
    exact ⟨empty, fun rest => rfl⟩
  | cons u us ih =>
    simp only [List.cons_append, tagLoop] at h ⊢
    cases hr : u.read with
    | throws c => simp [hr] at h
    | tag t =>
      simp only [hr] at h ⊢
      cases hsw : switchOnTag t
          { w := { (u.env.foldl (fun x a => a.apply x) w) with
                    sys := { (u.env.foldl (fun x a => a.apply x) w).sys with
                      tagsStorage := (u.env.foldl (fun x a => a.apply x) w).sys.tagsStorage ++ [t] } },
            done := false, empty := empty } with
      | crash => simp [hsw] at h
      | threw c l => simp [hsw] at h
      | ok l =>
        simp only [hsw] at h ⊢
        split at h
        · simp at h
        · split at h
          · simp at h
          · rename_i h1 h2
            obtain ⟨e4, he⟩ := ih l.empty l.w h
            refine ⟨e4, fun rest => ?_⟩
            simp only [h1, h2, if_false]
            exact he rest

/-- What other threads do leaves the frames and `framesLoaded` alone. -/
theorem env_framesLoaded (env : List EnvAction) (w : World) :
    (env.foldl (fun x a => a.apply x) w).root.framesLoaded = w.root.framesLoaded := by
  induction env generalizing w with
  | nil => rfl
  | cons a env ih =>
    simp only [List.foldl_cons]
    rw [ih]
    cases a <;> rfl

/-- What other threads do leaves the frames and the tag storage alone. -/
theorem env_frames (env : List EnvAction) (w : World) :
    (env.foldl (fun x a => a.apply x) w).root.frames = w.root.frames
    ∧ (env.foldl (fun x a => a.apply x) w).sys.tagsStorage = w.sys.tagsStorage := by
  induction env generalizing w with
  | nil => exact ⟨rfl, rfl⟩
  | cons a env ih =>
    simp only [List.foldl_cons]
    rw [(ih _).1, (ih _).2]
    cases a with
    | setShutdownFlag =>
      refine ⟨rfl, ?_⟩
      simp only [EnvAction.apply, SystemState.setShutdownFlag]
      split <;> rfl
    | setError c =>
      refine ⟨rfl, ?_⟩
      simp only [EnvAction.apply, SystemState.setError]
      split
      · split <;> rfl
      · rfl
    | stop => exact ⟨rfl, rfl⟩

theorem tryBlock_append (i : HeaderFields) (us rest : List StreamUnit) (w : World)
    (h : ∀ w4, tryBlock i us w ≠ LoopOutcome.awaitingInput w4) :
    tryBlock i (us ++ rest) w = tryBlock i us w := by
  unfold tryBlock at h ⊢
  cases hh : headerPhase i w with
  | crash => rfl
  | threw c w1 => rfl
  | ok w1 =>
    simp only [hh] at h ⊢
    exact tagLoop_append us rest true w1 h

theorem tryBlock_resume (i : HeaderFields) (pre : List StreamUnit) (w w4 : World)
    (h : tryBlock i pre w = LoopOutcome.awaitingInput w4) :
    ∃ e4, ∀ rest, tryBlock i (pre ++ rest) w = tagLoop rest e4 w4 := by
  unfold tryBlock at h ⊢
  cases hh : headerPhase i w with
  | crash => simp [hh] at h
  | threw c w1 => simp [hh] at h
  | ok w1 =>
    simp only [hh] at h ⊢
    exact tagLoop_resume pre true w1 w4 h

/-- The `catch` block marks the store failed and records the cause unless an
error was recorded before; it leaves `framesLoaded` and the tag storage alone. -/
theorem catchBlock_state (c : String) (w : World) :
    (catchBlock c w).root.parsingIsFailed = true
    ∧ (catchBlock c w).sys.error = true
    ∧ (catchBlock c w).sys.errorCause = (if w.sys.error then w.sys.errorCause else c)
    ∧ (catchBlock c w).sys.tagsStorage = w.sys.tagsStorage
    ∧ (catchBlock c w).root.framesLoaded = w.root.framesLoaded := by
  cases he : w.sys.error with
  | true =>
    simp [catchBlock, SystemState.setError, RootMovieClip.parsingFailed, he]
  | false =>
    simp only [catchBlock, SystemState.setError, RootMovieClip.parsingFailed, he]
    cases w.sys.renderThread <;> simp [SystemState.removeJob]

/-- C9, counterexample: a display list tag, then a SHOW tag, on a fresh store
next to a virtual machine that refuses events. After the first unit no commit
was made and `framesLoaded` is 0. Handling the SHOW tag, `commitFrame(true)`
sets `framesLoaded` to 1 and then throws "Could not add event" out of
`initialize`; `execute` returns with the store failed, that cause recorded,
and `framesLoaded = 1`, the value of a commit that did not complete. -/
theorem framesLoaded_of_interrupted_commit :
    (tryBlock HeaderFields.sample [StreamUnit.ofTag ⟨TagType.DISPLAY_LIST_TAG, 1, ""⟩]
        (World.fresh { SystemState.new with currentVm := some ⟨[], false⟩ } ParseThread.new)).awaiting?.map
        (fun w => w.root.framesLoaded) = some 0
    ∧ (execute HeaderFields.sample
        [StreamUnit.ofTag ⟨TagType.DISPLAY_LIST_TAG, 1, ""⟩, StreamUnit.ofTag ⟨TagType.SHOW_TAG, 2, ""⟩]
        (World.fresh { SystemState.new with currentVm := some ⟨[], false⟩ } ParseThread.new)).returned?.map
        (fun w => (w.root.parsingIsFailed, w.sys.errorCause, w.root.framesLoaded))
      = some (true, "Could not add event", 1) := by
  decide!


/-- C9 as amended: when an exception with cause `c` leaves the `try` block of
`execute` in the state `w1`, `execute` returns, whatever units follow in the
stream (none of them is processed); on return the store is marked failed, the
system is on error, `errorCause` is `c` when no error was recorded before and
the earlier cause otherwise, and `framesLoaded` and the tag storage are as they
were at the throw. When the exception is raised by reading a unit, after the
units `pre` before it were processed up to the state `w4`, the frames, the tag
storage and `framesLoaded` at the throw are those of `w4`, so `framesLoaded`
keeps the value of the last completed commit. When `commitFrame` throws, the
state at the throw has the value `frames.size()` it had already assigned. -/
theorem catch_marks_failure (i : HeaderFields) (units rest : List StreamUnit) (w w1 : World)
    (c : String) (h : tryBlock i units w = LoopOutcome.threw c w1) :
    execute i (units ++ rest) w = ExecOutcome.returned (signalEnded (catchBlock c w1))
    ∧ (signalEnded (catchBlock c w1)).root.parsingIsFailed = true
    ∧ (signalEnded (catchBlock c w1)).sys.error = true
    ∧ (signalEnded (catchBlock c w1)).sys.errorCause = (if w1.sys.error then w1.sys.errorCause else c)
    ∧ (signalEnded (catchBlock c w1)).sys.tagsStorage = w1.sys.tagsStorage
    ∧ (signalEnded (catchBlock c w1)).root.framesLoaded = w1.root.framesLoaded
    ∧ (∀ pre u us w4 c2, units = pre ++ u :: us →
        tryBlock i pre w = LoopOutcome.awaitingInput w4 → u.read = ReadResult.throws c2 →
        c = c2 ∧ w1.root.frames = w4.root.frames ∧ w1.sys.tagsStorage = w4.sys.tagsStorage
          ∧ (signalEnded (catchBlock c w1)).root.framesLoaded = w4.root.framesLoaded)
    ∧ (∀ another w2 c2 w3, commitFrame another w2 = Res.threw c2 w3 →
        w3.root.framesLoaded = w2.root.frames.size) := by
  obtain ⟨h1, h2, h3, h4, h5⟩ := catchBlock_state c w1
  have happ : tryBlock i (units ++ rest) w = LoopOutcome.threw c w1 := by
    rw [tryBlock_append i units rest w (by rw [h]; intro w4 hc; cases hc), h]
  refine ⟨?_, h1, h2, h3, h4, h5, ?_, ?_⟩
  · unfold execute
    rw [happ]
  · intro pre u us w4 c2 hu hpre hread
    obtain ⟨e4, he⟩ := tryBlock_resume i pre w w4 hpre
    rw [hu, he (u :: us)] at h
    simp only [tagLoop, hread, LoopOutcome.threw.injEq] at h
    obtain ⟨hc, hw⟩ := h
    subst hw
    refine ⟨hc.symm, (env_frames _ _).1, (env_frames _ _).2, ?_⟩
    show (catchBlock c _).root.framesLoaded = _
    rw [h5, env_framesLoaded]
  · intro another w2 c2 w3 hthrew
    exact (commitFrame_state another w2 w3 (by rw [hthrew]; rfl)).1

/-- Witness of C9 as amended: the header is good and the read of the first unit throws. -/
theorem catch_marks_failure_witness :
    execute HeaderFields.sample
        ([{ env := [], read := ReadResult.throws "bad tag" }] ++ [StreamUnit.ofTag ⟨TagType.SHOW_TAG, 2, ""⟩])
        (World.fresh SystemState.new ParseThread.new)
      = ExecOutcome.returned (signalEnded (catchBlock "bad tag"
          ((headerPhase HeaderFields.sample (World.fresh SystemState.new ParseThread.new)).state?.getD
            (World.fresh SystemState.new ParseThread.new)))) :=
  (catch_marks_failure HeaderFields.sample [{ env := [], read := ReadResult.throws "bad tag" }]
    [StreamUnit.ofTag ⟨TagType.SHOW_TAG, 2, ""⟩] (World.fresh SystemState.new ParseThread.new)
    ((headerPhase HeaderFields.sample (World.fresh SystemState.new ParseThread.new)).state?.getD
      (World.fresh SystemState.new ParseThread.new)) "bad tag" (by decide!)).1

/-! ## The undisturbed run of the parser job -/

theorem modifyAt_append_last (g : Frame → Frame) (ds : List Frame) (cur : Frame) :
    modifyAt g ds.length (ds ++ [cur]) = ds ++ [g cur] := by
  induction ds with
  | nil => rfl
  | cons d ds ih => simpa [modifyAt] using ih

theorem modifyLast_append (g : Frame → Frame) (ds : List Frame) (cur : Frame) :
    modifyLast g (ds ++ [cur]) = ds ++ [g cur] := by
  induction ds with
  | nil => rfl
  | cons d ds ih =>
    cases ds with
    | nil => rfl
    | cons d2 ds => simpa [modifyLast] using ih

theorem initEvents_accepting (bindName : String) (vm : ABCVm) (h : vm.accepting = true) :
    (initEvents bindName vm).2 = true ∧ (initEvents bindName vm).1.accepting = true := by
  unfold initEvents
  dsimp only
  split <;> simp [ABCVm.addEvent, h]

/-- With a virtual machine that accepts events, or none, `initialize` returns. -/
theorem initializeRoot_ok (w : World) (hv : w.sys.vmAccepts = true) :
    ∃ w1, initializeRoot w = Res.ok w1 ∧ w1.sys.vmAccepts = true
      ∧ w1.sys.error = w.sys.error ∧ w1.sys.shutdown = w.sys.shutdown := by
  unfold initializeRoot
  cases hvm : w.sys.currentVm with
  | none => exact ⟨w, rfl, hv, rfl, rfl⟩
  | some vm =>
    have ha : vm.accepting = true := by simpa [SystemState.vmAccepts, hvm] using hv
    obtain ⟨a1, a2⟩ := initEvents_accepting w.root.bindName vm ha
    dsimp only
    split
    · exact ⟨w, rfl, hv, rfl, rfl⟩
    · exact ⟨_, rfl, by simpa [SystemState.vmAccepts] using a2, rfl, rfl⟩

theorem firstFrameReady_ok (w : World) (hv : w.sys.vmAccepts = true) :
    ∃ w1, firstFrameReady w = Res.ok w1 ∧ w1.sys.vmAccepts = true
      ∧ w1.sys.error = w.sys.error ∧ w1.sys.shutdown = w.sys.shutdown := by
  unfold firstFrameReady
  obtain ⟨w0, h0, v0, e0, s0⟩ :=
    initializeRoot_ok { w with root := { w.root with bootstraps := w.root.bootstraps + 1 } } hv
  rw [h0]
  exact ⟨_, rfl, v0, e0, s0⟩

/-- With a virtual machine that accepts events, or none, `commitFrame` returns
and leaves the error and shutdown flags alone. -/
theorem commitFrame_ok (another : Bool) (w : World) (hv : w.sys.vmAccepts = true) :
    ∃ w1, commitFrame another w = Res.ok w1 ∧ w1.sys.vmAccepts = true
      ∧ w1.sys.error = w.sys.error ∧ w1.sys.shutdown = w.sys.shutdown := by
  unfold commitFrame
  dsimp only
  rw [if_neg (by simp [FrameVector.size_le_capacity])]
  split
  · obtain ⟨w0, h0, v0, e0, s0⟩ := firstFrameReady_ok { w with root := w.root.publishFrame another } hv
    rw [h0]
    exact ⟨_, rfl, v0, e0, s0⟩
  · exact ⟨_, rfl, hv, rfl, rfl⟩

/-- A commit in the undisturbed run: the frame in progress joins the committed
ones, and with continuation a new empty frame is in progress. -/
theorem commitFrame_inv (another : Bool) (done : List Frame) (cur : Frame) (w : World)
    (hinv : LoopInv done cur w) :
    ∃ w1, commitFrame another w = Res.ok w1
      ∧ w1.root.framesLoaded = done.length + 1
      ∧ w1.root.parsingIsFailed = false
      ∧ (another = true → LoopInv (done ++ [cur]) Frame.new w1)
      ∧ (another = false → w1.root.frames.data = done ++ [cur]) := by
  obtain ⟨i1, i2, i3, i4, i5, i6, i7⟩ := hinv
  obtain ⟨w1, h1, v1, e1, s1⟩ := commitFrame_ok another w i5
  obtain ⟨c1, c2, c3, c4, -, -, c7⟩ := commitFrame_state another w w1 (by rw [h1]; rfl)
  have hsz : w.root.frames.size = done.length + 1 := by simp [FrameVector.size, i1]
  refine ⟨w1, h1, by rw [c1, hsz], by rw [c4, i4], ?_, ?_⟩
  · intro ha
    subst ha
    simp only [if_true] at c2 c3
    refine ⟨?_, ?_, ?_, by rw [c4, i4], v1, ?_, by rw [c7, i7]⟩
    · rw [c2, FrameVector.data_push_back, i1]
    · rw [c3, hsz]; simp
    · rw [c1, hsz]; simp
    · simpa [SystemState.shouldTerminate, e1, s1] using i6
  · intro ha
    subst ha
    simp only [Bool.false_eq_true, if_false] at c2
    rw [c2, i1]

theorem LoopInv_store (done : List Frame) (cur : Frame) (w : World) (t : Tag)
    (hinv : LoopInv done cur w) :
    LoopInv done cur { w with sys := { w.sys with tagsStorage := w.sys.tagsStorage ++ [t] } } := by
  obtain ⟨i1, i2, i3, i4, i5, i6, i7⟩ := hinv
  exact ⟨i1, i2, i3, i4, i5, i6, i7⟩

/-- A write through `cur_frame` in the undisturbed run changes the frame in progress. -/
theorem throughCurFrame_inv (g : Frame → Frame) (done : List Frame) (cur : Frame) (w : World)
    (hinv : LoopInv done cur w) :
    ∃ w1, w.onRoot (RootMovieClip.throughCurFrame g) = Res.ok w1 ∧ LoopInv done (g cur) w1 := by
  obtain ⟨i1, i2, i3, i4, i5, i6, i7⟩ := hinv
  have hlt : done.length < w.root.frames.size := by simp [FrameVector.size, i1]
  refine ⟨{ w with root := { w.root with
    frames := { w.root.frames with data := modifyAt g done.length w.root.frames.data } } }, ?_, ?_⟩
  · simp only [World.onRoot, throughCurFrame_ok g w.root _ i2 hlt, Res.map]
  refine ⟨?_, i2, i3, i4, i5, i6, i7⟩
  show modifyAt g done.length w.root.frames.data = done ++ [g cur]
  rw [i1, modifyAt_append_last]

/-- The switch on a tag other than END in the undisturbed run: it returns with
`done` unset, and the frames advance as `loopFrames` says. -/
theorem switchOnTag_inv (t : Tag) (done : List Frame) (cur : Frame) (empty : Bool) (w : World)
    (ht : t.type ≠ TagType.END_TAG) (hinv : LoopInv done cur w) :
    ∃ w2 done2 cur2 empty2,
      switchOnTag t { w := w, done := false, empty := empty }
        = Res.ok { w := w2, done := false, empty := empty2 }
      ∧ LoopInv done2 cur2 w2
      ∧ ∀ ts, done2 ++ loopFrames cur2 empty2 ts = done ++ loopFrames cur empty (t :: ts) := by
  cases hty : t.type with
  | END_TAG => exact absurd hty ht
  | DICT_TAG =>
    refine ⟨{ w with root := w.root.addToDictionary t }, done, cur, empty,
      by simp only [switchOnTag, hty], ?_, fun ts => by simp only [loopFrames, hty]⟩
    obtain ⟨i1, i2, i3, i4, i5, i6, i7⟩ := hinv
    exact ⟨i1, i2, i3, i4, i5, i6, i7⟩
  | DISPLAY_LIST_TAG =>
    obtain ⟨w1, h1, inv1⟩ := throughCurFrame_inv (fun fr => { fr with blueprint := fr.blueprint ++ [t] }) done cur w hinv
    have h2 : w.onRoot (RootMovieClip.addToFrameDisplayList t) = Res.ok w1 := h1
    refine ⟨w1, done, _, false, ?_, inv1, fun ts => by simp only [loopFrames, hty]⟩
    simp only [switchOnTag, hty, h2, Res.map, Res.andThen]
  | SHOW_TAG =>
    obtain ⟨w1, h1, -, -, inv1, -⟩ := commitFrame_inv true done cur w hinv
    refine ⟨w1, done ++ [cur], Frame.new, true, ?_, inv1 rfl, fun ts => by simp [loopFrames, hty]⟩
    simp only [switchOnTag, hty, h1, Res.map, Res.andThen]
  | CONTROL_TAG =>
    obtain ⟨w1, h1, inv1⟩ := throughCurFrame_inv (fun fr => { fr with controls := fr.controls ++ [t] }) done cur w hinv
    have h2 : w.onRoot (RootMovieClip.addToFrameControl t) = Res.ok w1 := h1
    refine ⟨w1, done, _, false, ?_, inv1, fun ts => by simp only [loopFrames, hty]⟩
    simp only [switchOnTag, hty, h2, Res.map, Res.andThen]
  | FRAMELABEL_TAG =>
    obtain ⟨i1, i2, i3, i4, i5, i6, i7⟩ := hinv
    have hsz : ¬ w.root.frames.size = 0 := by simp [FrameVector.size, i1]
    refine ⟨{ w with root := { w.root with frames := { w.root.frames with
        data := modifyLast (fun fr => { fr with Label := t.Name }) w.root.frames.data } } },
      done, { cur with Label := t.Name }, false, ?_, ?_, fun ts => by simp only [loopFrames, hty]⟩
    · simp only [switchOnTag, hty, World.onRoot, RootMovieClip.labelCurrentFrame, hsz, if_false,
        Res.map, Res.andThen]
    · refine ⟨?_, i2, i3, i4, i5, i6, i7⟩
      show modifyLast _ w.root.frames.data = _
      rw [i1, modifyLast_append]
  | TAG =>
    exact ⟨w, done, cur, empty, by simp only [switchOnTag, hty], hinv, fun ts => by simp only [loopFrames, hty]⟩

/-- The switch on the END tag in the undisturbed run: the frame in progress is
reverted when it is empty and committed otherwise, and `done` is set. -/
theorem switchOnTag_end (t : Tag) (done : List Frame) (cur : Frame) (empty : Bool) (w : World)
    (ht : t.type = TagType.END_TAG) (hinv : LoopInv done cur w) :
    ∃ w2, switchOnTag t { w := w, done := false, empty := empty }
        = Res.ok { w := w2, done := true, empty := empty }
      ∧ w2.root.frames.data = done ++ loopFrames cur empty []
      ∧ w2.root.framesLoaded = (done ++ loopFrames cur empty []).length
      ∧ w2.root.parsingIsFailed = false := by
  cases empty with
  | false =>
    obtain ⟨w1, h1, f1, p1, -, d1⟩ := commitFrame_inv false done cur w hinv
    refine ⟨w1, ?_, by simpa [loopFrames] using d1 rfl, by simpa [loopFrames] using f1, p1⟩
    simp [switchOnTag, ht, h1, Res.map, Res.andThen]
  | true =>
    obtain ⟨i1, i2, i3, i4, i5, i6, i7⟩ := hinv
    have hg : w.root.frames.size ≠ 0 ∧ w.root.framesLoaded = w.root.frames.size - 1 := by
      simp [FrameVector.size, i1, i3]
    refine ⟨{ w with root := { w.root with frames := w.root.frames.pop_back, cur_frame := none } }, ?_, ?_, ?_, i4⟩
    · simp [switchOnTag, ht, World.onRoot, RootMovieClip.revertFrame, hg, Res.map, Res.andThen]
    · simp [FrameVector.pop_back, i1, loopFrames]
    · simp [loopFrames, i3]

/-- The loop on an undisturbed stream with an END tag: it is left at the END
tag with the committed frames followed by those `loopFrames` adds. -/
theorem tagLoop_undisturbed (pre : List Tag) (endTag : Tag) (rest : List Tag) (done : List Frame)
    (cur : Frame) (empty : Bool) (w : World)
    (hpre : ∀ t ∈ pre, t.type ≠ TagType.END_TAG) (hend : endTag.type = TagType.END_TAG)
    (hinv : LoopInv done cur w) :
    ∃ w1, tagLoop ((pre ++ endTag :: rest).map StreamUnit.ofTag) empty w = LoopOutcome.left w1
      ∧ w1.root.frames.data = done ++ loopFrames cur empty pre
      ∧ w1.root.framesLoaded = (done ++ loopFrames cur empty pre).length
      ∧ w1.root.parsingIsFailed = false := by
  induction pre generalizing done cur empty w with
  | nil =>
    obtain ⟨w2, h2, d2, f2, p2⟩ := switchOnTag_end endTag done cur empty _ hend (LoopInv_store done cur w endTag hinv)
    refine ⟨w2, ?_, d2, f2, p2⟩
    simp only [List.nil_append, List.map_cons, tagLoop, StreamUnit.ofTag, List.foldl_nil, h2]
    split <;> simp
  | cons t pre ih =>
    obtain ⟨w2, done2, cur2, empty2, h2, inv2, hl⟩ :=
      switchOnTag_inv t done cur empty _ (hpre t (List.mem_cons_self _ _)) (LoopInv_store done cur w t hinv)
    obtain ⟨w1, h1, d1, f1, p1⟩ := ih done2 cur2 empty2 w2 (fun x hx => hpre x (List.mem_cons_of_mem _ hx)) inv2
    refine ⟨w1, ?_, by rw [d1, hl], by rw [f1, hl], p1⟩
    obtain ⟨-, -, -, -, -, j6, j7⟩ := inv2
    simp only [List.cons_append, List.map_cons, tagLoop, StreamUnit.ofTag, List.foldl_nil, h2, j6, j7,
      Bool.or_self, Bool.false_eq_true, if_false]
    exact h1

/-! ## The loop and the groups of the specification -/

theorem splitAtShow_ne_nil (ts : List Tag) : ∃ g gs, splitAtShow ts = g :: gs := by
  induction ts with
  | nil => exact ⟨[], [], rfl⟩
  | cons t ts ih =>
    obtain ⟨g, gs, h⟩ := ih
    unfold splitAtShow
    split
    · exact ⟨_, _, rfl⟩
    · rw [h]
      exact ⟨_, _, rfl⟩

theorem splitAtShow_cons (t : Tag) (ts : List Tag) (g : List Tag) (gs : List (List Tag))
    (h : splitAtShow ts = g :: gs) (ht : t.type ≠ TagType.SHOW_TAG) :
    splitAtShow (t :: ts) = (t :: g) :: gs := by
  rw [splitAtShow, if_neg ht, h]

theorem addGroup_nil (cur : Frame) : cur.addGroup [] = cur := by
  simp [Frame.addGroup, lastLabel]

theorem addGroup_new (g : List Tag) : Frame.new.addGroup g = frameOfGroup g := by
  simp [Frame.addGroup, frameOfGroup, Frame.new]

theorem framesFrom_new (g : List Tag) (gs : List (List Tag)) :
    framesFrom Frame.new true (g :: gs) = framesOfGroups (g :: gs) := by
  cases gs with
  | nil =>
    simp only [framesFrom, framesOfGroups, addGroup_new, List.dropLast_single, List.map_nil,
      List.getLast?_singleton, List.nil_append, Bool.true_and]
    cases receivedContent g <;> simp
  | cons g2 gs =>
    simp only [framesFrom, addGroup_new]
    simp [framesOfGroups, List.getLast?_cons_cons]

theorem lastLabel_cons (dflt : String) (t : Tag) (g : List Tag) :
    lastLabel dflt (t :: g)
      = if t.type = TagType.FRAMELABEL_TAG then lastLabel t.Name g else lastLabel dflt g := by
  unfold lastLabel
  by_cases h : t.type = TagType.FRAMELABEL_TAG
  · simp only [h, decide_True, List.filter_cons_of_pos, if_true]
    cases hf : List.filter (fun t => decide (t.type = TagType.FRAMELABEL_TAG)) g with
    | nil => simp
    | cons a l =>
      obtain ⟨x, hx⟩ : ∃ x, (a :: l).getLast? = some x :=
        ⟨(a :: l).getLast (List.cons_ne_nil a l), List.getLast?_eq_getLast _ _⟩
      simp [List.getLast?_cons_cons, hx]
  · simp [h]

/-- Adding the tag `t` in front of a group is adding it first to the frame. -/
theorem addGroup_cons (cur : Frame) (t : Tag) (g : List Tag) :
    cur.addGroup (t :: g) =
      (match t.type with
        | .DISPLAY_LIST_TAG => { cur with blueprint := cur.blueprint ++ [t] }
        | .CONTROL_TAG => { cur with controls := cur.controls ++ [t] }
        | .FRAMELABEL_TAG => { cur with Label := t.Name }
        | _ => cur).addGroup g := by
  cases hty : t.type <;> simp [Frame.addGroup, lastLabel_cons, hty]

theorem receivedContent_cons (t : Tag) (g : List Tag) :
    receivedContent (t :: g) =
      ((t.type = TagType.DISPLAY_LIST_TAG ∨ t.type = TagType.CONTROL_TAG
        ∨ t.type = TagType.FRAMELABEL_TAG) || receivedContent g) := by
  simp [receivedContent]

/-- The frames the loop adds are those of the groups that the SHOW tags separate. -/
theorem loopFrames_eq_framesFrom (pre : List Tag) (cur : Frame) (empty : Bool) :
    loopFrames cur empty pre = framesFrom cur empty (splitAtShow pre) := by
  induction pre generalizing cur empty with
  | nil =>
    simp only [loopFrames, splitAtShow, framesFrom, addGroup_nil, receivedContent, List.any_nil,
      Bool.not_false, Bool.and_true]
  | cons t ts ih =>
    obtain ⟨g, gs, hg⟩ := splitAtShow_ne_nil ts
    cases hty : t.type with
    | SHOW_TAG =>
      have hs : splitAtShow (t :: ts) = [] :: g :: gs := by rw [splitAtShow, if_pos hty, hg]
      rw [hs]
      simp only [loopFrames, hty]
      rw [ih, hg, framesFrom_new]
      simp [framesFrom, addGroup_nil]
    | DISPLAY_LIST_TAG =>
      have hs := splitAtShow_cons t ts g gs hg (by rw [hty]; decide)
      rw [hs]
      simp only [loopFrames, hty, ih, hg]
      cases gs with
      | nil => simp [framesFrom, addGroup_cons, receivedContent_cons, hty]
      | cons g2 gs => simp [framesFrom, addGroup_cons, hty]
    | CONTROL_TAG =>
      have hs := splitAtShow_cons t ts g gs hg (by rw [hty]; decide)
      rw [hs]
      simp only [loopFrames, hty, ih, hg]
      cases gs with
      | nil => simp [framesFrom, addGroup_cons, receivedContent_cons, hty]
      | cons g2 gs => simp [framesFrom, addGroup_cons, hty]
    | FRAMELABEL_TAG =>
      have hs := splitAtShow_cons t ts g gs hg (by rw [hty]; decide)
      rw [hs]
      simp only [loopFrames, hty, ih, hg]
      cases gs with
      | nil => simp [framesFrom, addGroup_cons, receivedContent_cons, hty]
      | cons g2 gs => simp [framesFrom, addGroup_cons, hty]
    | END_TAG =>
      have hs := splitAtShow_cons t ts g gs hg (by rw [hty]; decide)
      rw [hs]
      simp only [loopFrames, hty, ih, hg]
      cases gs with
      | nil => simp [framesFrom, addGroup_cons, receivedContent_cons, hty]
      | cons g2 gs => simp [framesFrom, addGroup_cons, hty]
    | DICT_TAG =>
      have hs := splitAtShow_cons t ts g gs hg (by rw [hty]; decide)
      rw [hs]
      simp only [loopFrames, hty, ih, hg]
      cases gs with
      | nil => simp [framesFrom, addGroup_cons, receivedContent_cons, hty]
      | cons g2 gs => simp [framesFrom, addGroup_cons, hty]
    | TAG =>
      have hs := splitAtShow_cons t ts g gs hg (by rw [hty]; decide)
      rw [hs]
      simp only [loopFrames, hty, ih, hg]
      cases gs with
      | nil => simp [framesFrom, addGroup_cons, receivedContent_cons, hty]
      | cons g2 gs => simp [framesFrom, addGroup_cons, hty]

theorem loopFrames_eq_framesOfGroups (pre : List Tag) :
    loopFrames Frame.new true pre = framesOfGroups (splitAtShow pre) := by
  obtain ⟨g, gs, hg⟩ := splitAtShow_ne_nil pre
  rw [loopFrames_eq_framesFrom, hg, framesFrom_new]

/-- A stream with an END tag is the tags before the first END tag, that tag, and the rest. -/
theorem beforeEnd_split (tags : List Tag) (h : ∃ t ∈ tags, t.type = TagType.END_TAG) :
    ∃ e rest, e.type = TagType.END_TAG ∧ tags = beforeEnd tags ++ e :: rest
      ∧ ∀ t ∈ beforeEnd tags, t.type ≠ TagType.END_TAG := by
  induction tags with
  | nil => obtain ⟨t, ht, -⟩ := h; cases ht
  | cons a tags ih =>
    by_cases ha : a.type = TagType.END_TAG
    · refine ⟨a, tags, ha, ?_, ?_⟩
      · simp [beforeEnd, List.takeWhile, ha]
      · simp [beforeEnd, List.takeWhile, ha]
    · have h2 : ∃ t ∈ tags, t.type = TagType.END_TAG := by
        obtain ⟨t, ht, hte⟩ := h
        rcases List.mem_cons.1 ht with rfl | hm
        · exact absurd hte ha
        · exact ⟨t, hm, hte⟩
      obtain ⟨e, rest, he, hsplit, hall⟩ := ih h2
      have hb : beforeEnd (a :: tags) = a :: beforeEnd tags := by
        simp [beforeEnd, List.takeWhile, ha]
      refine ⟨e, rest, he, ?_, ?_⟩
      · rw [hb, List.cons_append, ← hsplit]
      · intro t ht
        rw [hb] at ht
        rcases List.mem_cons.1 ht with rfl | hm
        · exact ha
        · exact hall t hm

/-- On a fresh store, with a recognised signature and a frame size at the
origin, the header phase returns and leaves the loop its starting state. -/
theorem headerPhase_fresh (i : HeaderFields) (sys : SystemState) (pt : ParseThread)
    (hsig : i.Signature = ['F', 'W', 'S'] ∨ i.Signature = ['C', 'W', 'S'])
    (hsize : i.FrameSize.Xmin = 0 ∧ i.FrameSize.Ymin = 0)
    (hterm : sys.shouldTerminate = false) (habort : pt.aborting = false)
    (hvm : sys.vmAccepts = true) (hrt : sys.renderThread = none ∨ 0 ≤ sys.renderRate) :
    ∃ w1, headerPhase i (World.fresh sys pt) = Res.ok w1 ∧ LoopInv [] Frame.new w1 := by
  obtain ⟨s1, h1, e1, e2, e3, -⟩ := ctor_recognised i (World.fresh sys pt) hsig hrt
  unfold headerPhase
  rw [h1]
  simp only [Bool.not_true, Bool.false_eq_true, if_false, World.onRoot, RootMovieClip.setFrameSize,
    hsize, and_self, if_true, Res.map, Res.andThen, RootMovieClip.setFrameCount,
    RootMovieClip.setFrameRate, World.fresh, RootMovieClip.fresh, FrameVector.size,
    List.length_singleton]
  simp only [Nat.sub_self, ne_eq, not_true_eq_false, if_false, one_ne_zero, Int.toNat_ofNat]
  rw [if_neg (by omega)]
  refine ⟨_, rfl, rfl, rfl, rfl, rfl, ?_, ?_, habort⟩
  · simpa [SystemState.vmAccepts, e3] using hvm
  · simpa [SystemState.shouldTerminate, e1, e2] using hterm

/-- C1: for every tag stream with an END tag that `execute` reads on a fresh
store with no decode error and no termination signal (the header is
recognised and its frame size is at the origin, every read gives a tag, no
other thread acts, the system is not terminating, the job is not aborting, and
the virtual machine, if any, accepts events), `execute` returns; the frame
store then holds exactly the frames of the groups of display list, control and
label tags that the SHOW tags separate before the first END tag, in stream
order, the trailing group being left out when it received no content;
`framesLoaded` is the number of frames held and `parsingIsFailed` is false. -/
theorem execute_frames (i : HeaderFields) (tags : List Tag) (sys : SystemState) (pt : ParseThread)
    (hsig : i.Signature = ['F', 'W', 'S'] ∨ i.Signature = ['C', 'W', 'S'])
    (hsize : i.FrameSize.Xmin = 0 ∧ i.FrameSize.Ymin = 0)
    (hend : ∃ t ∈ tags, t.type = TagType.END_TAG)
    (hterm : sys.shouldTerminate = false) (habort : pt.aborting = false)
    (hvm : sys.vmAccepts = true) (hrt : sys.renderThread = none ∨ 0 ≤ sys.renderRate) :
    ∃ w1, execute i (tags.map StreamUnit.ofTag) (World.fresh sys pt) = ExecOutcome.returned w1
      ∧ w1.root.frames.data = framesOfStream tags
      ∧ w1.root.framesLoaded = w1.root.frames.size
      ∧ w1.root.parsingIsFailed = false := by
  obtain ⟨e, rest, he, hsplit, hall⟩ := beforeEnd_split tags hend
  obtain ⟨w0, h0, inv0⟩ := headerPhase_fresh i sys pt hsig hsize hterm habort hvm hrt
  obtain ⟨w1, h1, d1, f1, p1⟩ := tagLoop_undisturbed (beforeEnd tags) e rest [] Frame.new true w0 hall he inv0
  rw [← hsplit] at h1
  rw [List.nil_append, loopFrames_eq_framesOfGroups] at d1 f1
  refine ⟨signalEnded w1, ?_, d1, ?_, p1⟩
  · simp only [execute, tryBlock, h0, h1]
  · show w1.root.framesLoaded = w1.root.frames.data.length
    rw [f1, d1]

/-- Witness of C1, the end-to-end example: the stream [display-op A, SHOW,
display-op B, END] after the sample header ends with `framesLoaded = 2`,
frame 0 holding A and frame 1 holding B, and the store not failed. -/
theorem execute_frames_witness :
    ∃ w1, execute HeaderFields.sample
        ([⟨TagType.DISPLAY_LIST_TAG, 1, ""⟩, ⟨TagType.SHOW_TAG, 2, ""⟩,
          ⟨TagType.DISPLAY_LIST_TAG, 3, ""⟩, ⟨TagType.END_TAG, 4, ""⟩].map StreamUnit.ofTag)
        (World.fresh SystemState.new ParseThread.new) = ExecOutcome.returned w1
      ∧ w1.root.frames.data =
          [{ Label := "", blueprint := [⟨TagType.DISPLAY_LIST_TAG, 1, ""⟩], controls := [] },
           { Label := "", blueprint := [⟨TagType.DISPLAY_LIST_TAG, 3, ""⟩], controls := [] }]
      ∧ w1.root.framesLoaded = 2
      ∧ w1.root.parsingIsFailed = false := by
  obtain ⟨w1, h1, d1, f1, p1⟩ := execute_frames HeaderFields.sample
    [⟨TagType.DISPLAY_LIST_TAG, 1, ""⟩, ⟨TagType.SHOW_TAG, 2, ""⟩,
      ⟨TagType.DISPLAY_LIST_TAG, 3, ""⟩, ⟨TagType.END_TAG, 4, ""⟩]
    SystemState.new ParseThread.new (by decide) (by decide) (by decide) (by decide) (by decide)
    (by decide) (by decide)
  have hd : w1.root.frames.data =
      [{ Label := "", blueprint := [⟨TagType.DISPLAY_LIST_TAG, 1, ""⟩], controls := [] },
       { Label := "", blueprint := [⟨TagType.DISPLAY_LIST_TAG, 3, ""⟩], controls := [] }] := by
    rw [d1]
    decide
  refine ⟨w1, h1, hd, ?_, p1⟩
  rw [f1, FrameVector.size, hd]
  rfl

/-! ## The claims on the coordinator -/

/-- With an unrecognised signature the `try` block throws "Not an SWF file" from the unchanged state. -/
theorem tryBlock_unrecognised (i : HeaderFields) (units : List StreamUnit) (w : World)
    (hs : ¬ (i.Signature = ['F', 'W', 'S'] ∨ i.Signature = ['C', 'W', 'S'])) :
    tryBlock i units w = LoopOutcome.threw "Not an SWF file" w := by
  rw [← recognised_iff] at hs
  have hc : SWF_HEADER.ctor i w = some ({ fields := i, valid := false }, w) := by
    unfold SWF_HEADER.ctor
    rw [if_neg hs]
  unfold tryBlock headerPhase
  rw [hc]
  rfl

/-- C11, counterexample: a stream whose signature is "XWS", read on a fresh
store next to a fresh coordinator. After `execute` the frame store is marked
failed and the error latch is set, with the cause "Not an SWF file". -/
theorem signature_mismatch_sets_error :
    (execute { HeaderFields.sample with Signature0 := 'X' } []
        (World.fresh SystemState.new ParseThread.new)).returned?.map
        (fun w => (w.root.parsingIsFailed, w.sys.error, w.sys.errorCause))
      = some (true, true, "Not an SWF file") := by
  decide

/-- C11 as amended: a signature mismatch is fatal. For every stream whose
signature is not a recognised variant, `execute` returns through its `catch`
block: the frame store is marked failed and the error latch is set, with the
cause "Not an SWF file" unless an error was recorded before. -/
theorem signature_mismatch_is_fatal (i : HeaderFields) (units : List StreamUnit) (w : World)
    (hs : ¬ (i.Signature = ['F', 'W', 'S'] ∨ i.Signature = ['C', 'W', 'S'])) :
    ∃ w1, execute i units w = ExecOutcome.returned w1
      ∧ w1.root.parsingIsFailed = true
      ∧ w1.sys.error = true
      ∧ w1.sys.errorCause = (if w.sys.error then w.sys.errorCause else "Not an SWF file") := by
  obtain ⟨h1, h2, h3, -, -⟩ := catchBlock_state "Not an SWF file" w
  refine ⟨signalEnded (catchBlock "Not an SWF file" w), ?_, h1, h2, h3⟩
  unfold execute
  rw [tryBlock_unrecognised i units w hs]

/-- Witness of C11 as amended: the signature "XWS". -/
theorem signature_mismatch_is_fatal_witness :
    ∃ w1, execute { HeaderFields.sample with Signature0 := 'X' } []
        (World.fresh SystemState.new ParseThread.new) = ExecOutcome.returned w1
      ∧ w1.root.parsingIsFailed = true
      ∧ w1.sys.error = true
      ∧ w1.sys.errorCause =
          (if (World.fresh SystemState.new ParseThread.new).sys.error
            then (World.fresh SystemState.new ParseThread.new).sys.errorCause else "Not an SWF file") :=
  signature_mismatch_is_fatal { HeaderFields.sample with Signature0 := 'X' } []
    (World.fresh SystemState.new ParseThread.new) (by decide)

/-- On a system already on error `setError` changes nothing. -/
theorem setError_of_error (c : String) (s : SystemState) (h : s.error = true) : s.setError c = s := by
  simp [SystemState.setError, h]

theorem setErrors_of_error (cs : List String) (s : SystemState) (h : s.error = true) :
    setErrors cs s = s := by
  induction cs with
  | nil => rfl
  | cons c cs ih => rw [setErrors, setError_of_error c s h, ih]

theorem setError_error (c : String) (s : SystemState) : (s.setError c).error = true := by
  unfold SystemState.setError
  split
  · dsimp only
    split <;> rfl
  · rename_i h
    simpa using h

/-- C12: first error wins. On a system not yet on error, after `setError(c1)`
the system is on error with `errorCause = c1`, the timer was stopped once and,
when there is a render thread, its job was removed and one draw was asked
for; after every further sequence of `setError` calls the state is exactly
the one the first call left, so `errorCause` is still `c1`. A `setError` call
on any system already on error changes no state. -/
theorem first_error_wins (s : SystemState) (c1 : String) (cs : List String) (h : s.error = false) :
    (s.setError c1).error = true
    ∧ (s.setError c1).errorCause = c1
    ∧ (s.setError c1).timerThread =
        s.timerThread ++ [TimerCall.stop]
          ++ (if s.renderThread.isSome then [TimerCall.removeJob ITickJob.renderThread] else [])
    ∧ (s.setError c1).renderThread = s.renderThread.map RenderThread.draw
    ∧ setErrors cs (s.setError c1) = s.setError c1
    ∧ (setErrors (c1 :: cs) s).errorCause = c1
    ∧ (∀ (s2 : SystemState) (c : String), s2.error = true → s2.setError c = s2) := by
  have he := setError_error c1 s
  have hc : (s.setError c1).errorCause = c1 := by
    simp only [SystemState.setError, h]
    cases s.renderThread <;> rfl
  refine ⟨he, hc, ?_, ?_, setErrors_of_error cs _ he, ?_, fun s2 c h2 => setError_of_error c s2 h2⟩
  · simp only [SystemState.setError, h]
    cases s.renderThread <;> simp [SystemState.removeJob]
  · simp only [SystemState.setError, h]
    cases s.renderThread <;> simp [SystemState.removeJob]
  · rw [setErrors, setErrors_of_error cs _ he, hc]

/-- Witness of C12: two errors reported to a fresh coordinator. -/
theorem first_error_wins_witness :
    (setErrors ["first", "second"] SystemState.new).errorCause = "first" :=
  (first_error_wins SystemState.new "first" ["second"] (by decide)).2.2.2.2.2.1

/-! ## Properties of the float model -/

theorem leadingBitFrom_le (k x acc : Nat) (h : 2 ^ acc ≤ x) : 2 ^ leadingBitFrom k x acc ≤ x := by
  induction k generalizing acc with
  | zero => exact h
  | succ k ih =>
    unfold leadingBitFrom
    split
    · rename_i h1
      exact ih _ h1
    · exact ih _ h

/-- The leading bit of a positive number is a set position or below. -/
theorem leadingBit_le (x : Nat) (h : 0 < x) : 2 ^ leadingBit x ≤ x := by
  have h1 : 2 ^ 0 ≤ x := by
    rw [pow_zero]
    exact h
  have h2 : ∀ k, 2 ^ leadingBitFrom k x 0 ≤ x := fun k => leadingBitFrom_le k x 0 h1
  exact h2 10

theorem leadingBitFrom_zero (k : Nat) : leadingBitFrom k 0 0 = 0 := by
  induction k with
  | zero => rfl
  | succ k ih =>
    unfold leadingBitFrom
    rw [if_neg (by simp), ih]

theorem leadingBit_lt (x a : Nat) (h : x < 2 ^ a) (ha : 0 < a) : leadingBit x < a := by
  rcases Nat.eq_zero_or_pos x with h0 | h0
  · subst h0
    unfold leadingBit
    rw [leadingBitFrom_zero]
    exact ha
  · have h1 := leadingBit_le x h0
    exact (Nat.pow_lt_pow_iff_right (by norm_num : 1 < 2)).1 (lt_of_le_of_lt h1 h)

/-- A quotient that has at most 24 significant bits is not rounded. -/
theorem roundUnits_exact (n d m e : Nat) (hd : 0 < d) (hn : n = d * (m * 2 ^ e))
    (hm : m * 2 ^ e < 2 ^ (e + 24)) : roundUnits n d = m * 2 ^ e := by
  subst hn
  unfold roundUnits
  have hq : d * (m * 2 ^ e) / d = m * 2 ^ e := Nat.mul_div_cancel_left _ hd
  rw [hq]
  have hs : leadingBit (m * 2 ^ e) + 1 - 24 ≤ e := by
    have := leadingBit_lt (m * 2 ^ e) (e + 24) hm (by omega)
    omega
  generalize leadingBit (m * 2 ^ e) + 1 - 24 = s at hs
  obtain ⟨t, rfl⟩ := Nat.exists_eq_add_of_le hs
  have hpos : 0 < d * 2 ^ s := Nat.mul_pos hd (Nat.two_pow_pos _)
  have e1 : d * (m * 2 ^ (s + t)) = (m * 2 ^ t) * (d * 2 ^ s) := by
    rw [pow_add]; ring
  unfold roundNearestEven
  simp only [e1, Nat.mul_mod_left, Nat.mul_div_cancel _ hpos, Nat.mul_zero, hpos, if_true]
  rw [pow_add]; ring

/-- The header frame rate is exact in float arithmetic: the 16-bit field
divided by 256. -/
theorem headerFrameRate_exact (r : Nat) (h : r < 65536) :
    (headerFrameRate r).toRat = (r : ℚ) / 256 := by
  have h1 : (Binary32.ofNat r).units = r * 2 ^ 149 := by
    unfold Binary32.ofNat
    refine roundUnits_exact _ 1 r 149 (by norm_num) (by ring) ?_
    calc r * 2 ^ 149 < 65536 * 2 ^ 149 := by
          exact Nat.mul_lt_mul_of_pos_right h (Nat.two_pow_pos _)
      _ ≤ 2 ^ (149 + 24) := by norm_num
  have h2 : (Binary32.ofNat 256).units = 2 ^ 157 := by
    unfold Binary32.ofNat
    rw [roundUnits_exact _ 1 256 149 (by norm_num) (by ring) (by norm_num)]
    norm_num
  have h3 : (headerFrameRate r).units = r * 2 ^ 141 := by
    unfold headerFrameRate Binary32.div
    rw [h1, h2]
    refine roundUnits_exact _ _ r 141 (by norm_num) ?_ ?_
    · have : (2 : Nat) ^ 157 * 2 ^ 141 = 2 ^ 149 * 2 ^ 149 := by norm_num
      calc r * 2 ^ 149 * 2 ^ 149 = r * (2 ^ 149 * 2 ^ 149) := by ring
        _ = r * (2 ^ 157 * 2 ^ 141) := by rw [this]
        _ = 2 ^ 157 * (r * 2 ^ 141) := by ring
    · calc r * 2 ^ 141 < 65536 * 2 ^ 141 := by
            exact Nat.mul_lt_mul_of_pos_right h (Nat.two_pow_pos _)
        _ ≤ 2 ^ (141 + 24) := by norm_num
  unfold Binary32.toRat
  rw [h3]
  push_cast
  rw [div_eq_div_iff (by positivity) (by norm_num)]
  ring

/-- C13, counterexample: a coordinator with a virtual machine that accepts
events. The second `setShutdownFlag` runs on a system that is already
shutting down and posts a second `ShutdownEvent`. -/
theorem second_setShutdownFlag_posts_again :
    ({ SystemState.new with currentVm := some { events := [], accepting := true } }
        : SystemState).setShutdownFlag.shutdown = true
    ∧ (({ SystemState.new with currentVm := some { events := [], accepting := true } }
        : SystemState).setShutdownFlag.setShutdownFlag.currentVm.map (fun vm => vm.events))
      = some [VmEvent.ShutdownEvent, VmEvent.ShutdownEvent] := by
  decide

/-- C13 as amended: on a system that is already shutting down,
`setShutdownFlag` leaves the shutdown flag set, signals the termination
waiters once more and, when there is a virtual machine, posts one more
`ShutdownEvent` to it; nothing else changes, and without a virtual machine
the signal is the only change. -/
theorem setShutdownFlag_again (s : SystemState) (h : s.shutdown = true) :
    s.setShutdownFlag =
        { s with terminated := s.terminated + 1
                 currentVm := s.currentVm.map (fun vm => (vm.addEvent VmEvent.ShutdownEvent).1) }
    ∧ s.setShutdownFlag.shutdown = true
    ∧ (s.currentVm = none → s.setShutdownFlag = { s with terminated := s.terminated + 1 }) := by
  have e : s.setShutdownFlag =
      { s with terminated := s.terminated + 1
               currentVm := s.currentVm.map (fun vm => (vm.addEvent VmEvent.ShutdownEvent).1) } := by
    unfold SystemState.setShutdownFlag
    dsimp only
    cases hv : s.currentVm <;> simp [← h]
  refine ⟨e, ?_, ?_⟩
  · rw [e]
    exact h
  · intro hv
    rw [e, hv]
    rfl

/-- Witness of C13 as amended: a coordinator that was shut down once. -/
theorem setShutdownFlag_again_witness :
    SystemState.new.setShutdownFlag.setShutdownFlag.shutdown = true :=
  (setShutdownFlag_again SystemState.new.setShutdownFlag (by decide)).2.1

/-- With a render rate that is not negative, `setRenderRate` returns and leaves
the larger of the old and the requested rate. -/
theorem setRenderRate_max (rate : ℚ) (s : SystemState) (h0 : 0 ≤ s.renderRate) :
    ∃ s1, s.setRenderRate rate = Res.ok s1 ∧ s1.renderRate = max s.renderRate rate := by
  unfold SystemState.setRenderRate
  split
  · rename_i hge
    exact ⟨s, rfl, (max_eq_left hge).symm⟩
  · rename_i hlt
    have hlt1 : s.renderRate < rate := lt_of_not_ge hlt
    dsimp only
    cases hrt : s.renderThread with
    | none => exact ⟨_, rfl, (max_eq_right hlt1.le).symm⟩
    | some rt =>
      have hne : ¬ rate = 0 := fun e => absurd (e ▸ hlt1) (not_lt.2 h0)
      simp only [SystemState.startRenderTicks, hrt, hne, if_false]
      exact ⟨_, rfl, (max_eq_right hlt1.le).symm⟩

theorem setRenderRates_max (rs : List ℚ) (s : SystemState) (h0 : 0 ≤ s.renderRate) :
    ∃ s1, setRenderRates rs s = Res.ok s1 ∧ s1.renderRate = rs.foldl max s.renderRate := by
  induction rs generalizing s with
  | nil => exact ⟨s, rfl, rfl⟩
  | cons r rs ih =>
    obtain ⟨s1, e1, m1⟩ := setRenderRate_max r s h0
    obtain ⟨s2, e2, m2⟩ := ih s1 (by rw [m1]; exact le_max_of_le_left h0)
    refine ⟨s2, ?_, ?_⟩
    · rw [setRenderRates, e1]
      exact e2
    · rw [m2, m1]
      rfl

/-- C14: fastest requested rate wins. On a system whose render rate is 0,
every sequence of `setRenderRate` calls returns and the final `renderRate` is
the maximum of 0 and the requested rates; on any system a call whose rate is
not strictly greater than the current `renderRate` returns the state
unchanged, so the timer is not called. -/
theorem fastest_render_rate_wins (rs : List ℚ) (s : SystemState) (h : s.renderRate = 0) :
    (∃ s1, setRenderRates rs s = Res.ok s1 ∧ s1.renderRate = rs.foldl max 0)
    ∧ (∀ (s2 : SystemState) (r : ℚ), r ≤ s2.renderRate → s2.setRenderRate r = Res.ok s2) := by
  constructor
  · obtain ⟨s1, e1, m1⟩ := setRenderRates_max rs s (by rw [h])
    exact ⟨s1, e1, by rw [m1, h]⟩
  · intro s2 r hr
    unfold SystemState.setRenderRate
    rw [if_pos hr]

/-- Witness of C14: the rates 12, 24 and 6 asked of a fresh coordinator. -/
theorem fastest_render_rate_wins_witness :
    ∃ s1, setRenderRates [12, 24, 6] SystemState.new = Res.ok s1
      ∧ s1.renderRate = ([12, 24, 6] : List ℚ).foldl max 0 :=
  (fastest_render_rate_wins [12, 24, 6] SystemState.new rfl).1

/-- C15: the header frame rate is an 8.8 fixed-point value. When the header
constructor accepts a signature, the rate given to `setFrameRate` and to
`setRenderRate` is the raw field divided by 256; for a 16-bit field the float
division of the source is exact, and the field 6144 gives the rate 24. -/
theorem header_rate_is_fixed_point (i : HeaderFields) (w w1 : World) (h : SWF_HEADER)
    (hc : SWF_HEADER.ctor i w = some (h, w1)) (hv : h.valid = true) (h16 : i.FrameRate < 65536) :
    (headerFrameRate i.FrameRate).toRat = (i.FrameRate : ℚ) / 256
    ∧ w1.root = { w.root.setFrameRate ((i.FrameRate : ℚ) / 256) with
                    version := i.Version, fileLenght := i.FileLength }
    ∧ w1.root.frameRate = (i.FrameRate : ℚ) / 256
    ∧ w.sys.setRenderRate ((i.FrameRate : ℚ) / 256) = Res.ok w1.sys
    ∧ (i.FrameRate = 6144 → w1.root.frameRate = 24) := by
  have hf := headerFrameRate_exact i.FrameRate h16
  unfold SWF_HEADER.ctor at hc
  split at hc
  · dsimp only at hc
    split at hc
    · rename_i sys hs
      simp only [Option.some.injEq, Prod.mk.injEq] at hc
      obtain ⟨-, rfl⟩ := hc
      refine ⟨hf, rfl, rfl, hs, ?_⟩
      intro h6
      show (i.FrameRate : ℚ) / 256 = 24
      rw [h6]
      norm_num
    · exact absurd hc (by simp)
  · simp only [Option.some.injEq, Prod.mk.injEq] at hc
    obtain ⟨rfl, -⟩ := hc
    exact absurd hv (by simp)

/-- Witness of C15: the sample header, whose raw field is 6144, read next to a
fresh coordinator. -/
theorem header_rate_is_fixed_point_witness :
    ((SWF_HEADER.ctor HeaderFields.sample (World.fresh SystemState.new ParseThread.new)).map
        (fun p => p.2.root.frameRate)) = some 24 := by
  have hc : SWF_HEADER.ctor HeaderFields.sample (World.fresh SystemState.new ParseThread.new)
      = some ({ fields := HeaderFields.sample, valid := true },
          ((SWF_HEADER.ctor HeaderFields.sample
            (World.fresh SystemState.new ParseThread.new)).get (by decide!)).2) := by
    decide!
  have h := header_rate_is_fixed_point HeaderFields.sample _ _ _ hc rfl (by decide)
  rw [hc]
  exact congrArg some (h.2.2.2.2 rfl)

/-! ## The claims on dragging -/

theorem held_append_incRef (w : InputWorld) (s ob : Nat) (calls : List RefCall)
    (th : InputThread) :
    ({ w with refCalls := calls ++ [RefCall.incRef s], th := th } : InputWorld).held ob
      = ({ w with refCalls := calls } : InputWorld).held ob + (if s = ob then 1 else 0) := by
  unfold InputWorld.held
  simp only [List.count_append, List.count_singleton, Nat.cast_add]
  by_cases h : s = ob
  · simp [h]
    ring
  · have h1 : ¬ ob = s := fun e => h e.symm
    simp [h, h1]

theorem held_append_decRef (w : InputWorld) (s ob : Nat) (calls : List RefCall)
    (th : InputThread) :
    ({ w with refCalls := calls ++ [RefCall.decRef s], th := th } : InputWorld).held ob
      = ({ w with refCalls := calls } : InputWorld).held ob - (if s = ob then 1 else 0) := by
  unfold InputWorld.held
  simp only [List.count_append, List.count_singleton, Nat.cast_add]
  by_cases h : s = ob
  · simp [h]
    ring
  · have h1 : ¬ ob = s := fun e => h e.symm
    simp [h, h1]

theorem enableDrag_inv (s : Nat) (limit : RECT) (w : InputWorld) (hi : DragInv w) :
    ∃ w1, enableDrag (some s) limit w = some w1 ∧ DragInv w1 ∧ w1.th.curDragged = some s := by
  unfold enableDrag
  by_cases h : some s = w.th.curDragged
  · rw [if_pos h]
    exact ⟨w, rfl, hi, h.symm⟩
  · rw [if_neg h]
    refine ⟨_, rfl, ?_, rfl⟩
    intro ob
    have hob := hi ob
    cases hc : w.th.curDragged with
    | none =>
      rw [hc] at hob
      dsimp only
      rw [held_append_incRef]
      simp only [Option.some.injEq]
      simp only [reduceCtorEq, if_false] at hob
      show w.held ob + _ = _
      rw [hob]
      simp
    | some old =>
      rw [hc] at hob h
      dsimp only
      rw [held_append_incRef, held_append_decRef]
      simp only [Option.some.injEq] at hob h ⊢
      show w.held ob - _ + _ = _
      rw [hob]
      by_cases h1 : old = ob
      · have h2 : ¬ s = ob := fun e => h (e.trans h1.symm)
        simp [h1, h2]
      · simp [h1]

theorem disableDrag_inv (w : InputWorld) (hi : DragInv w) :
    DragInv (disableDrag w) ∧ (disableDrag w).th.curDragged = none := by
  unfold disableDrag
  cases hc : w.th.curDragged with
  | none => exact ⟨hi, hc⟩
  | some old =>
    refine ⟨?_, rfl⟩
    intro ob
    have hob := hi ob
    rw [hc] at hob
    dsimp only
    rw [held_append_decRef]
    simp only [Option.some.injEq] at hob
    show w.held ob - _ = _
    rw [hob]
    simp

theorem disableDrag_of_none (w : InputWorld) (h : w.th.curDragged = none) : disableDrag w = w := by
  unfold disableDrag
  rw [h]

theorem runDrag_inv (ops : List DragOp) (w : InputWorld) (hi : DragInv w) :
    ∃ w1, runDrag ops w = some w1 ∧ DragInv w1 := by
  induction ops generalizing w with
  | nil => exact ⟨w, rfl, hi⟩
  | cons op ops ih =>
    cases op with
    | enableDrag s limit =>
      obtain ⟨w1, e1, i1, -⟩ := enableDrag_inv s limit w hi
      obtain ⟨w2, e2, i2⟩ := ih w1 i1
      exact ⟨w2, by rw [runDrag, e1]; exact e2, i2⟩
    | disableDrag =>
      obtain ⟨w2, e2, i2⟩ := ih (disableDrag w) (disableDrag_inv w hi).1
      exact ⟨w2, by rw [runDrag]; exact e2, i2⟩

/-- C20: from a dispatcher that drags nothing and made no reference count
call, every sequence of `enableDrag` and `disableDrag` calls with targets that
are not `NULL` returns, and afterwards the dispatcher holds one reference on
the dragged object and none on any other. In every state: `enableDrag(s)`
while another object is dragged calls `decRef` on that object and then
`incRef` on `s`; `enableDrag` of the dragged object changes nothing;
`disableDrag` calls `decRef` on the dragged object and clears the target, and
a second `disableDrag` changes nothing. -/
theorem drag_holds_one_reference (ops : List DragOp) (w : InputWorld)
    (hd : w.th.curDragged = none) (hr : w.refCalls = []) :
    (∃ w1, runDrag ops w = some w1
      ∧ ∀ ob, w1.held ob = if w1.th.curDragged = some ob then 1 else 0)
    ∧ (∀ (u : InputWorld) (s old : Nat) (limit : RECT), u.th.curDragged = some old → s ≠ old →
        ∃ u1, enableDrag (some s) limit u = some u1
          ∧ u1.refCalls = u.refCalls ++ [RefCall.decRef old, RefCall.incRef s]
          ∧ u1.th.curDragged = some s ∧ u1.th.dragLimit = limit)
    ∧ (∀ (u : InputWorld) (s : Nat) (limit : RECT), u.th.curDragged = some s →
        enableDrag (some s) limit u = some u)
    ∧ (∀ (u : InputWorld) (old : Nat), u.th.curDragged = some old →
        (disableDrag u).refCalls = u.refCalls ++ [RefCall.decRef old]
          ∧ (disableDrag u).th.curDragged = none)
    ∧ (∀ u : InputWorld, disableDrag (disableDrag u) = disableDrag u) := by
  refine ⟨?_, ?_, ?_, ?_, ?_⟩
  · have hi : DragInv w := by
      intro ob
      unfold InputWorld.held
      rw [hd, hr]
      simp
    exact runDrag_inv ops w hi
  · intro u s old limit hc hne
    unfold enableDrag
    rw [hc, if_neg (by simpa using hne)]
    exact ⟨_, rfl, by simp, rfl, rfl⟩
  · intro u s limit hc
    unfold enableDrag
    rw [hc, if_pos rfl]
  · intro u old hc
    unfold disableDrag
    rw [hc]
    exact ⟨rfl, rfl⟩
  · intro u
    have h2 : (disableDrag u).th.curDragged = none := by
      unfold disableDrag
      cases hc : u.th.curDragged with
      | none => exact hc
      | some old => rfl
    exact disableDrag_of_none _ h2

/-- Witness of C20: a fresh dispatcher and the calls enableDrag(7),
enableDrag(9), enableDrag(9), disableDrag, disableDrag, enableDrag(7). -/
theorem drag_holds_one_reference_witness :
    ∃ w1, runDrag [DragOp.enableDrag 7 { Xmin := 0, Xmax := 10, Ymin := 0, Ymax := 10 },
          DragOp.enableDrag 9 { Xmin := 0, Xmax := 10, Ymin := 0, Ymax := 10 },
          DragOp.enableDrag 9 { Xmin := 0, Xmax := 20, Ymin := 0, Ymax := 20 },
          DragOp.disableDrag, DragOp.disableDrag,
          DragOp.enableDrag 7 { Xmin := 0, Xmax := 10, Ymin := 0, Ymax := 10 }]
        (InputWorld.new none) = some w1
      ∧ ∀ ob, w1.held ob = if w1.th.curDragged = some ob then 1 else 0 :=
  (drag_holds_one_reference _ (InputWorld.new none) rfl rfl).1

/-! ## The claims on pointer events -/

/-- Pointer events inside the table, for both workers. A hit-test id of 0 posts
no event and leaves the dispatcher alone. With a nonzero id, a hit listener
`ob` at the computed index and a virtual machine: a press posts `mouseDown` to
`ob` and nothing else, and remembers `ob` as the down-target; a release posts
`mouseUp` to `ob`, and then, when `ob` is the remembered down-target, posts
`click` to `ob` and clears the down-target; when `ob` is not the down-target
it posts nothing more and leaves the down-target alone. -/
theorem pointer_events_post (worker : PointerEvent → Binary32 → InputWorld → Option InputWorld)
    (hw : worker = sdl_worker ∨ worker = gtkplug_worker)
    (selected : Binary32) (w : InputWorld) (ob : Nat) (vm : ABCVm)
    (hsel : selected.units ≠ 0)
    (hob : listenerAt w.th.listeners (hitIndex w.th.listeners.length selected) = some ob)
    (hvm : w.currentVm = some vm) :
    (∃ w1, worker PointerEvent.press selected w = some w1
      ∧ w1.currentVm = some (vm.addEvent (VmEvent.MouseEvent ob "mouseDown")).1
      ∧ w1.th = { w.th with lastMouseDownTarget := some ob })
    ∧ (w.th.lastMouseDownTarget = some ob →
        ∃ w1, worker PointerEvent.release selected w = some w1
          ∧ w1.currentVm = some (((vm.addEvent (VmEvent.MouseEvent ob "mouseUp")).1).addEvent
                (VmEvent.MouseEvent ob "click")).1
          ∧ w1.th = { w.th with lastMouseDownTarget := none })
    ∧ (w.th.lastMouseDownTarget ≠ some ob →
        ∃ w1, worker PointerEvent.release selected w = some w1
          ∧ w1.currentVm = some (vm.addEvent (VmEvent.MouseEvent ob "mouseUp")).1
          ∧ w1.th = w.th)
    ∧ (∀ (event : PointerEvent) (zero : Binary32) (u : InputWorld), zero.units = 0 →
        ∃ u1, worker event zero u = some u1 ∧ u1.currentVm = u.currentVm ∧ u1.th = u.th) := by
  refine ⟨?_, ?_, ?_, ?_⟩
  · rcases hw with rfl | rfl
    · simp only [sdl_worker, hsel, hob, hvm, if_false]
      cases hd : w.showDebug <;> simp
    · simp only [gtkplug_worker, hsel, hob, hvm, ne_eq, not_false_eq_true, if_true]
      cases hd : w.showDebug <;> simp
  · intro hl
    rcases hw with rfl | rfl
    · simp only [sdl_worker, hsel, hob, hvm, hl, if_false, if_true]
      exact ⟨_, rfl, rfl, rfl⟩
    · simp only [gtkplug_worker, hsel, hob, hvm, hl, ne_eq, not_false_eq_true, if_true]
      exact ⟨_, rfl, rfl, rfl⟩
  · intro hl
    rcases hw with rfl | rfl
    · simp only [sdl_worker, hsel, hob, hvm, hl, if_false]
      exact ⟨_, rfl, rfl, rfl⟩
    · simp only [gtkplug_worker, hsel, hob, hvm, hl, ne_eq, not_false_eq_true, if_true, if_false]
      exact ⟨_, rfl, rfl, rfl⟩
  · intro event zero u hz
    rcases hw with rfl | rfl
    · cases event
      · unfold sdl_worker
        dsimp only
        rw [if_pos hz]
        exact ⟨_, rfl, rfl, rfl⟩
      · unfold sdl_worker
        dsimp only
        rw [if_pos hz]
        exact ⟨_, rfl, rfl, rfl⟩
    · cases event
      · unfold gtkplug_worker
        dsimp only
        rw [if_neg (not_not.2 hz)]
        exact ⟨_, rfl, rfl, rfl⟩
      · unfold gtkplug_worker
        dsimp only
        rw [if_neg (not_not.2 hz)]
        exact ⟨_, rfl, rfl, rfl⟩


/-- A press on the second of two listeners, whose id is 1. -/
theorem pointer_events_post_witness :
    ∃ w1, sdl_worker PointerEvent.press (Binary32.ofNat 1) InputWorld.sample = some w1
      ∧ w1.currentVm = some ((({ events := [], accepting := true } : ABCVm).addEvent
            (VmEvent.MouseEvent 8 "mouseDown")).1)
      ∧ w1.th = { InputWorld.sample.th with lastMouseDownTarget := some 8 } :=
  (pointer_events_post sdl_worker (Or.inl rfl) (Binary32.ofNat 1) InputWorld.sample 8
    { events := [], accepting := true } (by decide!) (by decide!) rfl).1

/-! ## Properties of the listener table -/

theorem curAfter_add (inc : Binary32) (a b : Nat) (cur : Binary32) :
    curAfter inc (a + b) cur = curAfter inc b (curAfter inc a cur) := by
  induction a generalizing cur with
  | zero => simp [curAfter]
  | succ a ih =>
    rw [Nat.succ_add, curAfter, ih]
    rfl

/-! ## The claims on listener ids -/

/-- C16, evaluation at the failing input: ten distinct listeners registered on
an empty table. The table holds them in order, but the ids are the running
float sums of `1.0f/10`: the last id is 8388609/8388608, above 1, and the
third, sixth, seventh, eighth and ninth ids are not the floats nearest to
3/10, 6/10, 7/10, 8/10 and 9/10. -/
theorem ten_listeners_last_id_above_one :
    (addListeners false [1, 2, 3, 4, 5, 6, 7, 8, 9, 10] (InputWorld.new none)).map
        (fun w => (w.th.listeners, w.th.listeners.map (fun ob => (w.id ob).toRat)))
      = Res.ok ([1, 2, 3, 4, 5, 6, 7, 8, 9, 10],
          [13421773 / 134217728, 13421773 / 67108864, 5033165 / 16777216, 13421773 / 33554432,
            1 / 2, 5033165 / 8388608, 2936013 / 4194304, 6710887 / 8388608, 1887437 / 2097152,
            8388609 / 8388608])
    ∧ (1 : ℚ) < 8388609 / 8388608 := by
  constructor
  · decide!
  · norm_num

/-- C17, evaluation at the failing input: a table of the eleven listeners 1 to
11, from which listener 5 is removed. Exactly listener 5 leaves and the order
of the others is kept, but the ids given to the ten listeners left are the
running float sums of `1.0f/10`, and the last one is 8388609/8388608, above 1. -/
theorem removeListener_last_id_above_one :
    (addListeners false [1, 2, 3, 4, 5, 6, 7, 8, 9, 10, 11] (InputWorld.new none)).map
        (fun w => ((removeListener 5 w).th.listeners,
          (removeListener 5 w).th.listeners.map (fun ob => ((removeListener 5 w).id ob).toRat)))
      = Res.ok ([1, 2, 3, 4, 6, 7, 8, 9, 10, 11],
          [13421773 / 134217728, 13421773 / 67108864, 5033165 / 16777216, 13421773 / 33554432,
            1 / 2, 5033165 / 8388608, 2936013 / 4194304, 6710887 / 8388608, 1887437 / 2097152,
            8388609 / 8388608])
    ∧ (1 : ℚ) < 8388609 / 8388608 := by
  constructor
  · decide!
  · norm_num

/-! ## The remaining claims on the input dispatcher and the render loop -/

/-- C21, evaluation at the failing input: `enableDrag(NULL, limit)` on a
dispatcher that drags nothing returns normally and changes nothing, for every
limit and every such dispatcher; the fresh dispatcher is one. With a drag
active the call does stop at `assert(s)`. -/
theorem enableDrag_null_returns_when_idle (limit : RECT) (w : InputWorld) :
    enableDrag none limit (InputWorld.new none) = some (InputWorld.new none)
    ∧ (w.th.curDragged = none → enableDrag none limit w = some w)
    ∧ (∀ old, w.th.curDragged = some old → enableDrag none limit w = none) := by
  refine ⟨rfl, ?_, ?_⟩
  · intro h
    unfold enableDrag
    rw [if_pos h.symm]
  · intro old h
    unfold enableDrag
    rw [h, if_neg (by simp)]

theorem drainRender_running (n fake : Nat) : drainRender false n fake = (0, fake + n) := by
  induction n generalizing fake with
  | zero => rfl
  | succ n ih =>
    rw [drainRender, if_neg (by simp), ih]
    congr 1
    omega

theorem iterate_draw_render (K : Nat) (rt : RenderThread) :
    (Nat.iterate RenderThread.draw K rt).render = rt.render + K := by
  induction K generalizing rt with
  | zero => rfl
  | succ K ih =>
    rw [Function.iterate_succ_apply, ih]
    simp only [RenderThread.draw]
    omega

/-- A turn of a render worker that finds a request, on a system that is not
shutting down: every pending request is taken, and the turn draws the error
screen or calls `sys->Render()`. -/
theorem worker_turn (worker : SystemState → RootMovieClip → RenderThread → TurnOutcome)
    (hw : worker = RenderThread.sdl_worker ∨ worker = RenderThread.gtkplug_worker)
    (s : SystemState) (root : RootMovieClip) (rt : RenderThread) (hr : 1 ≤ rt.render)
    (hs : s.isShuttingDown = false) :
    worker s root rt =
      if s.isOnError then TurnOutcome.errorScreen { rt with render := 0 } (rt.render - 1)
      else TurnOutcome.scene root.Render.1 { rt with render := 0 } (rt.render - 1) root.Render.2 := by
  obtain ⟨n, hn⟩ := Nat.exists_eq_add_of_le hr
  rcases hw with rfl | rfl
  · unfold RenderThread.sdl_worker
    rw [hn, Nat.add_comm 1 n]
    simp only [hs, drainRender_running, Bool.false_eq_true, if_false, Nat.zero_add,
      Nat.add_sub_cancel]
  · unfold RenderThread.gtkplug_worker
    rw [hn, Nat.add_comm 1 n]
    simp only [hs, drainRender_running, Bool.false_eq_true, if_false, Nat.zero_add,
      Nat.add_sub_cancel]

/-- C22, counterexample: three requests pending, a system that is neither
shutting down nor on error, and a frame store whose next frame to play is not
in the vector. With the store marked failed, `sys->Render()` returns without
drawing and the turn makes no draw; with the store not failed and no frame
signalled, the turn stays in `sys->Render()` and makes no draw either. The
three requests are taken in both cases. -/
theorem turn_without_draw :
    RenderThread.sdl_worker SystemState.new
        ({ RootMovieClip.fresh with next_FP := 1 } : RootMovieClip).parsingFailed { render := 3 }
      = TurnOutcome.scene RenderOutcome.returnsWithoutDrawing { render := 0 } 2
          { ({ RootMovieClip.fresh with next_FP := 1 } : RootMovieClip).parsingFailed with new_frame := 0 }
    ∧ (RenderThread.sdl_worker SystemState.new
        ({ RootMovieClip.fresh with next_FP := 1 } : RootMovieClip).parsingFailed { render := 3 }).draws = 0
    ∧ RenderThread.gtkplug_worker SystemState.new { RootMovieClip.fresh with next_FP := 1 } { render := 3 }
      = TurnOutcome.scene RenderOutcome.waits { render := 0 } 2 { RootMovieClip.fresh with next_FP := 1 }
    ∧ (RenderThread.gtkplug_worker SystemState.new { RootMovieClip.fresh with next_FP := 1 }
        { render := 3 }).draws = 0 := by
  decide

/-- C22 as amended: redraw requests coalesce, in both render workers. A turn of
the loop that starts with `K >= 1` requests pending on the render semaphore,
on a system that is not shutting down, takes all of them (`K - 1` are counted
as faked renderings) and leaves none pending. It makes one draw at most: the
error screen when the system is on error, and otherwise the scene exactly
when the next frame to play is in the frame vector; when it is not, the turn
stays in `sys->Render()` until a frame is signalled, or returns from it
without drawing once the store is marked failed. So after `K` calls of `draw`
made while no request was pending, the next turn makes one draw at most, and
a turn that starts with no request pending waits. -/
theorem redraw_requests_coalesce (worker : SystemState → RootMovieClip → RenderThread → TurnOutcome)
    (hw : worker = RenderThread.sdl_worker ∨ worker = RenderThread.gtkplug_worker)
    (s : SystemState) (root : RootMovieClip) (rt : RenderThread) (K : Nat) (hK : 1 ≤ K)
    (hp : rt.render = K) (hs : s.isShuttingDown = false) :
    (worker s root rt).pending = some 0
    ∧ (worker s root rt =
        if s.isOnError then TurnOutcome.errorScreen { rt with render := 0 } (K - 1)
        else TurnOutcome.scene root.Render.1 { rt with render := 0 } (K - 1) root.Render.2)
    ∧ (worker s root rt).draws ≤ 1
    ∧ ((worker s root rt).draws = 1 ↔
        s.isOnError = true ∨ root.next_FP < root.frames.size)
    ∧ (∀ rt0 : RenderThread, rt0.render = 0 →
        worker s root (Nat.iterate RenderThread.draw K rt0) = worker s root rt)
    ∧ (∀ root0 : RootMovieClip, worker s root0 { rt with render := 0 } = TurnOutcome.waits) := by
  have key := worker_turn worker hw s root rt (by omega) hs
  rw [hp] at key
  have hd : (worker s root rt).draws = 1 ↔ s.isOnError = true ∨ root.next_FP < root.frames.size := by
    rw [key]
    cases he : s.isOnError with
    | true => simp [TurnOutcome.draws]
    | false =>
      simp only [Bool.false_eq_true, if_false, false_or]
      rw [← Render_draws_iff root]
      cases hr : root.Render.1 <;> simp [TurnOutcome.draws]
  refine ⟨?_, key, ?_, hd, ?_, ?_⟩
  · rw [key]
    split <;> rfl
  · rw [key]
    cases he : s.isOnError with
    | true => simp [TurnOutcome.draws]
    | false =>
      simp only [Bool.false_eq_true, if_false]
      cases hr : root.Render.1 <;> simp [TurnOutcome.draws]
  · intro rt0 h0
    have hr := iterate_draw_render K rt0
    rw [h0, Nat.zero_add] at hr
    rw [key, worker_turn worker hw s root _ (by omega) hs, hr]
  · intro root0
    rcases hw with rfl | rfl <;> rfl

/-- Witness of C22 as amended: three requests pending on a fresh coordinator and
a fresh frame store, whose frame in progress is in the vector. -/
theorem redraw_requests_coalesce_witness :
    RenderThread.sdl_worker SystemState.new RootMovieClip.fresh { render := 3 }
      = (if SystemState.new.isOnError
          then TurnOutcome.errorScreen { ({ render := 3 } : RenderThread) with render := 0 } (3 - 1)
          else TurnOutcome.scene RootMovieClip.fresh.Render.1
            { ({ render := 3 } : RenderThread) with render := 0 } (3 - 1) RootMovieClip.fresh.Render.2) :=
  (redraw_requests_coalesce RenderThread.sdl_worker (Or.inl rfl) SystemState.new RootMovieClip.fresh
    { render := 3 } 3 (by decide) rfl rfl).2.1

/-- C26, evaluation at the failing input: one listener and the pixel byte 1.
`getIdAt` returns the float nearest to 1/255, the product with the table size 1
rounds to 0, and the index is -1, outside the table. The same happens with two
listeners and the byte 63. -/
theorem hitIndex_below_table :
    (getIdAt 1).units ≠ 0
    ∧ hitIndex 1 (getIdAt 1) = -1
    ∧ listenerAt [7] (hitIndex [7].length (getIdAt 1)) = none
    ∧ hitIndex 2 (getIdAt 63) = -1 := by
  decide!

/-! ## The first-frame hooks along sequences of calls -/

/-- C23, counterexample: on a fresh store the calls commitFrame(true),
revertFrame, commitFrame(true) all return; the second commit is not the first
successful one, yet it runs `bootstrap` and registers the frame tick again.
And after revertFrame on the fresh store, the first commit returns without
running the hooks and the second commit runs them. -/
theorem hooks_fire_in_a_later_commit :
    ((runCalls [StoreOp.commitFrame true] (World.fresh SystemState.new ParseThread.new)).map
        (fun w => (w.root.bootstraps, w.sys.timerThread)))
      = Res.ok (1, [TimerCall.addTick none ITickJob.root])
    ∧ ((runCalls [StoreOp.commitFrame true, StoreOp.revertFrame, StoreOp.commitFrame true]
          (World.fresh SystemState.new ParseThread.new)).map
        (fun w => (w.root.bootstraps, w.sys.timerThread)))
      = Res.ok (2, [TimerCall.addTick none ITickJob.root, TimerCall.addTick none ITickJob.root])
    ∧ ((runCalls [StoreOp.revertFrame, StoreOp.commitFrame true]
          (World.fresh SystemState.new ParseThread.new)).map
        (fun w => (w.root.bootstraps, w.sys.timerThread)))
      = Res.ok (0, [])
    ∧ ((runCalls [StoreOp.revertFrame, StoreOp.commitFrame true, StoreOp.commitFrame true]
          (World.fresh SystemState.new ParseThread.new)).map
        (fun w => (w.root.bootstraps, w.sys.timerThread)))
      = Res.ok (1, [TimerCall.addTick none ITickJob.root]) := by
  decide!

/-- With a virtual machine that accepts events, or none, a commit returns and
runs the first-frame hooks exactly when the vector holds one frame at the
call. -/
theorem commitFrame_hooks (another : Bool) (w : World) (hv : w.sys.vmAccepts = true) :
    ∃ w1, commitFrame another w = Res.ok w1 ∧ w1.sys.vmAccepts = true
      ∧ w1.root.frames.size = w.root.frames.size + (if another then 1 else 0)
      ∧ w1.root.framesLoaded = w.root.frames.size
      ∧ w1.root.frameRate = w.root.frameRate
      ∧ w1.root.bootstraps = w.root.bootstraps + (if w.root.frames.size = 1 then 1 else 0)
      ∧ w1.sys.timerThread = w.sys.timerThread ++
          (if w.root.frames.size = 1 then [TimerCall.addTick (tickTime w.root.frameRate) ITickJob.root]
            else []) := by
  obtain ⟨w1, h1, v1, -, -⟩ := commitFrame_ok another w hv
  obtain ⟨hl, hf, -⟩ := commitFrame_state another w w1 (by rw [h1]; rfl)
  refine ⟨w1, h1, v1, ?_, hl, ?_⟩
  · rw [hf]
    cases another
    · simp
    · simp [FrameVector.size_push_back]
  · unfold commitFrame at h1
    dsimp only at h1
    rw [if_neg (by simp [FrameVector.size_le_capacity])] at h1
    have hfl : (w.root.publishFrame another).framesLoaded = w.root.frames.size := by
      unfold RootMovieClip.publishFrame
      cases another <;> rfl
    have hfr : (w.root.publishFrame another).frameRate = w.root.frameRate := by
      unfold RootMovieClip.publishFrame
      cases another <;> rfl
    have hbs : (w.root.publishFrame another).bootstraps = w.root.bootstraps := by
      unfold RootMovieClip.publishFrame
      cases another <;> rfl
    by_cases hsz : w.root.frames.size = 1
    · rw [if_pos (by rw [hfl]; exact hsz)] at h1
      simp only [hsz, if_true]
      unfold firstFrameReady at h1
      obtain ⟨w0, h0, -, -, -⟩ := initializeRoot_ok
        { ({ w with root := w.root.publishFrame another } : World) with
          root := { (w.root.publishFrame another) with
            bootstraps := (w.root.publishFrame another).bootstraps + 1 } } hv
      have hst := initializeRoot_state _ _ (by rw [h0]; rfl : (initializeRoot _).state? = some w0)
      rw [h0] at h1
      simp only [Res.andThen, Res.ok.injEq] at h1
      subst h1
      obtain ⟨hr, -, ht⟩ := hst
      refine ⟨?_, ?_, ?_⟩
      · simp only [postNewFrame]
        rw [hr]
        exact hfr
      · simp only [postNewFrame]
        rw [hr]
        simp only [hbs]
      · simp only [postNewFrame, SystemState.addTick]
        rw [hr, ht]
        simp only [hfr]
    · rw [if_neg (by rw [hfl]; exact hsz)] at h1
      simp only [Res.andThen, Res.ok.injEq] at h1
      subst h1
      simp only [hsz, if_false, postNewFrame, Nat.add_zero, List.append_nil]
      exact ⟨hfr, hbs, trivial⟩


/-- The calls of the parser on the store up to a point: `commitFrame(true)` a
number of times on a vector that is not empty. The hooks run once, in the
first call, when the vector holds one frame at the start, and in no call
otherwise. -/
theorem commits_hooks (k : Nat) (w : World) (hv : w.sys.vmAccepts = true)
    (hsz : 1 ≤ w.root.frames.size) :
    ∃ w1, runCalls (List.replicate k (StoreOp.commitFrame true)) w = Res.ok w1
      ∧ w1.sys.vmAccepts = true
      ∧ w1.root.frames.size = w.root.frames.size + k
      ∧ (w.root.framesLoaded + 1 = w.root.frames.size →
          w1.root.framesLoaded + 1 = w1.root.frames.size)
      ∧ w1.root.frameRate = w.root.frameRate
      ∧ w1.root.bootstraps = w.root.bootstraps
          + (if w.root.frames.size = 1 ∧ 0 < k then 1 else 0)
      ∧ w1.sys.timerThread = w.sys.timerThread ++
          (if w.root.frames.size = 1 ∧ 0 < k
            then [TimerCall.addTick (tickTime w.root.frameRate) ITickJob.root] else []) := by
  induction k generalizing w with
  | zero => exact ⟨w, rfl, hv, rfl, fun h => h, rfl, by simp, by simp⟩
  | succ k ih =>
    obtain ⟨w0, e0, v0, s0, l0, r0, b0, t0⟩ := commitFrame_hooks true w hv
    simp only [if_true] at s0
    obtain ⟨w1, e1, v1, s1, l1, r1, b1, t1⟩ := ih w0 v0 (by omega)
    have h2 : ¬ (w0.root.frames.size = 1 ∧ 0 < k) := by
      intro hc
      omega
    rw [if_neg h2] at b1 t1
    refine ⟨w1, ?_, v1, ?_, ?_, ?_, ?_, ?_⟩
    · rw [List.replicate_succ, runCalls]
      show (commitFrame true w).andThen _ = _
      rw [e0]
      exact e1
    · rw [s1, s0]
      omega
    · intro _
      exact l1 (by rw [l0, s0])
    · rw [r1, r0]
    · rw [b1, b0]
      by_cases h : w.root.frames.size = 1 <;> simp [h]
    · rw [t1, t0]
      by_cases h : w.root.frames.size = 1 <;> simp [h]

theorem runCalls_append (ops1 ops2 : List StoreOp) (w : World) :
    runCalls (ops1 ++ ops2) w = (runCalls ops1 w).andThen (runCalls ops2) := by
  induction ops1 generalizing w with
  | nil => rfl
  | cons op ops ih =>
    simp only [List.cons_append, runCalls]
    cases op.apply w with
    | ok w1 => exact ih w1
    | threw c w1 => rfl
    | crash => rfl

/-- C23 as amended: a commit runs the first-frame hooks (a `bootstrap`, the
`initialize` call and the registration of the frame tick with the period of
`frameRate`) exactly when the frame vector holds one frame at the call. Along
the calls the parser makes on a store with one frame in progress and nothing
committed, which are `commitFrame(true)` any number of times and then nothing,
one `commitFrame(false)` or one `revertFrame`, every call returns and the
hooks have run once when the sequence holds a commit and not at all
otherwise; as every prefix of such a sequence is one too, they run in the
first commit and in no later call. The virtual machine, when there is one,
accepts events. -/
theorem first_frame_hooks_once (w : World) (k : Nat) (final : List StoreOp)
    (hv : w.sys.vmAccepts = true) (h1 : w.root.frames.size = 1) (h0 : w.root.framesLoaded = 0)
    (hf : final = [] ∨ final = [StoreOp.commitFrame false] ∨ final = [StoreOp.revertFrame]) :
    (∃ w1, runCalls (List.replicate k (StoreOp.commitFrame true) ++ final) w = Res.ok w1
      ∧ w1.root.bootstraps = w.root.bootstraps
          + (if 0 < k ∨ final = [StoreOp.commitFrame false] then 1 else 0)
      ∧ w1.sys.timerThread = w.sys.timerThread ++
          (if 0 < k ∨ final = [StoreOp.commitFrame false]
            then [TimerCall.addTick (tickTime w.root.frameRate) ITickJob.root] else []))
    ∧ (∀ (u : World) (another : Bool), u.sys.vmAccepts = true →
        ∃ u1, commitFrame another u = Res.ok u1
          ∧ u1.root.bootstraps = u.root.bootstraps + (if u.root.frames.size = 1 then 1 else 0)
          ∧ u1.sys.timerThread = u.sys.timerThread ++
              (if u.root.frames.size = 1
                then [TimerCall.addTick (tickTime u.root.frameRate) ITickJob.root] else [])) := by
  constructor
  · obtain ⟨w1, e1, v1, s1, l1, r1, b1, t1⟩ := commits_hooks k w hv (by omega)
    have l2 := l1 (by rw [h0, h1])
    rw [runCalls_append, e1]
    simp only [Res.andThen]
    simp only [h1, true_and] at b1 t1
    rcases hf with rfl | rfl | rfl
    · refine ⟨w1, rfl, ?_, ?_⟩
      · rw [b1]
        simp
      · rw [t1]
        simp
    · obtain ⟨w2, e2, -, -, -, r2, b2, t2⟩ := commitFrame_hooks false w1 v1
      refine ⟨w2, ?_, ?_, ?_⟩
      · show (commitFrame false w1).andThen _ = _
        rw [e2]
        rfl
      · rw [b2, b1, s1, h1]
        by_cases hk : 0 < k
        · have : ¬ (1 + k = 1) := by omega
          simp [hk, this]
        · have : k = 0 := by omega
          subst this
          simp
      · rw [t2, t1, s1, h1, r1]
        by_cases hk : 0 < k
        · have : ¬ (1 + k = 1) := by omega
          simp [hk, this]
        · have : k = 0 := by omega
          subst this
          simp
    · have hrev : RootMovieClip.revertFrame w1.root
          = Res.ok { w1.root with frames := w1.root.frames.pop_back, cur_frame := none } := by
        unfold RootMovieClip.revertFrame
        rw [if_pos ⟨by omega, by omega⟩]
      refine ⟨{ w1 with root := { w1.root with frames := w1.root.frames.pop_back, cur_frame := none } },
        ?_, ?_, ?_⟩
      · show (World.onRoot RootMovieClip.revertFrame w1).andThen _ = _
        unfold World.onRoot
        rw [hrev]
        rfl
      · show w1.root.bootstraps = _
        rw [b1]
        simp
      · show w1.sys.timerThread = _
        rw [t1]
        simp
  · intro u another hu
    obtain ⟨u1, e1, -, -, -, -, b1, t1⟩ := commitFrame_hooks another u hu
    exact ⟨u1, e1, b1, t1⟩

/-- Witness of C23 as amended: two frames shown and a last one committed at the
end, on a fresh store. -/
theorem first_frame_hooks_once_witness :
    ∃ w1, runCalls (List.replicate 2 (StoreOp.commitFrame true) ++ [StoreOp.commitFrame false])
        (World.fresh SystemState.new ParseThread.new) = Res.ok w1
      ∧ w1.root.bootstraps = (World.fresh SystemState.new ParseThread.new).root.bootstraps
          + (if 0 < 2 ∨ [StoreOp.commitFrame false] = [StoreOp.commitFrame false] then 1 else 0)
      ∧ w1.sys.timerThread = (World.fresh SystemState.new ParseThread.new).sys.timerThread ++
          (if 0 < 2 ∨ [StoreOp.commitFrame false] = [StoreOp.commitFrame false]
            then [TimerCall.addTick
              (tickTime (World.fresh SystemState.new ParseThread.new).root.frameRate) ITickJob.root]
            else []) :=
  (first_frame_hooks_once (World.fresh SystemState.new ParseThread.new) 2 [StoreOp.commitFrame false]
    (by decide) (by decide) (by decide) (Or.inr (Or.inl rfl))).1

/-! ## The cancellation point of the parser loop -/

/-- The handling of a tag leaves the parser job itself alone, so an abort
request made before it is still there after it. -/
theorem switchOnTag_pt (t : Tag) (l l1 : ParseLocals) (h : switchOnTag t l = Res.ok l1) :
    l1.w.pt = l.w.pt := by
  have commit : ∀ (another : Bool) (e : Bool),
      ((commitFrame another l.w).map fun w1 => { l with w := w1 }).andThen
          (fun l2 => Res.ok { l2 with empty := e }) = Res.ok l1 → l1.w.pt = l.w.pt := by
    intro another e hc
    cases hcf : commitFrame another l.w with
    | ok w1 =>
      rw [hcf] at hc
      simp only [Res.map, Res.andThen, Res.ok.injEq] at hc
      subst hc
      exact (commitFrame_state another l.w w1 (by rw [hcf]; rfl)).2.2.2.2.2.2
    | threw c w1 => rw [hcf] at hc; simp [Res.map, Res.andThen] at hc
    | crash => rw [hcf] at hc; simp [Res.map, Res.andThen] at hc
  have store : ∀ (g : RootMovieClip → Res RootMovieClip) (k : ParseLocals → ParseLocals),
      (∀ x, (k x).w = x.w) →
      ((l.w.onRoot g).map fun w1 => { l with w := w1 }).andThen
          (fun l2 => Res.ok (k l2)) = Res.ok l1 → l1.w.pt = l.w.pt := by
    intro g k hk hc
    cases hg : l.w.onRoot g with
    | ok w1 =>
      rw [hg] at hc
      simp only [Res.map, Res.andThen, Res.ok.injEq] at hc
      subst hc
      obtain ⟨r, -, hw⟩ := onRoot_state g l.w w1 (by rw [hg]; rfl)
      rw [hk, hw]
    | threw c w1 => rw [hg] at hc; simp [Res.map, Res.andThen] at hc
    | crash => rw [hg] at hc; simp [Res.map, Res.andThen] at hc
  unfold switchOnTag at h
  split at h
  · split at h
    · rename_i he
      cases hcf : commitFrame false l.w with
      | ok w1 =>
        rw [hcf] at h
        simp only [Res.map, Res.andThen, Res.ok.injEq] at h
        subst h
        exact (commitFrame_state false l.w w1 (by rw [hcf]; rfl)).2.2.2.2.2.2
      | threw c w1 => rw [hcf] at h; simp [Res.map, Res.andThen] at h
      | crash => rw [hcf] at h; simp [Res.map, Res.andThen] at h
    · exact store RootMovieClip.revertFrame (fun x => { x with done := true }) (fun _ => rfl) h
  · simp only [Res.ok.injEq] at h
    subst h
    rfl
  · exact store _ (fun x => { x with empty := false }) (fun _ => rfl) h
  · exact commit true true h
  · exact store _ (fun x => { x with empty := false }) (fun _ => rfl) h
  · exact store _ (fun x => { x with empty := false }) (fun _ => rfl) h
  · simp only [Res.ok.injEq] at h
    subst h
    rfl

/-- An abort request among the actions of other threads leaves `aborting` set,
whatever the other actions are. -/
theorem env_aborting (env : List EnvAction) (w : World)
    (h : w.pt.aborting = true ∨ EnvAction.stop ∈ env) :
    (env.foldl (fun x a => a.apply x) w).pt.aborting = true := by
  induction env generalizing w with
  | nil =>
    rcases h with h | h
    · exact h
    · simp at h
  | cons a as ih =>
    rw [List.foldl_cons]
    apply ih
    cases a with
    | setShutdownFlag =>
      rcases h with h | h
      · exact Or.inl h
      · right
        simpa using h
    | setError c =>
      rcases h with h | h
      · exact Or.inl h
      · right
        simpa using h
    | stop => exact Or.inl rfl


/-- C24: the loop of `execute` has one cancellation point per unit. Let the
header be read, the units `pre` be processed with the loop still going, and
unit `u` give a tag whose handling returns. The loop then makes its one test
of shutdown, error and abort: when one of them holds, `execute` returns
whatever units follow, so none of them is read, and the store and the tag
storage it returns are those the handling of `u` left, the frame in progress
neither committed nor reverted; when none holds and the tag was not the END
tag, the loop goes on with the unit that follows. An abort request that
arrives while `u` is read is seen only at that test, after `u` was handled.
`threadAbort` leaves the store as the `catch` block of a decode error does:
marked failed. -/
theorem one_cancellation_point_per_unit (i : HeaderFields) (pre : List StreamUnit) (u : StreamUnit)
    (empty : Bool) (w w0 w4 : World) (t : Tag) (l : ParseLocals)
    (hhead : headerPhase i w = Res.ok w0)
    (hpre : ∀ rest, tagLoop (pre ++ rest) true w0 = tagLoop rest empty w4)
    (hread : u.read = ReadResult.tag t)
    (hsw : switchOnTag t
        { w := { (u.env.foldl (fun x a => a.apply x) w4) with
                  sys := { (u.env.foldl (fun x a => a.apply x) w4).sys with
                    tagsStorage := (u.env.foldl (fun x a => a.apply x) w4).sys.tagsStorage ++ [t] } },
          done := false, empty := empty } = Res.ok l) :
    ((l.w.sys.shouldTerminate = true ∨ l.w.pt.aborting = true) →
        ∀ us, execute i (pre ++ u :: us) w = ExecOutcome.returned (signalEnded l.w))
    ∧ (signalEnded l.w).root = l.w.root
    ∧ (signalEnded l.w).sys = l.w.sys
    ∧ (l.w.sys.shouldTerminate = false → l.w.pt.aborting = false → l.done = false →
        ∀ us, tryBlock i (pre ++ u :: us) w = tagLoop us l.empty l.w)
    ∧ (EnvAction.stop ∈ u.env → l.w.pt.aborting = true)
    ∧ (∀ (x : World) (c : String), (threadAbort x).root = (catchBlock c x).root
        ∧ (threadAbort x).root.parsingIsFailed = true) := by
  have htry : ∀ rest, tryBlock i (pre ++ rest) w = tagLoop rest empty w4 := by
    intro rest
    unfold tryBlock
    rw [hhead]
    exact hpre rest
  refine ⟨?_, rfl, rfl, ?_, ?_, ?_⟩
  · intro hflag us
    unfold execute
    rw [htry (u :: us)]
    simp only [tagLoop, hread, hsw]
    have : (l.w.sys.shouldTerminate || l.w.pt.aborting) = true := by
      rcases hflag with h | h <;> simp [h]
    rw [if_pos this]
  · intro h1 h2 h3 us
    rw [htry (u :: us)]
    simp only [tagLoop, hread, hsw, h1, h2, h3, Bool.or_self, Bool.false_eq_true, if_false]
  · intro hstop
    rw [switchOnTag_pt t _ l hsw]
    exact env_aborting u.env w4 (Or.inr hstop)
  · intro x c
    exact ⟨rfl, rfl⟩

/-- Witness of C24: the first unit after the header is a display list tag, an
abort request arrives while it is read, and a SHOW tag follows, which is not
read. -/
theorem one_cancellation_point_per_unit_witness :
    execute HeaderFields.sample
        ([] ++ { env := [EnvAction.stop], read := ReadResult.tag ⟨TagType.DISPLAY_LIST_TAG, 1, ""⟩ }
          :: [StreamUnit.ofTag ⟨TagType.SHOW_TAG, 2, ""⟩])
        (World.fresh SystemState.new ParseThread.new)
      = ExecOutcome.returned (signalEnded
          ((switchOnTag ⟨TagType.DISPLAY_LIST_TAG, 1, ""⟩
            { w := { ([EnvAction.stop].foldl (fun x a => a.apply x)
                        ((headerPhase HeaderFields.sample
                          (World.fresh SystemState.new ParseThread.new)).state?.getD
                            (World.fresh SystemState.new ParseThread.new))) with
                      sys := { ([EnvAction.stop].foldl (fun x a => a.apply x)
                        ((headerPhase HeaderFields.sample
                          (World.fresh SystemState.new ParseThread.new)).state?.getD
                            (World.fresh SystemState.new ParseThread.new))).sys with
                        tagsStorage := ([EnvAction.stop].foldl (fun x a => a.apply x)
                          ((headerPhase HeaderFields.sample
                            (World.fresh SystemState.new ParseThread.new)).state?.getD
                              (World.fresh SystemState.new ParseThread.new))).sys.tagsStorage
                            ++ [⟨TagType.DISPLAY_LIST_TAG, 1, ""⟩] } },
              done := false, empty := true }).state?.getD
            { w := World.fresh SystemState.new ParseThread.new, done := false, empty := true }).w) :=
  (one_cancellation_point_per_unit HeaderFields.sample []
    { env := [EnvAction.stop], read := ReadResult.tag ⟨TagType.DISPLAY_LIST_TAG, 1, ""⟩ } true
    (World.fresh SystemState.new ParseThread.new)
    ((headerPhase HeaderFields.sample (World.fresh SystemState.new ParseThread.new)).state?.getD
      (World.fresh SystemState.new ParseThread.new))
    ((headerPhase HeaderFields.sample (World.fresh SystemState.new ParseThread.new)).state?.getD
      (World.fresh SystemState.new ParseThread.new))
    ⟨TagType.DISPLAY_LIST_TAG, 1, ""⟩ _ (by decide!) (fun _ => rfl) rfl (by decide!)).1
    (Or.inr (by decide!)) [StreamUnit.ofTag ⟨TagType.SHOW_TAG, 2, ""⟩]

/-! ## The claim on the profiling samples -/

theorem parseLoop_done (vars : List Nat) (fuel cur : Nat) (params : List (List Nat × List Nat))
    (h : vars.length ≤ cur) : parseLoop vars fuel cur params = params := by
  cases fuel with
  | zero => rfl
  | succ fuel => rw [parseLoop, if_neg (by omega)]

theorem findFrom_bounds (c : Nat) (l : List Nat) (i n : Nat) (h : findFrom c l i = some n) :
    i ≤ n ∧ n < i + l.length := by
  induction l generalizing i with
  | nil => simp [findFrom] at h
  | cons x xs ih =>
    rw [findFrom] at h
    split at h
    · simp only [Option.some.injEq] at h
      subst h
      simp
    · have := ih (i + 1) h
      simp only [List.length_cons]
      omega

/-- The bound on the turns of the decoding loop is not reached before the loop
ends by itself. -/
theorem decodeLoop_fuel (vars : List Nat) (n2 fuel j : Nat) (acc : List Nat) (h : n2 ≤ j + fuel) :
    decodeLoop vars n2 (fuel + 1) j acc = decodeLoop vars n2 fuel j acc := by
  induction fuel generalizing j acc with
  | zero =>
    simp only [decodeLoop]
    rw [if_neg (by omega)]
  | succ fuel ih =>
    rw [decodeLoop]
    conv_rhs => rw [decodeLoop]
    by_cases h1 : j < n2
    · rw [if_pos h1, if_pos h1]
      by_cases h2 : vars.getD j 0 ≠ '%'.toNat
      · rw [if_pos h2, if_pos h2]
        exact ih _ _ (by omega)
      · rw [if_neg h2, if_neg h2]
        by_cases h3 : n2 - j < 3
        · rw [if_pos h3, if_pos h3]
        · rw [if_neg h3, if_neg h3]
          dsimp only
          by_cases h4 : hexToInt (vars.getD (j + 1) 0) = -1 ∨ hexToInt (vars.getD (j + 2) 0) = -1
          · rw [if_pos h4, if_pos h4]
          · rw [if_neg h4, if_neg h4]
            exact ih _ _ (by omega)
    · rw [if_neg h1, if_neg h1]

/-- The bound on the turns of the parameter loop is not reached before the loop
ends by itself. -/
theorem parseLoop_fuel (vars : List Nat) (fuel cur : Nat) (params : List (List Nat × List Nat))
    (h : vars.length ≤ cur + fuel) :
    parseLoop vars (fuel + 1) cur params = parseLoop vars fuel cur params := by
  induction fuel generalizing cur params with
  | zero => rw [parseLoop_done _ _ _ _ (by omega), parseLoop_done _ _ _ _ (by omega)]
  | succ fuel ih =>
    rw [parseLoop]
    conv_rhs => rw [parseLoop]
    split_ifs with hc
    · cases h1 : find vars '='.toNat cur with
      | none => rfl
      | some n1 =>
        have b1 := findFrom_bounds _ _ _ _ h1
        dsimp only
        apply ih
        cases h2 : find vars '&'.toNat (n1 + 1) with
        | none =>
          simp only [Option.getD_none]
          omega
        | some n2 =>
          have b2 := findFrom_bounds _ _ _ _ h2
          simp only [Option.getD_some]
          omega
    · rfl

/-- C19, evaluation at the failing input: a table with the one listener 7, next
to a virtual machine that accepts events, and the pixel byte 1 under the
pointer. The id `getIdAt` returns is not 0, the index computed is -1, and both
workers, on a press as on a release, read `listeners[-1]`, outside the table:
there is no hit listener and no state in which `mouseDown` or `mouseUp` was
posted to one. -/
theorem pointer_event_outside_table :
    (getIdAt 1).units ≠ 0
    ∧ (addListener false 7 (InputWorld.new (some { events := [], accepting := true }))).map
        (fun w => (w.th.listeners, hitIndex w.th.listeners.length (getIdAt 1),
          [(sdl_worker PointerEvent.press (getIdAt 1) w).isNone,
            (sdl_worker PointerEvent.release (getIdAt 1) w).isNone,
            (gtkplug_worker PointerEvent.press (getIdAt 1) w).isNone,
            (gtkplug_worker PointerEvent.release (getIdAt 1) w).isNone]))
      = Res.ok ([7], -1, [true, true, true, true]) := by
  decide!


/-- The tick time is taken from the float quotient: at the rate 333.333344f the
exact quotient is below 3 and the float quotient is 3. -/
theorem tickTime_of_float_quotient :
    tickTime (10922667 / 32768) = some 3 ∧ (1000 : ℚ) / (10922667 / 32768) < 3
    ∧ tickTime 24 = some 41 ∧ tickTime 0 = none := by
  decide!

end Lightspark
